import Mathlib

/-!
# Credential lifecycle engine of 6g-digi-wallet

A shallow embedding of the Go packages `models`, `storage`, `crypto6g`, `issuer`, `wallet`
and `verifier`, followed by theorems about them.

Conventions of the embedding.

* A Go function returning `(T, error)` becomes a function into `Except String T`; a function
  returning `(bool, error)` returns the pair itself, as `Bool × Option String`.
* A service method that writes to its store takes the store state and returns the new one.
* The clock (`time.Now()`), the UUID generator and the library routines of `crypto/ed25519`,
  `math/rand`, `encoding/base64` and the JSON text writer are inputs of the functions that
  call them.
* A Go map is the list of its entries in increasing key order; a nil slice and an empty slice
  are both the empty list, a nil map and an empty map likewise. Where the difference shows,
  in the round trip of a DID document through `omitempty` fields, the types
  `ExactDIDDocument` and `ExactPublicKeyEntry` tell nil from empty.
* A `time.Time` is its instant, read in the UTC location.
* The file of a `FileStore` is the list of the record lines that `persist` wrote, and the
  outcome of `os.Create` is part of the store state.
-/

set_option autoImplicit false

namespace Wallet6G

/-! ## Go values -/

/-- Byte strings, the Go type `[]byte`. -/
abbrev Bytes := List Nat

/-- Instants, the Go type `time.Time`, in nanoseconds since the Unix epoch. The zone and
the monotonic clock reading of a `time.Time` are not part of the model: where they matter,
in the JSON text of a time, a value stands for the time in the UTC location with this
instant, as JSON decoding of a `Z` time and `Round` on a UTC clock produce it. -/
abbrev Time := Int

/-- The zero `time.Time`: 1 January of year 1, 00:00:00 UTC. -/
def zeroTime : Time := -62135596800 * 1000000000

/-- JSON documents as `encoding/json` writes and reads them for the types of this program.
`time` is the JSON string holding the RFC 3339 text of an instant and `bytes` the JSON string
holding the base64 text of a byte string; the values of a `map[string]any` are JSON documents
themselves. -/
inductive JVal where
  | null
  | bool (b : Bool)
  | num (float64 : Nat)
  | str (s : String)
  | time (t : Time)
  | bytes (bs : Bytes)
  | arr (items : List JVal)
  | obj (fields : List (String × JVal))
  deriving Inhabited

/-- Name that `encoding/json` gives to the kind of a JSON value in its error messages. -/
def JVal.kind : JVal → String
  | .null => "null"
  | .bool _ => "bool"
  | .num _ => "number"
  | .str _ => "string"
  | .time _ => "string"
  | .bytes _ => "string"
  | .arr _ => "array"
  | .obj _ => "object"

/-- Outcome of a Go call that may panic instead of returning. -/
inductive Outcome (α : Type) where
  | ret (a : α)
  | panic (msg : String)

/-- Lexicographic order on character sequences, the order of Go strings. -/
def lexLt : List Char → List Char → Bool
  | [], [] => false
  | [], _ :: _ => true
  | _ :: _, [] => false
  | a :: as, b :: bs =>
    if a.toNat < b.toNat then true
    else if a.toNat = b.toNat then lexLt as bs
    else false

/-- Comparison `a < b` of Go strings. -/
def strLt (a b : String) : Bool := lexLt a.data b.data

/-- Go `strings.HasPrefix(s, p)`. -/
def hasPrefix (s p : String) : Bool := p.data.isPrefixOf s.data

/-- Go map with string keys: its entries, in increasing key order. -/
abbrev GoMap (α : Type) := List (String × α)

/-- Map read `m[k]` with the comma-ok result. -/
def GoMap.get {α : Type} : GoMap α → String → Option α
  | [], _ => none
  | (k', v) :: t, k => if k' = k then some v else GoMap.get t k

/-- Map write `m[k] = v`. -/
def GoMap.set {α : Type} : GoMap α → String → α → GoMap α
  | [], k, v => [(k, v)]
  | (k', v') :: t, k, v =>
    if k = k' then (k, v) :: t
    else if strLt k k' then (k, v) :: (k', v') :: t
    else (k', v') :: GoMap.set t k v

/-- Keys of a map. -/
def GoMap.keys {α : Type} (m : GoMap α) : List String := m.map Prod.fst

/-- Go `maps.Copy(dst, src)`: every entry of `src` is written into `dst`. -/
def mapsCopy {α : Type} (dst src : GoMap α) : GoMap α :=
  src.foldl (fun d kv => GoMap.set d kv.1 kv.2) dst

/-! ## internal/models -/

/-- Go struct `models.PublicKeyEntry`. -/
structure PublicKeyEntry where
  ID : String
  Typ : String
  Controller : String
  PublicKeyJWK : GoMap JVal

/-- Go struct `models.DIDDocument`. -/
structure DIDDocument where
  ID : String
  Context : List String
  PublicKey : List PublicKeyEntry

/-- Go struct `models.VCRequest`. -/
structure VCRequest where
  IssuerDID : String
  SubjectDID : String
  CredentialType : List String
  Claims : GoMap JVal
  ValidityDays : Int
  Options : GoMap JVal

/-- Go struct `models.CredentialStatus`. -/
structure CredentialStatus where
  ID : String
  Typ : String

/-- Go struct `models.Proof`. -/
structure Proof where
  Typ : String
  Created : Time
  ProofPurpose : String
  VerificationMethod : String
  JWS : String
  SignatureValue : String

/-- Go struct `models.VerifiableCredential`. -/
structure VerifiableCredential where
  Context : List String
  ID : String
  Typ : List String
  Issuer : String
  IssuanceDate : Time
  ExpirationDate : Option Time
  CredentialSubject : GoMap JVal
  CredentialStatus : Option CredentialStatus
  Proof : Option Proof

/-- Go struct `models.VerifiablePresentation`; an entry of `VerifiableCredential` is a pointer
and may be nil. -/
structure VerifiablePresentation where
  Context : List String
  Typ : List String
  VerifiableCredential : List (Option VerifiableCredential)
  Holder : String
  Proof : Option Proof
  Nonce : String
  Created : Time

/-- Go struct `models.VCFilter`. -/
structure VCFilter where
  Issuer : String
  SubjectID : String
  CredType : String
  ActiveOnly : Bool
  ExpiredOnly : Bool

/-- Go struct `models.VPFilter`. -/
structure VPFilter where
  Issuer : String
  SubjectID : String
  CredType : String
  ActiveOnly : Bool
  ExpiredOnly : Bool

/-! ## encoding/json for the types of `models` -/

/-- The year of a UTC time lies in 0..9999, which `Time.MarshalJSON` requires. Go tests
the year on the wall clock of the time's own zone; for a UTC time that is the year of the
instant. -/
def timeMarshalOK (t : Time) : Bool :=
  decide (-62167219200 * 1000000000 ≤ t) && decide (t < 253402300800 * 1000000000)

/-- JSON text of a `time.Time`. -/
def encodeTime (t : Time) : Except String JVal :=
  if timeMarshalOK t then .ok (.time t)
  else .error "json: error calling MarshalJSON for type time.Time: Time.MarshalJSON: year outside of range [0,9999]"

/-- JSON text of a `[]string` that is not omitted. -/
def encodeStrings (l : List String) : JVal :=
  if l.isEmpty then .null else .arr (l.map JVal.str)

/-- JSON text of a `map[string]any` that is not omitted. -/
def encodeMap (m : GoMap JVal) : JVal :=
  if m.isEmpty then .null else .obj m

/-- Object member of a string field tagged `omitempty`. -/
def omitEmptyStr (name value : String) : List (String × JVal) :=
  if value = "" then [] else [(name, .str value)]

/-- Object member of a pointer field tagged `omitempty`. -/
def omitNil (name : String) (value : Option JVal) : List (String × JVal) :=
  match value with
  | none => []
  | some j => [(name, j)]

/-- JSON text of a `models.Proof`. -/
def encodeProof (p : Proof) : Except String JVal :=
  match encodeTime p.Created with
  | .error e => .error e
  | .ok created =>
    .ok (.obj ([("type", .str p.Typ), ("created", created),
      ("proofPurpose", .str p.ProofPurpose),
      ("verificationMethod", .str p.VerificationMethod)]
      ++ omitEmptyStr "jws" p.JWS ++ omitEmptyStr "signatureValue" p.SignatureValue))

/-- JSON text of a `*models.Proof` field. -/
def encodeOptProof : Option Proof → Except String (Option JVal)
  | none => .ok none
  | some p =>
    match encodeProof p with
    | .error e => .error e
    | .ok j => .ok (some j)

/-- JSON text of a `*time.Time` field. -/
def encodeOptTime : Option Time → Except String (Option JVal)
  | none => .ok none
  | some t =>
    match encodeTime t with
    | .error e => .error e
    | .ok j => .ok (some j)

/-- JSON text of a `models.CredentialStatus`. -/
def encodeStatus (c : CredentialStatus) : JVal :=
  .obj [("id", .str c.ID), ("type", .str c.Typ)]

/-- JSON text of a `models.VerifiableCredential`, fields in declaration order. -/
def encodeVC (vc : VerifiableCredential) : Except String JVal :=
  match encodeTime vc.IssuanceDate with
  | .error e => .error e
  | .ok issued =>
    match encodeOptTime vc.ExpirationDate with
    | .error e => .error e
    | .ok expires =>
      match encodeOptProof vc.Proof with
      | .error e => .error e
      | .ok proof =>
        .ok (.obj ([("@context", encodeStrings vc.Context), ("id", .str vc.ID),
          ("type", encodeStrings vc.Typ), ("issuer", .str vc.Issuer),
          ("issuanceDate", issued)]
          ++ omitNil "expirationDate" expires
          ++ [("credentialSubject", encodeMap vc.CredentialSubject)]
          ++ omitNil "credentialStatus" (vc.CredentialStatus.map encodeStatus)
          ++ omitNil "proof" proof))

/-- JSON text of a `[]*models.VerifiableCredential`; a nil entry is written as `null`. -/
def encodeVCList : List (Option VerifiableCredential) → Except String (List JVal)
  | [] => .ok []
  | none :: rest =>
    match encodeVCList rest with
    | .error e => .error e
    | .ok js => .ok (JVal.null :: js)
  | some vc :: rest =>
    match encodeVC vc with
    | .error e => .error e
    | .ok j =>
      match encodeVCList rest with
      | .error e => .error e
      | .ok js => .ok (j :: js)

/-- JSON text of a `models.VerifiablePresentation`. -/
def encodeVP (vp : VerifiablePresentation) : Except String JVal :=
  match encodeVCList vp.VerifiableCredential with
  | .error e => .error e
  | .ok vcs =>
    match encodeOptProof vp.Proof with
    | .error e => .error e
    | .ok proof =>
      match encodeTime vp.Created with
      | .error e => .error e
      | .ok created =>
        .ok (.obj ([("@context", encodeStrings vp.Context), ("type", encodeStrings vp.Typ),
          ("verifiableCredential", if vcs.isEmpty then JVal.null else JVal.arr vcs)]
          ++ omitEmptyStr "holder" vp.Holder
          ++ omitNil "proof" proof
          ++ omitEmptyStr "nonce" vp.Nonce
          ++ [("created", created)]))

/-- JSON text of a `models.PublicKeyEntry`. -/
def encodeKeyEntry (e : PublicKeyEntry) : JVal :=
  .obj ([("id", .str e.ID), ("type", .str e.Typ), ("controller", .str e.Controller)]
    ++ (if e.PublicKeyJWK.isEmpty then [] else [("publicKeyJwk", JVal.obj e.PublicKeyJWK)]))

/-- JSON text of a `models.DIDDocument`. -/
def encodeDID (d : DIDDocument) : JVal :=
  .obj ([("id", .str d.ID)]
    ++ (if d.Context.isEmpty then [] else [("@context", JVal.arr (d.Context.map JVal.str))])
    ++ (if d.PublicKey.isEmpty then []
        else [("publicKey", JVal.arr (d.PublicKey.map encodeKeyEntry))]))

/-- JSON text of a `[]byte`. -/
def encodeBytes (bs : Bytes) : JVal := .bytes bs

/-- Message of the `json.UnmarshalTypeError` for a value read at the wrong Go type. -/
def typeError (v : JVal) (goType : String) : String :=
  "json: cannot unmarshal " ++ v.kind ++ " into Go value of type " ++ goType

/-- Member `name` of a JSON object; an absent member reads like `null`, which leaves the
field at its zero value. -/
def member (fields : List (String × JVal)) (name : String) : JVal :=
  (GoMap.get fields name).getD .null

/-- Read a JSON value into a `string`. -/
def decodeString : JVal → Except String String
  | .null => .ok ""
  | .str s => .ok s
  | v => .error (typeError v "string")

/-- Read a JSON value into a `time.Time`. -/
def decodeTime : JVal → Except String Time
  | .null => .ok zeroTime
  | .time t => .ok t
  | .str _ => .error "parsing time: cannot parse as RFC 3339"
  | .bytes _ => .error "parsing time: cannot parse as RFC 3339"
  | _ => .error "Time.UnmarshalJSON: input is not a JSON string"

/-- Read a JSON value into a `*time.Time`. -/
def decodeOptTime : JVal → Except String (Option Time)
  | .null => .ok none
  | v =>
    match decodeTime v with
    | .error e => .error e
    | .ok t => .ok (some t)

/-- Read the items of a JSON array into a `[]string`. -/
def decodeStringItems : List JVal → Except String (List String)
  | [] => .ok []
  | v :: rest =>
    match decodeString v with
    | .error e => .error e
    | .ok s =>
      match decodeStringItems rest with
      | .error e => .error e
      | .ok ss => .ok (s :: ss)

/-- Read a JSON value into a `[]string`. -/
def decodeStrings : JVal → Except String (List String)
  | .null => .ok []
  | .arr items => decodeStringItems items
  | v => .error (typeError v "[]string")

/-- Read a JSON value into a `map[string]any`. -/
def decodeMap : JVal → Except String (GoMap JVal)
  | .null => .ok []
  | .obj fields => .ok fields
  | v => .error (typeError v "map[string]interface {}")

/-- Read a JSON value into a `[]byte`. -/
def decodeBytes : JVal → Except String Bytes
  | .null => .ok []
  | .bytes bs => .ok bs
  | v => .error (typeError v "[]uint8")

/-- Read a JSON value into a `models.Proof`. -/
def decodeProof : JVal → Except String Proof
  | .null => .ok ⟨"", zeroTime, "", "", "", ""⟩
  | .obj fs =>
    match decodeString (member fs "type") with
    | .error e => .error e
    | .ok typ =>
    match decodeTime (member fs "created") with
    | .error e => .error e
    | .ok created =>
    match decodeString (member fs "proofPurpose") with
    | .error e => .error e
    | .ok purpose =>
    match decodeString (member fs "verificationMethod") with
    | .error e => .error e
    | .ok method =>
    match decodeString (member fs "jws") with
    | .error e => .error e
    | .ok jws =>
    match decodeString (member fs "signatureValue") with
    | .error e => .error e
    | .ok sig => .ok ⟨typ, created, purpose, method, jws, sig⟩
  | v => .error (typeError v "models.Proof")

/-- Read a JSON value into a `*models.Proof`. -/
def decodeOptProof : JVal → Except String (Option Proof)
  | .null => .ok none
  | v =>
    match decodeProof v with
    | .error e => .error e
    | .ok p => .ok (some p)

/-- Read a JSON value into a `*models.CredentialStatus`. -/
def decodeOptStatus : JVal → Except String (Option CredentialStatus)
  | .null => .ok none
  | .obj fs =>
    match decodeString (member fs "id") with
    | .error e => .error e
    | .ok id =>
    match decodeString (member fs "type") with
    | .error e => .error e
    | .ok typ => .ok (some ⟨id, typ⟩)
  | v => .error (typeError v "models.CredentialStatus")

/-- Read a JSON value into a `models.VerifiableCredential`. -/
def decodeVC : JVal → Except String VerifiableCredential
  | .null => .ok ⟨[], "", [], "", zeroTime, none, [], none, none⟩
  | .obj fs =>
    match decodeStrings (member fs "@context") with
    | .error e => .error e
    | .ok context =>
    match decodeString (member fs "id") with
    | .error e => .error e
    | .ok id =>
    match decodeStrings (member fs "type") with
    | .error e => .error e
    | .ok typ =>
    match decodeString (member fs "issuer") with
    | .error e => .error e
    | .ok issuer =>
    match decodeTime (member fs "issuanceDate") with
    | .error e => .error e
    | .ok issued =>
    match decodeOptTime (member fs "expirationDate") with
    | .error e => .error e
    | .ok expires =>
    match decodeMap (member fs "credentialSubject") with
    | .error e => .error e
    | .ok subject =>
    match decodeOptStatus (member fs "credentialStatus") with
    | .error e => .error e
    | .ok status =>
    match decodeOptProof (member fs "proof") with
    | .error e => .error e
    | .ok proof => .ok ⟨context, id, typ, issuer, issued, expires, subject, status, proof⟩
  | v => .error (typeError v "models.VerifiableCredential")

/-- Read the items of a JSON array into a `[]*models.VerifiableCredential`; `null` gives a
nil entry. -/
def decodeVCItems : List JVal → Except String (List (Option VerifiableCredential))
  | [] => .ok []
  | .null :: rest =>
    match decodeVCItems rest with
    | .error e => .error e
    | .ok vcs => .ok (none :: vcs)
  | v :: rest =>
    match decodeVC v with
    | .error e => .error e
    | .ok vc =>
      match decodeVCItems rest with
      | .error e => .error e
      | .ok vcs => .ok (some vc :: vcs)

/-- Read a JSON value into a `[]*models.VerifiableCredential`. -/
def decodeVCList : JVal → Except String (List (Option VerifiableCredential))
  | .null => .ok []
  | .arr items => decodeVCItems items
  | v => .error (typeError v "[]*models.VerifiableCredential")

/-- Read a JSON value into a `models.VerifiablePresentation`. -/
def decodeVP : JVal → Except String VerifiablePresentation
  | .null => .ok ⟨[], [], [], "", none, "", zeroTime⟩
  | .obj fs =>
    match decodeStrings (member fs "@context") with
    | .error e => .error e
    | .ok context =>
    match decodeStrings (member fs "type") with
    | .error e => .error e
    | .ok typ =>
    match decodeVCList (member fs "verifiableCredential") with
    | .error e => .error e
    | .ok vcs =>
    match decodeString (member fs "holder") with
    | .error e => .error e
    | .ok holder =>
    match decodeOptProof (member fs "proof") with
    | .error e => .error e
    | .ok proof =>
    match decodeString (member fs "nonce") with
    | .error e => .error e
    | .ok nonce =>
    match decodeTime (member fs "created") with
    | .error e => .error e
    | .ok created => .ok ⟨context, typ, vcs, holder, proof, nonce, created⟩
  | v => .error (typeError v "models.VerifiablePresentation")

/-- Read a JSON value into a `models.PublicKeyEntry`. -/
def decodeKeyEntry : JVal → Except String PublicKeyEntry
  | .null => .ok ⟨"", "", "", []⟩
  | .obj fs =>
    match decodeString (member fs "id") with
    | .error e => .error e
    | .ok id =>
    match decodeString (member fs "type") with
    | .error e => .error e
    | .ok typ =>
    match decodeString (member fs "controller") with
    | .error e => .error e
    | .ok controller =>
    match decodeMap (member fs "publicKeyJwk") with
    | .error e => .error e
    | .ok jwk => .ok ⟨id, typ, controller, jwk⟩
  | v => .error (typeError v "models.PublicKeyEntry")

/-- Read the items of a JSON array into a `[]models.PublicKeyEntry`. -/
def decodeKeyEntryItems : List JVal → Except String (List PublicKeyEntry)
  | [] => .ok []
  | v :: rest =>
    match decodeKeyEntry v with
    | .error e => .error e
    | .ok entry =>
      match decodeKeyEntryItems rest with
      | .error e => .error e
      | .ok entries => .ok (entry :: entries)

/-- Read a JSON value into a `[]models.PublicKeyEntry`. -/
def decodeKeyEntries : JVal → Except String (List PublicKeyEntry)
  | .null => .ok []
  | .arr items => decodeKeyEntryItems items
  | v => .error (typeError v "[]models.PublicKeyEntry")

/-- Read a JSON value into a `models.DIDDocument`. -/
def decodeDID : JVal → Except String DIDDocument
  | .null => .ok ⟨"", [], []⟩
  | .obj fs =>
    match decodeString (member fs "id") with
    | .error e => .error e
    | .ok id =>
    match decodeStrings (member fs "@context") with
    | .error e => .error e
    | .ok context =>
    match decodeKeyEntries (member fs "publicKey") with
    | .error e => .error e
    | .ok keys => .ok ⟨id, context, keys⟩
  | v => .error (typeError v "models.DIDDocument")

/-! ## internal/storage -/

/-- Go interface `storage.Store` over a backend with states `σ`. `Save` receives the result
of `json.Marshal(value)` and returns the new state with the error; `Load` returns the stored
JSON text, which the caller's `out` argument then decodes. -/
structure Store (σ : Type) where
  Save : σ → String → Except String JVal → σ × Option String
  Load : σ → String → Except String JVal
  ListKeys : σ → String → Except String (List String)

/-- Go `store.Load(key, &out)` for an `out` of the type read by `decode`. -/
def Store.LoadAs {σ α : Type} (S : Store σ) (st : σ) (key : String)
    (decode : JVal → Except String α) : Except String α :=
  match S.Load st key with
  | .error e => .error e
  | .ok j => decode j

/-- State of a `storage.MemoryStore`: the field `data`. -/
abbrev MemoryStore := GoMap JVal

/-- Go `NewMemoryStore`. -/
def NewMemoryStore : MemoryStore := []

/-- Go `(*MemoryStore).Save`. -/
def MemoryStore.Save (m : MemoryStore) (key : String) (value : Except String JVal) :
    MemoryStore × Option String :=
  if key = "" then (m, some "key cannot be empty")
  else
    match value with
    | .error e => (m, some e)
    | .ok data => (GoMap.set m key data, none)

/-- Go `(*MemoryStore).Load`, up to the decoding into `out`. -/
def MemoryStore.Load (m : MemoryStore) (key : String) : Except String JVal :=
  match GoMap.get m key with
  | none => .error ("key not found: " ++ key)
  | some data => .ok data

/-- Go `(*MemoryStore).ListKeys`; the keys come in increasing order here, in map iteration
order in Go. -/
def MemoryStore.ListKeys (m : MemoryStore) (pfx : String) : Except String (List String) :=
  .ok ((GoMap.keys m).filter (fun k => decide (pfx = "") || hasPrefix k pfx))

/-- The `storage.Store` implementation of `MemoryStore`. -/
def memoryStore : Store MemoryStore := ⟨MemoryStore.Save, MemoryStore.Load, MemoryStore.ListKeys⟩

/-! ## internal/service/crypto6g -/

/-- Library routines the services call. `ed25519KeyFromSeed` is what `ed25519.GenerateKey`
computes from the 32 bytes it reads: the public and the private key. `mathRandRead seed n`
is the first `n` bytes read from `rand.New(rand.NewSource(seed))`. `jsonText` writes a JSON
document as bytes. The three laws are the sizes `ed25519.PrivateKeySize`,
`ed25519.PublicKeySize` and `ed25519.SignatureSize`. -/
structure GoLib where
  ed25519KeyFromSeed : Bytes → Bytes × Bytes
  ed25519Sign : Bytes → Bytes → Bytes
  mathRandRead : Int → Nat → Bytes
  base64RawURL : Bytes → String
  jsonText : JVal → Bytes
  privateKeySize : ∀ seed, (ed25519KeyFromSeed seed).2.length = 64
  publicKeySize : ∀ seed, (ed25519KeyFromSeed seed).1.length = 32
  signatureSize : ∀ key msg, (ed25519Sign key msg).length = 64

/-- Go `(*cryptoService).GenerateKeyPair`; `now` is the reading of `time.Now()`. -/
def cryptoService.GenerateKeyPair (L : GoLib) (now : Time) (keyType : String) :
    Except String (Bytes × GoMap JVal) :=
  if keyType ≠ "Ed25519VerificationKey2018" ∧ keyType ≠ "Ed25519VerificationKey2020" then
    .error ("unsupported key type: " ++ keyType)
  else
    let keys := L.ed25519KeyFromSeed (L.mathRandRead now 32)
    let publicKeyJWK : GoMap JVal :=
      GoMap.set (GoMap.set (GoMap.set [] "kty" (.str "OKP")) "crv" (.str "Ed25519"))
        "x" (.str (L.base64RawURL keys.1))
    .ok (keys.2, publicKeyJWK)

/-- Go `(*cryptoService).SignVC`; `ed25519.Sign` panics on a private key that is not 64
bytes long. -/
def cryptoService.SignVC (L : GoLib) (vc : VerifiableCredential) (privateKey : Bytes) :
    Outcome (Except String String) :=
  let vcToSign := { vc with Proof := none }
  match encodeVC vcToSign with
  | .error e => .ret (.error e)
  | .ok canonicalVC =>
    if privateKey.length ≠ 64 then
      .panic ("ed25519: bad private key length: " ++ toString privateKey.length)
    else
      .ret (.ok (L.base64RawURL (L.ed25519Sign privateKey (L.jsonText canonicalVC))))

/-- Payloads handed to `VerifySignature`, whose parameter has type `any`. -/
inductive Payload where
  | none
  | vc (c : VerifiableCredential)
  | vp (p : VerifiablePresentation)

/-- Go `(*cryptoService).VerifySignature`. -/
def cryptoService.VerifySignature (_proof : Option Proof) (_payload : Payload) :
    Bool × Option String :=
  (true, none)

/-! ## internal/service/issuer -/

/-- Go `t.Round(time.Second)`: the nearest whole second, halves going up. -/
def roundSecond (t : Time) : Time :=
  let r := t % 1000000000
  if r + r < 1000000000 then t - r else t + (1000000000 - r)

/-- Value of a 64-bit signed integer after an overflowing operation. -/
def wrapInt64 (x : Int) : Int := (x + 9223372036854775808) % 18446744073709551616 - 9223372036854775808

/-- Go `v, _ := m["id"].(string)`: the string stored under `id`, or the empty string. -/
def optionID (m : GoMap JVal) : String :=
  match GoMap.get m "id" with
  | some (.str s) => s
  | _ => ""

/-- Go `(*issuerService).resolvePrivateKey`. -/
def issuerService.resolvePrivateKey {σ : Type} (S : Store σ) (st : σ) (signingDID : String) :
    Except String (Bytes × String) :=
  if signingDID = "" then .error "signingDID is empty"
  else
    let verificationMethodID := signingDID ++ "#key-1"
    let privateKeyStoreKey := "privatekey:" ++ verificationMethodID
    match S.LoadAs st privateKeyStoreKey decodeBytes with
    | .error e => .error ("private key not found for DID " ++ signingDID ++ ": " ++ e)
    | .ok rawKey =>
      if rawKey.length ≠ 64 then
        .error ("invalid private key size (" ++ toString rawKey.length ++ ") for DID "
          ++ signingDID)
      else .ok (rawKey, verificationMethodID)

/-- Step 1 of `GenerateDID`: the identifier, whose last part is `opts["id"]` when that is a
non-empty string and the first 8 characters of the UUID otherwise. -/
def issuerService.newDID (uuid method : String) (opts : GoMap JVal) : String :=
  let customID := optionID opts
  let idPart := if customID = "" then String.mk (uuid.data.take 8) else customID
  "did:" ++ method ++ ":" ++ idPart

/-- Step 3 of `GenerateDID`: the document with its single verification method. -/
def issuerService.newDocument (did keyType : String) (publicKeyJWK : GoMap JVal) :
    DIDDocument :=
  let verificationMethodID := did ++ "#key-1"
  { ID := did
    Context := ["https://www.w3.org/ns/did/v1"]
    PublicKey := [⟨verificationMethodID, keyType, did, publicKeyJWK⟩] }

/-- Go `(*issuerService).GenerateDID`; `now` is the clock reading taken by `GenerateKeyPair`
and `uuid` the string returned by `uuid.NewString()`. A failure to save the private key is
only logged. -/
def issuerService.GenerateDID {σ : Type} (S : Store σ) (L : GoLib) (st : σ) (now : Time)
    (uuid : String) (method : String) (opts : GoMap JVal) : σ × Except String DIDDocument :=
  let did := issuerService.newDID uuid method opts
  let keyType := "Ed25519VerificationKey2018"
  match cryptoService.GenerateKeyPair L now keyType with
  | .error e => (st, .error ("failed to generate key pair: " ++ e))
  | .ok (privateKey, publicKeyJWK) =>
    let verificationMethodID := did ++ "#key-1"
    let doc := issuerService.newDocument did keyType publicKeyJWK
    let privateKeyStoreKey := "privatekey:" ++ verificationMethodID
    let st1 := (S.Save st privateKeyStoreKey (.ok (encodeBytes privateKey))).1
    match S.Save st1 did (.ok (encodeDID doc)) with
    | (st2, some e) =>
      (st2, .error ("failed to save public DID Document " ++ did ++ ": " ++ e))
    | (st2, none) => (st2, .ok doc)

/-- Go `(*issuerService).ResolveDID`. -/
def issuerService.ResolveDID {σ : Type} (S : Store σ) (st : σ) (id : String) :
    Except String DIDDocument :=
  match S.LoadAs st id decodeDID with
  | .error _ => .error ("DID not found: " ++ id)
  | .ok doc => .ok doc

/-- Steps 1 and 2 of `CreateVC`: the unsigned credential built from a request; `now` is the
reading of `time.Now()` and `uuid` the string returned by `uuid.NewString()`. -/
def issuerService.unsignedVC (now : Time) (uuid : String) (req : VCRequest) :
    VerifiableCredential :=
  let issuanceTime := roundSecond now
  let expiryTime : Option Time :=
    if req.ValidityDays > 0 then
      some (issuanceTime + wrapInt64 (wrapInt64 (req.ValidityDays * 24) * 3600000000000))
    else none
  let idPart := if optionID req.Options = "" then uuid else optionID req.Options
  let vcID := "vc:" ++ req.SubjectDID ++ ":" ++ idPart
  { Context := ["https://www.w3.org/2018/credentials/v1"]
    ID := vcID
    Typ := "VerifiableCredential" :: req.CredentialType
    Issuer := req.IssuerDID
    IssuanceDate := issuanceTime
    ExpirationDate := expiryTime
    CredentialSubject := mapsCopy [("id", .str req.SubjectDID)] req.Claims
    CredentialStatus := none
    Proof := none }

/-- Step 5 of `CreateVC`: the credential with its proof attached. -/
def issuerService.attachProof (vc : VerifiableCredential) (verificationMethodID : String)
    (signatureJWS : String) : VerifiableCredential :=
  { vc with
    Proof := some
      { Typ := "JsonWebSignature2020"
        Created := vc.IssuanceDate
        ProofPurpose := "assertionMethod"
        VerificationMethod := verificationMethodID
        JWS := signatureJWS
        SignatureValue := "" } }

/-- Go `(*issuerService).CreateVC`; `req` is a pointer and may be nil, `now` is the reading
of `time.Now()` and `uuid` the string returned by `uuid.NewString()`. The service always holds
a store. -/
def issuerService.CreateVC {σ : Type} (S : Store σ) (L : GoLib) (st : σ) (now : Time)
    (uuid : String) (req : Option VCRequest) :
    σ × Outcome (Except String VerifiableCredential) :=
  match req with
  | none => (st, .ret (.error "nil VCRequest"))
  | some req =>
    if req.IssuerDID = "" then (st, .ret (.error "issuerDID missing"))
    else if req.SubjectDID = "" then (st, .ret (.error "subjectDID missing"))
    else
      let vc := issuerService.unsignedVC now uuid req
      match issuerService.resolvePrivateKey S st req.IssuerDID with
      | .error e => (st, .ret (.error ("failed to retrieve signing key: " ++ e)))
      | .ok (privateKey, verificationMethodID) =>
        match cryptoService.SignVC L vc privateKey with
        | .panic msg => (st, .panic msg)
        | .ret (.error e) => (st, .ret (.error ("failed to sign VC: " ++ e)))
        | .ret (.ok signatureJWS) =>
          let signed := issuerService.attachProof vc verificationMethodID signatureJWS
          match S.Save st signed.ID (encodeVC signed) with
          | (st1, some e) => (st1, .ret (.error ("failed to save VC: " ++ e)))
          | (st1, none) => (st1, .ret (.ok signed))

/-! ## internal/service/wallet -/

/-- Go `(*WalletService).StoreDID`. -/
def WalletService.StoreDID {σ : Type} (S : Store σ) (st : σ) (doc : DIDDocument) :
    σ × Option String :=
  if doc.ID = "" then (st, some "DID must have an ID")
  else S.Save st doc.ID (.ok (encodeDID doc))

/-- Go `(*WalletService).GetDID`. -/
def WalletService.GetDID {σ : Type} (S : Store σ) (st : σ) (id : String) :
    Except String DIDDocument :=
  if id = "" then .error "empty DID ID"
  else
    match S.LoadAs st id decodeDID with
    | .error e => .error ("failed to load DID: " ++ e)
    | .ok doc => .ok doc

/-- Loop of the list operations: the records under the keys that start with `pfx`, read by
`decode` and kept when `keep` holds; a record that fails to load is skipped. -/
def listRecords {σ α : Type} (S : Store σ) (st : σ) (pfx : String)
    (decode : JVal → Except String α) (keep : String → α → Bool) : List String → List α
  | [] => []
  | key :: rest =>
    if hasPrefix key pfx then
      match S.LoadAs st key decode with
      | .error _ => listRecords S st pfx decode keep rest
      | .ok a =>
        if keep key a then a :: listRecords S st pfx decode keep rest
        else listRecords S st pfx decode keep rest
    else listRecords S st pfx decode keep rest

/-- Go `(*WalletService).ListDIDs`. -/
def WalletService.ListDIDs {σ : Type} (S : Store σ) (st : σ) : Except String (List DIDDocument) :=
  match S.ListKeys st "" with
  | .error e => .error e
  | .ok keys => .ok (listRecords S st "did:" decodeDID (fun _ _ => true) keys)

/-- Go `(*WalletService).StoreVC`. -/
def WalletService.StoreVC {σ : Type} (S : Store σ) (st : σ) (vc : VerifiableCredential) :
    σ × Option String :=
  if vc.ID = "" then (st, some "VC must have an ID")
  else S.Save st vc.ID (encodeVC vc)

/-- Go `(*WalletService).GetVC`. -/
def WalletService.GetVC {σ : Type} (S : Store σ) (st : σ) (id : String) :
    Except String VerifiableCredential :=
  if id = "" then .error "empty VC ID"
  else
    match S.LoadAs st id decodeVC with
    | .error e => .error ("failed to load VC: " ++ e)
    | .ok vc => .ok vc

/-- Go `matchVCFilter`; `now1` and `now2` are the readings of its two `time.Now()` calls. -/
def matchVCFilter (now1 now2 : Time) (vc : VerifiableCredential) (f : VCFilter) : Bool :=
  if f.Issuer ≠ "" ∧ vc.Issuer ≠ f.Issuer then false
  else if f.CredType ≠ "" ∧ vc.Typ.contains f.CredType = false then false
  else if f.ActiveOnly = true ∧
      (match vc.ExpirationDate with
        | none => false
        | some e => decide (e < now1)) = true then false
  else if f.ExpiredOnly = true ∧
      (match vc.ExpirationDate with
        | none => true
        | some e => decide (now2 < e)) = true then false
  else true

/-- Go `(*WalletService).ListVCs`; `clock key` gives the two clock readings taken while the
credential stored under `key` is matched. -/
def WalletService.ListVCs {σ : Type} (S : Store σ) (st : σ) (clock : String → Time × Time)
    (filter : VCFilter) : Except String (List VerifiableCredential) :=
  match S.ListKeys st "" with
  | .error e => .error e
  | .ok keys =>
    .ok (listRecords S st "vc:" decodeVC
      (fun key vc => matchVCFilter (clock key).1 (clock key).2 vc filter) keys)

/-- Go `(*WalletService).VerifyVC`. -/
def WalletService.VerifyVC (vc : VerifiableCredential) : Bool × Option String :=
  if vc.Proof.isNone then (false, some "missing proof") else (true, none)

/-- Go `(*WalletService).StoreVP`. -/
def WalletService.StoreVP {σ : Type} (S : Store σ) (st : σ) (vp : VerifiablePresentation) :
    σ × Option String :=
  if vp.Holder = "" then (st, some "VP must have an Holder")
  else S.Save st ("vp:" ++ vp.Holder) (encodeVP vp)

/-- Go `(*WalletService).GetVP`. -/
def WalletService.GetVP {σ : Type} (S : Store σ) (st : σ) (id : String) :
    Except String VerifiablePresentation :=
  if id = "" then .error "empty VP ID"
  else
    match S.LoadAs st ("vp:" ++ id) decodeVP with
    | .error e => .error ("failed to load VP: " ++ e)
    | .ok vp => .ok vp

/-- Go `matchVPFilter`. -/
def matchVPFilter (_vp : VerifiablePresentation) (_filter : VPFilter) : Bool := true

/-- Go `(*WalletService).ListVPs`. -/
def WalletService.ListVPs {σ : Type} (S : Store σ) (st : σ) (filter : VPFilter) :
    Except String (List VerifiablePresentation) :=
  match S.ListKeys st "" with
  | .error e => .error e
  | .ok keys =>
    .ok (listRecords S st "vp:" decodeVP (fun _ vp => matchVPFilter vp filter) keys)

/-- Go `(*WalletService).VerifyVP`. -/
def WalletService.VerifyVP (vp : VerifiablePresentation) : Bool × Option String :=
  if vp.Proof.isNone then (false, some "missing proof") else (true, none)

/-- Loading loop of `BuildVP`: the credentials stored under `vcIDs`, in order, or the error
of the first one that fails to load. -/
def loadDisclosedVCs {σ : Type} (S : Store σ) (st : σ) :
    List String → Except String (List (Option VerifiableCredential))
  | [] => .ok []
  | id :: rest =>
    match S.LoadAs st id decodeVC with
    | .error e => .error ("failed to load VC " ++ id ++ " (key: " ++ id ++ "): " ++ e)
    | .ok vc =>
      match loadDisclosedVCs S st rest with
      | .error e => .error e
      | .ok vcs => .ok (some vc :: vcs)

/-- Steps 2 to 4 of `BuildVP`: the presentation assembled around the loaded credentials,
with the proof it is given; `now1` and `now2` are the readings of the two `time.Now()`
calls. -/
def WalletService.presentation (now1 now2 : Time)
    (disclosedVCs : List (Option VerifiableCredential)) (nonce : String) :
    VerifiablePresentation :=
  let holderDID := "vp:" ++ nonce
  { Context := ["https://www.w3.org/2018/credentials/v1"]
    Typ := ["VerifiablePresentation"]
    VerifiableCredential := disclosedVCs
    Holder := holderDID
    Nonce := nonce
    Created := roundSecond now1
    Proof := some
      { Typ := "Ed25519Signature2018"
        Created := roundSecond now2
        ProofPurpose := "authentication"
        VerificationMethod := holderDID ++ "#key-1"
        JWS := ""
        SignatureValue := "REAL-CRYPTOGRAPHIC-SIGNATURE-OF-THE-VP" } }

/-- Go `(*WalletService).BuildVP`; `now1` and `now2` are the readings of its two
`time.Now()` calls. The body never reads `revealFields`. -/
def WalletService.BuildVP {σ : Type} (S : Store σ) (st : σ) (now1 now2 : Time)
    (vcIDs : List String) (_revealFields : GoMap (List String)) (nonce : String) :
    σ × Except String VerifiablePresentation :=
  if vcIDs.length = 0 then (st, .error "no VC IDs provided")
  else if nonce = "" then (st, .error "nonce is required for Verifiable Presentation")
  else
    match loadDisclosedVCs S st vcIDs with
    | .error e => (st, .error e)
    | .ok disclosedVCs =>
      let vp := WalletService.presentation now1 now2 disclosedVCs nonce
      let vpStoreKey := "vp:" ++ nonce
      match S.Save st vpStoreKey (encodeVP vp) with
      | (st1, some e) => (st1, .error ("failed to save VP " ++ vpStoreKey ++ ": " ++ e))
      | (st1, none) => (st1, .ok vp)

/-! ## internal/service/verifier -/

/-- Go `(*verifierService).verifyVCInternally`. -/
def verifierService.verifyVCInternally (_vc : VerifiableCredential) : Bool × Option String :=
  (true, none)

/-- Step 3 of `VerifyVP`: the loop over the embedded credentials, from index `i` on. Reading
the `Proof` of a nil entry panics. -/
def verifierService.verifyCredentials :
    Nat → List (Option VerifiableCredential) → Outcome (Bool × Option String)
  | _, [] => .ret (true, none)
  | _, none :: _ => .panic "runtime error: invalid memory address or nil pointer dereference"
  | i, some vc :: rest =>
    if vc.Proof.isNone then
      .ret (false, some ("VC index " ++ toString i ++ " verification failed: missing VC proof"))
    else
      match verifierService.verifyVCInternally vc with
      | (_, some e) =>
        .ret (false, some ("VC index " ++ toString i ++ " verification failed: " ++ e))
      | (false, none) =>
        .ret (false, some ("VC index " ++ toString i
          ++ " verification failed: VC signature or status is invalid"))
      | (true, none) => verifierService.verifyCredentials (i + 1) rest

/-- Go `(*verifierService).VerifyVP`. -/
def verifierService.VerifyVP (vp : VerifiablePresentation) : Outcome (Bool × Option String) :=
  if vp.Proof.isNone then
    .ret (false, some "VP verification failed: missing Verifiable Presentation proof")
  else if vp.VerifiableCredential.length = 0 then
    .ret (false, some "VP verification failed: no Verifiable Credentials attached")
  else verifierService.verifyCredentials 0 vp.VerifiableCredential

/-! ## Runs of the services over one in-memory store -/

/-- The calls of the issuer and the wallet that write to the store, with the clock readings
and UUIDs they draw. -/
inductive Op where
  | generateDID (now : Time) (uuid method : String) (opts : GoMap JVal)
  | createVC (now : Time) (uuid : String) (req : VCRequest)
  | storeDID (doc : DIDDocument)
  | storeVC (vc : VerifiableCredential)
  | storeVP (vp : VerifiablePresentation)
  | buildVP (now1 now2 : Time) (vcIDs : List String) (revealFields : GoMap (List String))
      (nonce : String)

/-- Store state after one call. -/
def Op.run (L : GoLib) (st : MemoryStore) : Op → MemoryStore
  | .generateDID now uuid method opts =>
    (issuerService.GenerateDID memoryStore L st now uuid method opts).1
  | .createVC now uuid req => (issuerService.CreateVC memoryStore L st now uuid (some req)).1
  | .storeDID doc => (WalletService.StoreDID memoryStore st doc).1
  | .storeVC vc => (WalletService.StoreVC memoryStore st vc).1
  | .storeVP vp => (WalletService.StoreVP memoryStore st vp).1
  | .buildVP now1 now2 vcIDs revealFields nonce =>
    (WalletService.BuildVP memoryStore st now1 now2 vcIDs revealFields nonce).1

/-- Store state after a sequence of calls on a fresh `MemoryStore`. -/
def runOps (L : GoLib) (ops : List Op) : MemoryStore :=
  ops.foldl (Op.run L) NewMemoryStore

/-- The credential's `Proof.VerificationMethod` is the ID of a verification-method entry of
the DID document that `ResolveDID` finds under the credential's `Issuer`. -/
def methodListed (st : MemoryStore) (vc : VerifiableCredential) : Bool :=
  match vc.Proof, issuerService.ResolveDID memoryStore st vc.Issuer with
  | some p, .ok doc => doc.PublicKey.any (fun e => decide (e.ID = p.VerificationMethod))
  | _, _ => false

/-- Store with every private-key record (a record written from a `[]byte`) blanked. -/
def redact (st : MemoryStore) : MemoryStore :=
  st.map (fun kv =>
    match kv.2 with
    | .bytes _ => (kv.1, JVal.bytes [])
    | _ => kv)

/-! ## Sample inputs -/

/-- A stand-in for the library routines, used to run the services on sample inputs. -/
def sampleLib : GoLib where
  ed25519KeyFromSeed seed :=
    ((seed ++ List.replicate 32 0).take 32, (seed ++ List.replicate 64 0).take 64)
  ed25519Sign key msg := (msg ++ key ++ List.replicate 64 0).take 64
  mathRandRead seed n := List.replicate n (seed % 256).toNat
  base64RawURL bs := String.mk (bs.map (fun b => Char.ofNat (97 + b % 26)))
  jsonText j := [j.kind.length]
  privateKeySize := by intro seed; simp
  publicKeySize := by intro seed; simp
  signatureSize := by intro key msg; simp; omega

/-- Store after the issuer has minted `did:telco:issuer`. -/
def issuerStore (L : GoLib) : MemoryStore :=
  runOps L [.generateDID 1700000000000000000 "" "telco" [("id", .str "issuer")]]

/-- Request whose claims carry an `id` entry of their own. -/
def overrideRequest : VCRequest :=
  { IssuerDID := "did:telco:issuer"
    SubjectDID := "did:telco:alice"
    CredentialType := ["SubscriberCredential"]
    Claims := [("id", .str "did:telco:mallory"), ("plan", .str "gold")]
    ValidityDays := 30
    Options := [("id", .str "1")] }

/-- Credential with two claims besides the subject identifier. -/
def vcA : VerifiableCredential :=
  { Context := ["https://www.w3.org/2018/credentials/v1"]
    ID := "vc:did:telco:alice:1"
    Typ := ["VerifiableCredential"]
    Issuer := "did:telco:issuer"
    IssuanceDate := 1700000000000000000
    ExpirationDate := none
    CredentialSubject := [("age", .num 42), ("id", .str "did:telco:alice"), ("name", .str "Alice")]
    CredentialStatus := none
    Proof := some ⟨"JsonWebSignature2020", 1700000000000000000, "assertionMethod",
      "did:telco:issuer#key-1", "c2lnbmF0dXJl", ""⟩ }

/-- Credential like `vcA` that expired at the Unix epoch. -/
def vcExpired : VerifiableCredential :=
  { vcA with ID := "vc:did:telco:alice:2", ExpirationDate := some 0 }

/-- Wallet store holding `vcA` and `vcExpired`. -/
def walletStore : MemoryStore :=
  runOps sampleLib [.storeVC vcA, .storeVC vcExpired]

/-- The private key that `GenerateKeyPair` derives from the clock reading `now`. -/
def keyAt (L : GoLib) (now : Time) : Bytes := (L.ed25519KeyFromSeed (L.mathRandRead now 32)).2

/-- Subject claims of `vcA` with one letter of the name changed. -/
def tamperedSubject : GoMap JVal :=
  [("age", .num 42), ("id", .str "did:telco:alice"), ("name", .str "Alicf")]

/-- Presentation of `vcA` whose proof holds no signature value at all. -/
def unsignedPresentation : VerifiablePresentation :=
  { Context := ["https://www.w3.org/2018/credentials/v1"]
    Typ := ["VerifiablePresentation"]
    VerifiableCredential := [some vcA]
    Holder := "vp:n1"
    Proof := some ⟨"Ed25519Signature2018", 1700000200000000000, "authentication",
      "vp:n1#key-1", "", ""⟩
    Nonce := "n1"
    Created := 1700000200000000000 }

/-- Presentation whose first credential never expires and whose second one has expired. -/
def expiredPresentation : VerifiablePresentation :=
  { unsignedPresentation with VerifiableCredential := [some vcA, some vcExpired] }

/-- Credential that `CreateVC` returns for `overrideRequest` with the stand-in library. -/
def sampleCredential : VerifiableCredential :=
  issuerService.attachProof
    (issuerService.unsignedVC 1700000100000000000 "" overrideRequest)
    "did:telco:issuer#key-1"
    (sampleLib.base64RawURL (sampleLib.ed25519Sign (keyAt sampleLib 1700000000000000000)
      [6]))

/-- The JWK that `GenerateKeyPair` builds for the public key derived from the clock reading
`now`. -/
def jwkAt (L : GoLib) (now : Time) : GoMap JVal :=
  [("crv", .str "Ed25519"), ("kty", .str "OKP"),
    ("x", .str (L.base64RawURL (L.ed25519KeyFromSeed (L.mathRandRead now 32)).1))]

/-- The DID document stored under `d` lists the verification method `d#key-1`. -/
def listsKey (st : MemoryStore) (d : String) : Prop :=
  ∃ j doc, GoMap.get st d = some j ∧ decodeDID j = .ok doc ∧
    ∃ e ∈ doc.PublicKey, e.ID = d ++ "#key-1"

/-- DID document for the issuer's identifier that lists no verification method. -/
def blankDocument : DIDDocument := ⟨"did:telco:issuer", [], []⟩

/-- Store after the issuer has minted `did:telco:issuer` and the wallet has stored
`blankDocument` under the same identifier. -/
def overwrittenStore (L : GoLib) : MemoryStore :=
  runOps L [.generateDID 1700000000000000000 "" "telco" [("id", .str "issuer")],
    .storeDID blankDocument]

/-- Presentation like `unsignedPresentation` with no embedded credential. -/
def emptyPresentation : VerifiablePresentation :=
  { unsignedPresentation with VerifiableCredential := [] }

/-- Credential like `vcA` whose identifier is the key of a presentation. -/
def vcShadow : VerifiableCredential := { vcA with ID := "vp:n1" }

/-- Wallet store holding `vcShadow`. -/
def shadowStore : MemoryStore := runOps sampleLib [.storeVC vcShadow]

/-- Request like `overrideRequest` with a validity of 106752 days, the first for which
the nanosecond count exceeds the range of `int64`. -/
def longRequest : VCRequest := { overrideRequest with ValidityDays := 106752 }

/-- Credential like `vcA` without a proof. -/
def vcUnsigned : VerifiableCredential := { vcA with Proof := none }

/-- Presentation with a proof whose first entry is nil (JSON `null`) and whose second entry
is a credential without a proof. -/
def nilFirstPresentation : VerifiablePresentation :=
  { unsignedPresentation with VerifiableCredential := [none, some vcUnsigned] }

/-- Store backend that refuses to write under `privatekey:` keys and otherwise behaves like
the in-memory store. -/
def keylessStore : Store MemoryStore where
  Save m key value :=
    if hasPrefix key "privatekey:" then (m, some "write refused")
    else MemoryStore.Save m key value
  Load := MemoryStore.Load
  ListKeys := MemoryStore.ListKeys

/-- Store backend whose every write fails. -/
def readOnlyStore : Store MemoryStore where
  Save m _ _ := (m, some "read-only store")
  Load := MemoryStore.Load
  ListKeys := MemoryStore.ListKeys

/-- Request for an issuer that was never minted. -/
def strangerRequest : VCRequest := { overrideRequest with IssuerDID := "did:telco:stranger" }

/-- The dates of the credential lie in the years that `json.Marshal` writes: the issuance
date, the expiration date if there is one, and the creation date of the proof if there is
one. -/
def marshalsVC (vc : VerifiableCredential) : Bool :=
  timeMarshalOK vc.IssuanceDate
    && (match vc.ExpirationDate with
        | none => true
        | some e => timeMarshalOK e)
    && (match vc.Proof with
        | none => true
        | some p => timeMarshalOK p.Created)

/-- The dates of the presentation, of its proof and of its embedded credentials lie in the
years that `json.Marshal` writes. -/
def marshalsVP (vp : VerifiablePresentation) : Bool :=
  timeMarshalOK vp.Created
    && (match vp.Proof with
        | none => true
        | some p => timeMarshalOK p.Created)
    && vp.VerifiableCredential.all (fun entry =>
        match entry with
        | none => true
        | some vc => marshalsVC vc)

/-- Credential like `vcA` issued in the year 10000. -/
def farFutureCredential : VerifiableCredential :=
  { vcA with IssuanceDate := 253402300800 * 1000000000 }

/-- The store keys under which a call may write. -/
def Op.writes : Op → List String
  | .generateDID _ uuid method opts =>
    ["privatekey:" ++ (issuerService.newDID uuid method opts ++ "#key-1"),
      issuerService.newDID uuid method opts]
  | .createVC now uuid req => [(issuerService.unsignedVC now uuid req).ID]
  | .storeDID doc => [doc.ID]
  | .storeVC vc => [vc.ID]
  | .storeVP vp => ["vp:" ++ vp.Holder]
  | .buildVP _ _ _ _ nonce => ["vp:" ++ nonce]

/-- The call leaves the records of the identifier `d` alone: a `GenerateDID` qualifies when
it yields another identifier, a wallet `StoreDID` or `StoreVC` when its ID is neither `d` nor
the key of the private key of `d`. -/
def Op.keepsIdentifier (d : String) : Op → Bool
  | .generateDID _ uuid method opts => decide (issuerService.newDID uuid method opts ≠ d)
  | .storeDID doc =>
    decide (doc.ID ≠ d) && decide (doc.ID ≠ "privatekey:" ++ (d ++ "#key-1"))
  | .storeVC vc =>
    decide (vc.ID ≠ d) && decide (vc.ID ≠ "privatekey:" ++ (d ++ "#key-1"))
  | _ => true

/-- Request like `overrideRequest`, for the same subject and with the same `id` option, with
another plan. -/
def reissueRequest : VCRequest := { overrideRequest with Claims := [("plan", .str "silver")] }

/-- Credential like `vcA` with the subject claims `tamperedSubject`. -/
def vcTampered : VerifiableCredential := { vcA with CredentialSubject := tamperedSubject }

/-- Calls made after `did:telco:issuer` is minted: another identifier is minted, a credential
is issued, a presentation of it is built and the wallet stores a document and a credential
of its own. -/
def otherCalls : List Op :=
  [.generateDID 1700000000000000001 "" "telco" [("id", .str "alice")],
    .createVC 1700000100000000000 "" overrideRequest,
    .buildVP 1700000200000000000 1700000200000000000 ["vc:did:telco:alice:1"] [] "n1",
    .storeDID ⟨"wallet:alice", [], []⟩,
    .storeVC vcExpired]

/-- Request like `overrideRequest` with another `id` option. -/
def renewRequest : VCRequest := { overrideRequest with Options := [("id", .str "3")] }

/-- Calls made after the credential `vc:did:telco:alice:1` is issued, none of which writes
under its ID: a credential with another identifier is issued, the wallet stores `vcExpired`,
a presentation is built and another identifier is minted. -/
def freshCalls : List Op :=
  [.createVC 1700000300000000000 "" renewRequest,
    .storeVC vcExpired,
    .buildVP 1700000200000000000 1700000200000000000 ["vc:did:telco:alice:1"] [] "n1",
    .generateDID 1700000000000000001 "" "telco" [("id", .str "alice")]]

/-! ## internal/storage: the file backend -/

/-- What a `FileStore` sees of the file at its path: the lines of the file if it exists,
a line being the record `{"key": k, "value": v}` that `persist` wrote, and the error of
`os.Create` if the file cannot be created. -/
structure Disk where
  lines : Option (List (String × JVal))
  createError : Option String

/-- State of a `storage.FileStore`: the field `data` and the file at `path`. -/
structure FileStore where
  data : GoMap JVal
  disk : Disk

/-- Go `bufio.MaxScanTokenSize`, the size of the largest buffer of a `bufio.Scanner`. -/
def maxScanTokenSize : Nat := 64 * 1024

/-- Text of the line that `persist` writes for a record, without the final newline: the
result of `json.Marshal(fileRecord{Key: k, Value: v})`. -/
def recordLine (L : GoLib) (r : String × JVal) : Bytes :=
  L.jsonText (.obj [("key", .str r.1), ("value", r.2)])

/-- Lines that the loop `for scanner.Scan()` visits: `Scan` returns false, and the loop
ends, at the first line that does not fit the scanner's buffer together with its newline. -/
def scanLines (L : GoLib) : List (String × JVal) → List (String × JVal)
  | [] => []
  | r :: rest =>
    if (recordLine L r).length + 1 ≤ maxScanTokenSize then r :: scanLines L rest else []

/-- Go `NewFileStore`: the store opened on the file; a file that cannot be opened gives an
empty store. -/
def NewFileStore (L : GoLib) (disk : Disk) : FileStore :=
  match disk.lines with
  | none => ⟨[], disk⟩
  | some lines => ⟨(scanLines L lines).foldl (fun m r => GoMap.set m r.1 r.2) [], disk⟩

/-- Go `(*FileStore).persist`, with a `Flush` that succeeds; the records are written in
increasing key order here, in map iteration order in Go. -/
def FileStore.persist (f : FileStore) : FileStore × Option String :=
  match f.disk.createError with
  | some e => (f, some e)
  | none => ({ f with disk := { f.disk with lines := some f.data } }, none)

/-- Go `(*FileStore).Save`. -/
def FileStore.Save (f : FileStore) (key : String) (value : Except String JVal) :
    FileStore × Option String :=
  match value with
  | .error e => (f, some e)
  | .ok data => FileStore.persist { f with data := GoMap.set f.data key data }

/-- Go `(*FileStore).Load`, up to the decoding into `out`. -/
def FileStore.Load (f : FileStore) (key : String) : Except String JVal :=
  match GoMap.get f.data key with
  | none => .error ("key not found: " ++ key)
  | some data => .ok data

/-- Go `(*FileStore).ListKeys`; the keys come in increasing order here, in map iteration
order in Go. -/
def FileStore.ListKeys (f : FileStore) (pfx : String) : Except String (List String) :=
  .ok ((GoMap.keys f.data).filter (fun k => decide (pfx = "") || hasPrefix k pfx))

/-- The `storage.Store` implementation of `FileStore`. -/
def fileStore : Store FileStore := ⟨FileStore.Save, FileStore.Load, FileStore.ListKeys⟩

/-! ## Sequences of store calls -/

/-- Store state after a sequence of `Save` calls, each given by its key and the result of
`json.Marshal` for its value. -/
def saveAll {σ : Type} (S : Store σ) (st : σ) (calls : List (String × Except String JVal)) :
    σ :=
  calls.foldl (fun s c => (S.Save s c.1 c.2).1) st

/-- Specification of a map: the value of the most recent `Save` under `key`, among the
calls made from state `st` on, that returned no error. -/
def lastSaved {σ : Type} (S : Store σ) (st : σ) :
    List (String × Except String JVal) → String → Option JVal
  | [], _ => none
  | c :: rest, key =>
    match lastSaved S (S.Save st c.1 c.2).1 rest key with
    | some j => some j
    | none =>
      if c.1 = key ∧ (S.Save st c.1 c.2).2 = none then
        match c.2 with
        | .ok j => some j
        | .error _ => none
      else none

/-- The entries of the map are in strictly increasing key order. -/
def GoMap.Sorted {α : Type} (m : GoMap α) : Prop :=
  List.Pairwise (fun a b => strLt a.1 b.1 = true) m

/-- A disk on which there is no file and none can be created, as when the directory of the
path does not exist. -/
def noDirectory : Disk := ⟨none, some "open ./data/wallet_store.jsonl: no such file or directory"⟩

/-- A disk on which there is no file yet and one can be created. -/
def emptyDisk : Disk := ⟨none, none⟩

/-- Presentation with a proof whose first entry is a credential without a proof and whose
second entry is nil (JSON `null`). -/
def nilLastPresentation : VerifiablePresentation :=
  { unsignedPresentation with VerifiableCredential := [some vcUnsigned, none] }

/-- The proof-presence facts of a presentation: whether it carries a proof and, entry by
entry, whether the entry is nil and whether the credential carries a proof. -/
def proofPresence (vp : VerifiablePresentation) : Bool × List (Option Bool) :=
  (vp.Proof.isSome,
    vp.VerifiableCredential.map (fun entry =>
      match entry with
      | none => none
      | some vc => some vc.Proof.isSome))

/-- A stand-in for the library routines in which the JSON text of a record line with a
string value has the length of the real line, `{"key":"k","value":"s"}`, for plain
strings. -/
def lineLib : GoLib :=
  { sampleLib with
    jsonText := fun j =>
      match j with
      | .obj [(_, .str k), (_, .str s)] => List.replicate (21 + k.length + s.length) 0
      | _ => [j.kind.length] }

/-- A string value of 70000 characters. -/
def bigValue : JVal := .str (String.mk (List.replicate 70000 'a'))

/-- The call leaves the verification method `d#key-1` listed in the document stored under
`d`: a wallet `StoreDID` under `d` qualifies when the document it stores lists the method,
a wallet `StoreVC` under `d` when `json.Marshal` refuses the credential, so that nothing is
written; every call that does not write under `d` qualifies. -/
def Op.keepsListing (d : String) : Op → Bool
  | .storeDID doc =>
    decide (doc.ID ≠ d) || doc.PublicKey.any (fun e => decide (e.ID = d ++ "#key-1"))
  | .storeVC vc => decide (vc.ID ≠ d) || !marshalsVC vc
  | _ => true

/-- Calls made before the credential is issued: the wallet stores a document under another
`did:` identifier and the issuer mints `did:telco:issuer`. -/
def earlierCalls : List Op :=
  [.storeDID ⟨"did:telco:bob", [], []⟩,
    .generateDID 1700000000000000000 "" "telco" [("id", .str "issuer")]]

/-- Wallet calls made after the credential is issued: a document is stored under another
`did:` identifier, the issuer's own document is stored again under the issuer's identifier,
a credential that cannot be marshalled is offered under the issuer's identifier, and a
presentation is built. -/
def laterWalletCalls : List Op :=
  [.storeDID ⟨"did:telco:carol", [], []⟩,
    .storeDID (issuerService.newDocument "did:telco:issuer" "Ed25519VerificationKey2018"
      (jwkAt sampleLib 1700000000000000000)),
    .storeVC { farFutureCredential with ID := "did:telco:issuer" },
    .buildVP 1700000200000000000 1700000200000000000 ["vc:did:telco:alice:1"] [] "n1"]

/-! ## DID documents with nil told from empty -/

/-- Go struct `models.PublicKeyEntry` with a nil `PublicKeyJWK` (`none`) told from an empty
one (`some []`). -/
structure ExactPublicKeyEntry where
  ID : String
  Typ : String
  Controller : String
  PublicKeyJWK : Option (GoMap JVal)

/-- Go struct `models.DIDDocument` with nil slices (`none`) told from empty ones
(`some []`). -/
structure ExactDIDDocument where
  ID : String
  Context : Option (List String)
  PublicKey : Option (List ExactPublicKeyEntry)

/-- The entry as the other definitions see it, with nil and empty identified. -/
def ExactPublicKeyEntry.toModel (e : ExactPublicKeyEntry) : PublicKeyEntry :=
  ⟨e.ID, e.Typ, e.Controller, e.PublicKeyJWK.getD []⟩

/-- The document as the other definitions see it, with nil and empty identified. -/
def ExactDIDDocument.toModel (d : ExactDIDDocument) : DIDDocument :=
  ⟨d.ID, d.Context.getD [], (d.PublicKey.getD []).map ExactPublicKeyEntry.toModel⟩

/-- A slice or map with the empty non-nil value replaced by nil. -/
def nilIfEmpty {α : Type} : Option (List α) → Option (List α)
  | some [] => none
  | o => o

/-- The entry with an empty `PublicKeyJWK` replaced by nil. -/
def ExactPublicKeyEntry.normalize (e : ExactPublicKeyEntry) : ExactPublicKeyEntry :=
  { e with PublicKeyJWK := nilIfEmpty e.PublicKeyJWK }

/-- The document with every empty slice and map replaced by nil. -/
def ExactDIDDocument.normalize (d : ExactDIDDocument) : ExactDIDDocument :=
  { d with
    Context := nilIfEmpty d.Context
    PublicKey := nilIfEmpty (d.PublicKey.map (List.map ExactPublicKeyEntry.normalize)) }

/-- JSON text of a `models.PublicKeyEntry`: `omitempty` leaves out a map of length 0, nil
or not. -/
def encodeExactKeyEntry (e : ExactPublicKeyEntry) : JVal :=
  .obj ([("id", .str e.ID), ("type", .str e.Typ), ("controller", .str e.Controller)]
    ++ (match e.PublicKeyJWK with
        | none => []
        | some m => if m.isEmpty then [] else [("publicKeyJwk", JVal.obj m)]))

/-- JSON text of a `models.DIDDocument`: `omitempty` leaves out a slice of length 0, nil or
not. -/
def encodeExactDID (d : ExactDIDDocument) : JVal :=
  .obj ([("id", .str d.ID)]
    ++ (match d.Context with
        | none => []
        | some c => if c.isEmpty then [] else [("@context", JVal.arr (c.map JVal.str))])
    ++ (match d.PublicKey with
        | none => []
        | some ks =>
          if ks.isEmpty then [] else [("publicKey", JVal.arr (ks.map encodeExactKeyEntry))]))

/-- Read a JSON value into a `[]string` of a fresh struct: `null` leaves the field nil, an
array gives a non-nil slice. -/
def decodeExactStrings : JVal → Except String (Option (List String))
  | .null => .ok none
  | .arr items =>
    match decodeStringItems items with
    | .error e => .error e
    | .ok ss => .ok (some ss)
  | v => .error (typeError v "[]string")

/-- Read a JSON value into a `map[string]any` of a fresh struct. -/
def decodeExactMap : JVal → Except String (Option (GoMap JVal))
  | .null => .ok none
  | .obj fields => .ok (some fields)
  | v => .error (typeError v "map[string]interface {}")

/-- Read a JSON value into a `models.PublicKeyEntry`. -/
def decodeExactKeyEntry : JVal → Except String ExactPublicKeyEntry
  | .null => .ok ⟨"", "", "", none⟩
  | .obj fs =>
    match decodeString (member fs "id") with
    | .error e => .error e
    | .ok id =>
    match decodeString (member fs "type") with
    | .error e => .error e
    | .ok typ =>
    match decodeString (member fs "controller") with
    | .error e => .error e
    | .ok controller =>
    match decodeExactMap (member fs "publicKeyJwk") with
    | .error e => .error e
    | .ok jwk => .ok ⟨id, typ, controller, jwk⟩
  | v => .error (typeError v "models.PublicKeyEntry")

/-- Read the items of a JSON array into a `[]models.PublicKeyEntry`. -/
def decodeExactKeyEntryItems : List JVal → Except String (List ExactPublicKeyEntry)
  | [] => .ok []
  | v :: rest =>
    match decodeExactKeyEntry v with
    | .error e => .error e
    | .ok entry =>
      match decodeExactKeyEntryItems rest with
      | .error e => .error e
      | .ok entries => .ok (entry :: entries)

/-- Read a JSON value into a `[]models.PublicKeyEntry` of a fresh struct. -/
def decodeExactKeyEntries : JVal → Except String (Option (List ExactPublicKeyEntry))
  | .null => .ok none
  | .arr items =>
    match decodeExactKeyEntryItems items with
    | .error e => .error e
    | .ok entries => .ok (some entries)
  | v => .error (typeError v "[]models.PublicKeyEntry")

/-- Read a JSON value into a fresh `models.DIDDocument`. -/
def decodeExactDID : JVal → Except String ExactDIDDocument
  | .null => .ok ⟨"", none, none⟩
  | .obj fs =>
    match decodeString (member fs "id") with
    | .error e => .error e
    | .ok id =>
    match decodeExactStrings (member fs "@context") with
    | .error e => .error e
    | .ok context =>
    match decodeExactKeyEntries (member fs "publicKey") with
    | .error e => .error e
    | .ok keys => .ok ⟨id, context, keys⟩
  | v => .error (typeError v "models.DIDDocument")

/-- Go `(*WalletService).StoreDID` on a document with nil told from empty. -/
def WalletService.StoreDIDExact {σ : Type} (S : Store σ) (st : σ) (doc : ExactDIDDocument) :
    σ × Option String :=
  if doc.ID = "" then (st, some "DID must have an ID")
  else S.Save st doc.ID (.ok (encodeExactDID doc))

/-- Go `(*WalletService).GetDID` returning a document with nil told from empty. -/
def WalletService.GetDIDExact {σ : Type} (S : Store σ) (st : σ) (id : String) :
    Except String ExactDIDDocument :=
  if id = "" then .error "empty DID ID"
  else
    match S.LoadAs st id decodeExactDID with
    | .error e => .error ("failed to load DID: " ++ e)
    | .ok doc => .ok doc

/-- No slice or map of the document is empty without being nil. -/
def ExactDIDDocument.noEmptyCollection (d : ExactDIDDocument) : Bool :=
  (match d.Context with
    | some [] => false
    | _ => true)
  && (match d.PublicKey with
    | none => true
    | some [] => false
    | some ks => ks.all (fun e =>
        match e.PublicKeyJWK with
        | some [] => false
        | _ => true))

/-- Go `(*cryptoService).SignVC` with the struct behind the pointer `vc` made explicit: the
first component is the caller's credential after the call. The body copies the struct
(`vcToSign := *vc`) and assigns `nil` to the `Proof` field of the copy; no statement writes
through `vc`. -/
def cryptoService.SignVCPtr (L : GoLib) (vc : VerifiableCredential) (privateKey : Bytes) :
    VerifiableCredential × Outcome (Except String String) :=
  let vcToSign := vc
  let vcToSign := { vcToSign with Proof := none }
  match encodeVC vcToSign with
  | .error e => (vc, .ret (.error e))
  | .ok canonicalVC =>
    if privateKey.length ≠ 64 then
      (vc, .panic ("ed25519: bad private key length: " ++ toString privateKey.length))
    else
      (vc, .ret (.ok (L.base64RawURL (L.ed25519Sign privateKey (L.jsonText canonicalVC)))))

/-- Document with an empty, non-nil `@context`, as JSON decoding of `"@context": []` gives
it. -/
def emptyContextDocument : ExactDIDDocument := ⟨"did:telco:alice", some [], none⟩

/-- Presentation like `unsignedPresentation` created in the year 10000. -/
def farFuturePresentation : VerifiablePresentation :=
  { unsignedPresentation with Created := 253402300800 * 1000000000 }

/-- What a call makes of the listing of the method `d#key-1` in the record under an
identifier `d` that starts with `did:`: `some true` when it writes under `d` a document that
lists the method (a `GenerateDID` that yields `d`, a wallet `StoreDID` of such a document),
`some false` when it writes under `d` a record that does not (a wallet `StoreDID` of another
document, a wallet `StoreVC` that `json.Marshal` accepts), `none` when it writes nothing
under `d`. -/
def Op.listing (d : String) : Op → Option Bool
  | .generateDID _ uuid method opts =>
    if issuerService.newDID uuid method opts = d then some true else none
  | .storeDID doc =>
    if doc.ID = d then some (doc.PublicKey.any (fun e => decide (e.ID = d ++ "#key-1")))
    else none
  | .storeVC vc => if vc.ID = d ∧ marshalsVC vc = true then some false else none
  | _ => none

/-- Whether the method `d#key-1` is listed after a sequence of calls on a fresh store, read
off the calls: the listing made by the last call that wrote under `d`. -/
def listedAfter (d : String) (ops : List Op) : Bool :=
  ops.foldl (fun listed op => (op.listing d).getD listed) false

/-- Calls in which the wallet replaces the issuer's document by `blankDocument` and the
issuer then mints `did:telco:issuer` again, at the same clock reading. -/
def remintCalls : List Op :=
  [.generateDID 1700000000000000000 "" "telco" [("id", .str "issuer")],
    .storeDID blankDocument,
    .generateDID 1700000000000000000 "" "telco" [("id", .str "issuer")]]

/-! # Theorems -/

/-! ## Maps and strings -/

theorem GoMap.get_set_same {α : Type} (m : GoMap α) (k : String) (v : α) :
    GoMap.get (GoMap.set m k v) k = some v := by
  induction m with
  | nil => simp [GoMap.set, GoMap.get]
  | cons hd t ih =>
    obtain ⟨k', v'⟩ := hd
    unfold GoMap.set
    by_cases h : k = k'
    · simp [h, GoMap.get]
    · by_cases hlt : strLt k k' = true
      · simp [h, hlt, GoMap.get]
      · have h' : ¬ k' = k := fun e => h e.symm
        simp [h, hlt, GoMap.get, h', ih]

theorem GoMap.get_set_other {α : Type} (m : GoMap α) (k k2 : String) (v : α) (hne : k2 ≠ k) :
    GoMap.get (GoMap.set m k v) k2 = GoMap.get m k2 := by
  have hne' : ¬ k = k2 := fun e => hne e.symm
  induction m with
  | nil => simp [GoMap.set, GoMap.get, hne']
  | cons hd t ih =>
    obtain ⟨k', v'⟩ := hd
    unfold GoMap.set
    by_cases h : k = k'
    · subst h
      simp [GoMap.get, hne']
    · by_cases hlt : strLt k k' = true
      · simp [h, hlt, GoMap.get, hne']
      · simp only [h, hlt, if_false, GoMap.get, ih]

/-! ## JSON round trips -/

theorem encodeTime_ok {t : Time} {j : JVal} (h : encodeTime t = .ok j) : j = .time t := by
  unfold encodeTime at h
  split at h
  · cases h; rfl
  · cases h

theorem encodeOptTime_ok {o : Option Time} {oj : Option JVal} (h : encodeOptTime o = .ok oj) :
    oj = o.map JVal.time := by
  cases o with
  | none => cases h; rfl
  | some t =>
    simp only [encodeOptTime] at h
    split at h
    · cases h
    · rename_i j hj
      cases h
      rw [encodeTime_ok hj]; rfl

theorem decodeStringItems_map (l : List String) :
    decodeStringItems (l.map JVal.str) = .ok l := by
  induction l with
  | nil => rfl
  | cons a t ih => simp [decodeStringItems, decodeString, ih]

theorem decodeStrings_encodeStrings (l : List String) :
    decodeStrings (encodeStrings l) = .ok l := by
  cases l with
  | nil => rfl
  | cons a t =>
    show decodeStringItems ((a :: t).map JVal.str) = _
    exact decodeStringItems_map _

theorem decodeMap_encodeMap (m : GoMap JVal) : decodeMap (encodeMap m) = .ok m := by
  cases m with
  | nil => rfl
  | cons a t => rfl

theorem decodeProof_encodeProof {p : Proof} {j : JVal} (h : encodeProof p = .ok j) :
    decodeOptProof j = .ok (some p) := by
  obtain ⟨typ, created, purpose, method, jws, sig⟩ := p
  simp only [encodeProof] at h
  split at h
  · cases h
  · rename_i c hc
    cases h
    rw [encodeTime_ok hc]
    by_cases h1 : jws = "" <;> by_cases h2 : sig = ""
    · subst h1; subst h2; rfl
    · subst h1
      simp only [omitEmptyStr, h2, if_false]
      rfl
    · subst h2
      simp only [omitEmptyStr, h1, if_false]
      rfl
    · simp only [omitEmptyStr, h1, h2, if_false]
      rfl

theorem encodeOptProof_ok {o : Option Proof} {oj : Option JVal}
    (h : encodeOptProof o = .ok oj) :
    decodeOptProof (oj.getD .null) = .ok o ∧ (oj = none ↔ o = none) := by
  cases o with
  | none => cases h; exact ⟨rfl, by simp⟩
  | some p =>
    simp only [encodeOptProof] at h
    split at h
    · cases h
    · rename_i j hj
      cases h
      exact ⟨decodeProof_encodeProof hj, by simp⟩

theorem decodeOptStatus_encodeStatus (c : CredentialStatus) :
    decodeOptStatus (encodeStatus c) = .ok (some c) := by
  obtain ⟨id, typ⟩ := c
  rfl

theorem decodeVC_encodeVC {vc : VerifiableCredential} {j : JVal} (h : encodeVC vc = .ok j) :
    decodeVC j = .ok vc := by
  obtain ⟨ctx, id, typ, iss, issued, exp, subj, status, proof⟩ := vc
  simp only [encodeVC] at h
  split at h
  · cases h
  · rename_i ji hi
    split at h
    · cases h
    · rename_i je he
      split at h
      · cases h
      · rename_i jp hp
        cases h
        have hi' := encodeTime_ok hi
        have he' := encodeOptTime_ok he
        obtain ⟨hp1, hp2⟩ := encodeOptProof_ok hp
        subst hi' he'
        have e1 := decodeStrings_encodeStrings ctx
        have e2 := decodeStrings_encodeStrings typ
        have e3 := decodeMap_encodeMap subj
        cases exp <;> cases status <;> cases jp <;>
          simp only [Option.getD] at hp1 <;>
          simp only [decodeVC, member, GoMap.get, omitNil, Option.map, List.cons_append,
            List.nil_append, List.append_nil, Option.getD, decodeString, decodeTime,
            decodeOptTime, decodeOptStatus_encodeStatus, decodeOptStatus, e1, e2, e3, hp1,
            String.reduceEq, if_true, if_false] <;>
          rfl

/-! ## Issuer -/

theorem resolvePrivateKey_ok {σ : Type} {S : Store σ} {st : σ} {did vm : String} {key : Bytes}
    (h : issuerService.resolvePrivateKey S st did = .ok (key, vm)) :
    did ≠ "" ∧ vm = did ++ "#key-1" ∧ key.length = 64 ∧
      S.LoadAs st ("privatekey:" ++ (did ++ "#key-1")) decodeBytes = .ok key := by
  unfold issuerService.resolvePrivateKey at h
  split at h
  · cases h
  · rename_i hne
    simp only at h
    split at h
    · cases h
    · rename_i raw hraw
      split at h
      · cases h
      · rename_i hlen
        cases h
        exact ⟨hne, rfl, by simpa using hlen, hraw⟩

theorem CreateVC_ok_inv {σ : Type} {S : Store σ} {L : GoLib} {st st' : σ} {now : Time}
    {uuid : String} {req : VCRequest} {vc : VerifiableCredential}
    (h : issuerService.CreateVC S L st now uuid (some req) = (st', .ret (.ok vc))) :
    req.IssuerDID ≠ "" ∧ req.SubjectDID ≠ "" ∧
      ∃ key jws,
        issuerService.resolvePrivateKey S st req.IssuerDID
          = .ok (key, req.IssuerDID ++ "#key-1") ∧
        cryptoService.SignVC L (issuerService.unsignedVC now uuid req) key = .ret (.ok jws) ∧
        vc = issuerService.attachProof (issuerService.unsignedVC now uuid req)
          (req.IssuerDID ++ "#key-1") jws ∧
        S.Save st vc.ID (encodeVC vc) = (st', none) := by
  unfold issuerService.CreateVC at h
  simp only at h
  split at h
  · cases h
  · rename_i h1
    split at h
    · cases h
    · rename_i h2
      split at h
      · cases h
      · rename_i key vm hres
        obtain ⟨-, hvm, -, -⟩ := resolvePrivateKey_ok hres
        subst hvm
        split at h
        · cases h
        · cases h
        · rename_i jws hsign
          split at h
          · cases h
          · rename_i st1 hsave
            cases h
            exact ⟨h1, h2, key, jws, hres, hsign, rfl, hsave⟩

theorem MemoryStore.Save_ok {m m' : MemoryStore} {key : String} {value : Except String JVal}
    (h : memoryStore.Save m key value = (m', none)) :
    key ≠ "" ∧ ∃ j, value = .ok j ∧ m' = GoMap.set m key j := by
  change MemoryStore.Save m key value = (m', none) at h
  unfold MemoryStore.Save at h
  split at h
  · cases h
  · rename_i hk
    split at h
    · cases h
    · rename_i data
      cases h
      exact ⟨hk, data, rfl, rfl⟩

theorem GetVC_after_CreateVC {L : GoLib} {st st' : MemoryStore} {now : Time} {uuid : String}
    {req : VCRequest} {vc : VerifiableCredential}
    (h : issuerService.CreateVC memoryStore L st now uuid (some req) = (st', .ret (.ok vc))) :
    WalletService.GetVC memoryStore st' vc.ID = .ok vc := by
  obtain ⟨-, -, key, jws, -, -, -, hsave⟩ := CreateVC_ok_inv h
  obtain ⟨hid, j, hj, hst⟩ := MemoryStore.Save_ok hsave
  subst hst
  unfold WalletService.GetVC
  rw [if_neg hid]
  have hload : memoryStore.LoadAs (GoMap.set st vc.ID j) vc.ID decodeVC = .ok vc := by
    show (match MemoryStore.Load (GoMap.set st vc.ID j) vc.ID with
      | .error e => .error e
      | .ok j => decodeVC j) = Except.ok vc
    unfold MemoryStore.Load
    rw [GoMap.get_set_same]
    exact decodeVC_encodeVC hj
  rw [hload]

theorem resolve_issuerStore (L : GoLib) :
    issuerService.resolvePrivateKey memoryStore (issuerStore L) "did:telco:issuer"
      = .ok (keyAt L 1700000000000000000, "did:telco:issuer#key-1") := by
  have h : (keyAt L 1700000000000000000).length = 64 := L.privateKeySize _
  have hload : memoryStore.LoadAs (issuerStore L)
      ("privatekey:" ++ ("did:telco:issuer" ++ "#key-1")) decodeBytes
      = .ok (keyAt L 1700000000000000000) := rfl
  unfold issuerService.resolvePrivateKey
  rw [if_neg (by decide)]
  simp only [hload, h]
  rfl

/-- C1 (code defect). With the request `overrideRequest`, whose claims hold an `id` entry,
`CreateVC` succeeds on the store of a freshly minted issuer and the credential it returns,
which is also the one it stores, carries the caller's `id` claim instead of `req.SubjectDID`:
`maps.Copy` runs after the reserved key is set and overwrites it. -/
theorem CreateVC_claims_override_subject_id (L : GoLib) :
    ∃ st vc, issuerService.CreateVC memoryStore L (issuerStore L) 1700000100000000000 ""
        (some overrideRequest) = (st, .ret (.ok vc)) ∧
      overrideRequest.SubjectDID = "did:telco:alice" ∧
      GoMap.get vc.CredentialSubject "id" = some (.str "did:telco:mallory") ∧
      WalletService.GetVC memoryStore st vc.ID = .ok vc := by
  have h : (keyAt L 1700000000000000000).length = 64 := L.privateKeySize _
  have hr := resolve_issuerStore L
  have hex : ∃ st vc, issuerService.CreateVC memoryStore L (issuerStore L) 1700000100000000000
      "" (some overrideRequest) = (st, .ret (.ok vc)) ∧
      GoMap.get vc.CredentialSubject "id" = some (.str "did:telco:mallory") := by
    apply Exists.intro
    apply Exists.intro
    apply And.intro
    · unfold issuerService.CreateVC
      simp only [overrideRequest] at hr ⊢
      rw [if_neg (by decide), if_neg (by decide)]
      simp only [hr, cryptoService.SignVC, h, ne_eq, not_true_eq_false, if_false]
      rfl
    · rfl
  obtain ⟨st, vc, hc, hid⟩ := hex
  exact ⟨st, vc, hc, rfl, hid, GetVC_after_CreateVC hc⟩

/-! ## Wallet -/

theorem GetVC_ok {σ : Type} {S : Store σ} {st : σ} {id : String} {vc : VerifiableCredential}
    (h : WalletService.GetVC S st id = .ok vc) :
    id ≠ "" ∧ S.LoadAs st id decodeVC = .ok vc := by
  unfold WalletService.GetVC at h
  split at h
  · cases h
  · rename_i hid
    split at h
    · cases h
    · rename_i v hv
      cases h
      exact ⟨hid, hv⟩

theorem BuildVP_ok_inv {σ : Type} {S : Store σ} {st st' : σ} {now1 now2 : Time}
    {vcIDs : List String} {revealFields : GoMap (List String)} {nonce : String}
    {vp : VerifiablePresentation}
    (h : WalletService.BuildVP S st now1 now2 vcIDs revealFields nonce = (st', .ok vp)) :
    vcIDs ≠ [] ∧ nonce ≠ "" ∧
      ∃ vcs, loadDisclosedVCs S st vcIDs = .ok vcs ∧
        vp = WalletService.presentation now1 now2 vcs nonce ∧
        S.Save st ("vp:" ++ nonce) (encodeVP vp) = (st', none) := by
  unfold WalletService.BuildVP at h
  split at h
  · cases h
  · rename_i h1
    split at h
    · cases h
    · rename_i h2
      split at h
      · cases h
      · rename_i vcs hvcs
        simp only at h
        split at h
        · cases h
        · rename_i st1 hsave
          cases h
          exact ⟨by intro e; apply h1; simp [e], h2, vcs, hvcs, rfl, hsave⟩

/-- C2 (counterexample). The wallet holds `vcA` with the claims `age`, `id` and `name`;
`BuildVP` asked to reveal only `name` returns a presentation whose embedded copy still
carries the `age` claim. -/
theorem BuildVP_reveals_unrequested_claim :
    ∃ st vp vc,
      WalletService.BuildVP memoryStore walletStore 1700000200000000000 1700000200000000001
        ["vc:did:telco:alice:1"] [("vc:did:telco:alice:1", ["name"])] "n1" = (st, .ok vp) ∧
      vp.VerifiableCredential = [some vc] ∧
      GoMap.get vc.CredentialSubject "age" = some (.num 42) ∧
      "age" ∉ ["name", "id"] :=
  ⟨_, _, vcA, rfl, rfl, rfl, by decide⟩

/-- C2 (amended). A presentation that `BuildVP` returns for the single identifier of a stored
credential embeds that credential exactly as `GetVC` reads it, with every claim of its
`CredentialSubject`, whatever `revealFields` says. -/
theorem BuildVP_embeds_stored_credential_whole {σ : Type} (S : Store σ) (st st' : σ)
    (now1 now2 : Time) (id : String) (revealFields : GoMap (List String)) (nonce : String)
    (vcA : VerifiableCredential) (vp : VerifiablePresentation)
    (hget : WalletService.GetVC S st id = .ok vcA)
    (hbuild : WalletService.BuildVP S st now1 now2 [id] revealFields nonce = (st', .ok vp)) :
    vp.VerifiableCredential = [some vcA] := by
  obtain ⟨-, hload⟩ := GetVC_ok hget
  obtain ⟨-, -, vcs, hvcs, hvp, -⟩ := BuildVP_ok_inv hbuild
  simp only [loadDisclosedVCs, hload] at hvcs
  cases hvcs
  rw [hvp]
  rfl

/-- C2 (witness). The amended statement at the wallet store holding `vcA`, with
`revealFields` naming only `name`. -/
theorem BuildVP_embeds_stored_credential_whole_witness :
    WalletService.GetVC memoryStore walletStore "vc:did:telco:alice:1" = .ok vcA ∧
    (WalletService.BuildVP memoryStore walletStore 1700000200000000000 1700000200000000001
      ["vc:did:telco:alice:1"] [("vc:did:telco:alice:1", ["name"])] "n1").2
      = .ok (WalletService.presentation 1700000200000000000 1700000200000000001
        [some vcA] "n1") ∧
    (WalletService.presentation 1700000200000000000 1700000200000000001 [some vcA]
      "n1").VerifiableCredential = [some vcA] :=
  ⟨rfl, rfl, BuildVP_embeds_stored_credential_whole memoryStore walletStore _
    1700000200000000000 1700000200000000001 "vc:did:telco:alice:1"
    [("vc:did:telco:alice:1", ["name"])] "n1" vcA _ rfl rfl⟩

/-! ## Crypto -/

/-- C3 (counterexample). Whatever the signature scheme, `VerifySignature` accepts the proof
made for `vcA` on a copy of `vcA` whose `name` claim was changed afterwards. -/
theorem VerifySignature_accepts_tampered_credential :
    ¬ ∃ L : GoLib, ∀ (vc : VerifiableCredential) (key : Bytes) (jws : String)
        (subject : GoMap JVal),
      cryptoService.SignVC L vc key = .ret (.ok jws) →
      subject ≠ vc.CredentialSubject →
      (cryptoService.VerifySignature
        (issuerService.attachProof vc "did:telco:issuer#key-1" jws).Proof
        (.vc { issuerService.attachProof vc "did:telco:issuer#key-1" jws with
          CredentialSubject := subject })).1 ≠ true := by
  rintro ⟨L, h⟩
  refine h vcA (List.replicate 64 7) _ tamperedSubject rfl ?_ rfl
  intro e
  simp [tamperedSubject, vcA] at e

/-- C3 (amended). `VerifySignature` returns `(true, nil)` for every proof and every payload:
it checks nothing, so tampered payloads, wrong keys and malformed signature values pass. -/
theorem VerifySignature_always_true (proof : Option Proof) (payload : Payload) :
    cryptoService.VerifySignature proof payload = (true, none) := rfl

/-! ## Verifier -/

theorem verifyCredentials_all_proofs (creds : List (Option VerifiableCredential))
    (hall : ∀ c ∈ creds, ∃ vc, c = some vc ∧ vc.Proof.isSome = true) (i : Nat) :
    verifierService.verifyCredentials i creds = .ret (true, none) := by
  induction creds generalizing i with
  | nil => rfl
  | cons c rest ih =>
    obtain ⟨vc, hc, hp⟩ := hall c (List.mem_cons_self _ _)
    subst hc
    have hnone : vc.Proof.isNone = false := by
      cases hvp : vc.Proof with
      | none => rw [hvp] at hp; cases hp
      | some p => rfl
    simp only [verifierService.verifyCredentials, hnone, verifierService.verifyVCInternally]
    exact ih (fun c hc => hall c (List.mem_cons_of_mem _ hc)) (i + 1)

/-- C4 (counterexample). No notion of a valid holder signature that rejects a proof without
any signature value is enforced by `VerifyVP`: `unsignedPresentation`, whose proof has an
empty `JWS` and an empty `SignatureValue`, is answered with `(true, nil)`. -/
theorem VerifyVP_accepts_unsigned_presentation :
    ¬ ∃ valid : Proof → VerifiablePresentation → Bool,
      (∀ p body, p.JWS = "" → p.SignatureValue = "" → valid p body = false) ∧
      ∀ vp p, vp.Proof = some p → vp.VerifiableCredential ≠ [] →
        valid p { vp with Proof := none } = false →
        ∃ e, verifierService.VerifyVP vp = .ret (false, some e) := by
  rintro ⟨valid, hempty, hclaim⟩
  obtain ⟨e, he⟩ := hclaim unsignedPresentation _ rfl (by simp [unsignedPresentation])
    (hempty _ _ rfl rfl)
  have hrun : verifierService.VerifyVP unsignedPresentation = .ret (true, none) := rfl
  rw [hrun] at he
  cases he

/-- C4 (amended). `VerifyVP` performs no holder authentication: its result does not depend
on the content of the presentation's proof, so replacing a proof by any other proof,
whatever its signature value and verification method, leaves the result unchanged. -/
theorem VerifyVP_ignores_proof_content (vp : VerifiablePresentation) (p q : Proof) :
    verifierService.VerifyVP { vp with Proof := some p }
      = verifierService.VerifyVP { vp with Proof := some q } := rfl

/-- C5 (counterexample). `expiredPresentation` carries a proof, its credential 0 never
expires and its credential 1 expired at the Unix epoch, long before the reading
1700000000 s of the clock; `VerifyVP` returns `(true, nil)` and names no index. -/
theorem VerifyVP_accepts_expired_credential :
    verifierService.VerifyVP expiredPresentation = .ret (true, none) ∧
    expiredPresentation.Proof.isSome = true ∧
    expiredPresentation.VerifiableCredential = [some vcA, some vcExpired] ∧
    vcA.Proof.isSome = true ∧ vcExpired.Proof.isSome = true ∧
    vcA.ExpirationDate = none ∧
    vcExpired.ExpirationDate = some 0 ∧ (0 : Time) < 1700000000000000000 :=
  ⟨rfl, rfl, rfl, rfl, rfl, rfl, rfl, by decide⟩

/-- C5 (amended). `VerifyVP` does not look at expiration dates: every presentation with a
proof and at least one embedded credential, all of whose credentials carry proofs, is
answered with `(true, nil)`, whatever the `ExpirationDate` of the credentials. -/
theorem VerifyVP_ignores_expiration (vp : VerifiablePresentation)
    (hproof : vp.Proof.isSome = true) (hne : vp.VerifiableCredential ≠ [])
    (hall : ∀ c ∈ vp.VerifiableCredential, ∃ vc, c = some vc ∧ vc.Proof.isSome = true) :
    verifierService.VerifyVP vp = .ret (true, none) := by
  unfold verifierService.VerifyVP
  have h1 : vp.Proof.isNone = false := by
    cases hvp : vp.Proof with
    | none => rw [hvp] at hproof; cases hproof
    | some p => rfl
  have h2 : ¬ vp.VerifiableCredential.length = 0 := by
    intro h
    exact hne (List.length_eq_zero.mp h)
  simp only [h1, h2, if_false]
  exact verifyCredentials_all_proofs _ hall 0

/-- C5 (witness). The amended statement at `expiredPresentation`, whose second credential
has expired. -/
theorem VerifyVP_ignores_expiration_witness :
    expiredPresentation.Proof.isSome = true ∧
    expiredPresentation.VerifiableCredential ≠ [] ∧
    (∀ c ∈ expiredPresentation.VerifiableCredential,
      ∃ vc, c = some vc ∧ vc.Proof.isSome = true) ∧
    verifierService.VerifyVP expiredPresentation = .ret (true, none) :=
  have hall : ∀ c ∈ expiredPresentation.VerifiableCredential,
      ∃ vc, c = some vc ∧ vc.Proof.isSome = true := by
    intro c hc
    simp only [expiredPresentation, List.mem_cons, List.mem_singleton, List.not_mem_nil,
      or_false] at hc
    rcases hc with rfl | rfl
    · exact ⟨vcA, rfl, rfl⟩
    · exact ⟨vcExpired, rfl, rfl⟩
  ⟨rfl, by simp [expiredPresentation], hall,
    VerifyVP_ignores_expiration expiredPresentation rfl (by simp [expiredPresentation]) hall⟩

/-- C6 (counterexample). Two presentations built over different credentials, with
different nonces, holders and creation times, carry the same signature value, the fixed
text of the source, and an empty `JWS`. -/
theorem BuildVP_same_signature_for_different_bodies :
    ∃ st1 vp1 p1 st2 vp2 p2,
      WalletService.BuildVP memoryStore walletStore 1700000200000000000 1700000200000000000
        ["vc:did:telco:alice:1"] [] "n1" = (st1, .ok vp1) ∧
      WalletService.BuildVP memoryStore walletStore 1700000300000000000 1700000300000000000
        ["vc:did:telco:alice:2"] [] "n2" = (st2, .ok vp2) ∧
      vp1.Proof = some p1 ∧ vp2.Proof = some p2 ∧
      vp1.VerifiableCredential.map (Option.map VerifiableCredential.ID)
        ≠ vp2.VerifiableCredential.map (Option.map VerifiableCredential.ID) ∧
      vp1.Holder ≠ vp2.Holder ∧ vp1.Nonce ≠ vp2.Nonce ∧ vp1.Created ≠ vp2.Created ∧
      p1.SignatureValue = p2.SignatureValue ∧
      p1.SignatureValue = "REAL-CRYPTOGRAPHIC-SIGNATURE-OF-THE-VP" ∧
      p1.JWS = "" ∧ p2.JWS = "" :=
  ⟨_, _, _, _, _, _, rfl, rfl, rfl, rfl, by decide, by decide, by decide, by decide,
    rfl, rfl, rfl, rfl⟩

/-- C6 (amended). Every presentation that `BuildVP` returns carries a proof whose
`SignatureValue` is the fixed text `REAL-CRYPTOGRAPHIC-SIGNATURE-OF-THE-VP` and whose `JWS`
is empty: no signature is computed from the body or from a holder key. -/
theorem BuildVP_signature_is_fixed {σ : Type} (S : Store σ) (st st' : σ) (now1 now2 : Time)
    (vcIDs : List String) (revealFields : GoMap (List String)) (nonce : String)
    (vp : VerifiablePresentation)
    (h : WalletService.BuildVP S st now1 now2 vcIDs revealFields nonce = (st', .ok vp)) :
    ∃ p, vp.Proof = some p ∧
      p.SignatureValue = "REAL-CRYPTOGRAPHIC-SIGNATURE-OF-THE-VP" ∧ p.JWS = "" := by
  obtain ⟨-, -, vcs, -, hvp, -⟩ := BuildVP_ok_inv h
  subst hvp
  exact ⟨_, rfl, rfl, rfl⟩

/-- C6 (witness). The amended statement at the presentation built from `vcExpired`. -/
theorem BuildVP_signature_is_fixed_witness :
    (WalletService.BuildVP memoryStore walletStore 1700000300000000000 1700000300000000000
        ["vc:did:telco:alice:2"] [] "n2").2
      = .ok (WalletService.presentation 1700000300000000000 1700000300000000000
        [some vcExpired] "n2") ∧
    ∃ p, (WalletService.presentation 1700000300000000000 1700000300000000000
        [some vcExpired] "n2").Proof = some p ∧
      p.SignatureValue = "REAL-CRYPTOGRAPHIC-SIGNATURE-OF-THE-VP" ∧ p.JWS = "" :=
  ⟨rfl, BuildVP_signature_is_fixed memoryStore walletStore _ 1700000300000000000
    1700000300000000000 ["vc:did:telco:alice:2"] [] "n2" _ rfl⟩

/-- C7. On every request for which `CreateVC` succeeds, the credential carries a proof with
purpose `assertionMethod`, verification method `req.IssuerDID + "#key-1"` and creation time
equal to the issuance date, and its `JWS` is what `SignVC` returns for the same credential
without its proof under the private key stored at
`"privatekey:" + req.IssuerDID + "#key-1"`. -/
theorem CreateVC_attaches_assertion_proof {σ : Type} (S : Store σ) (L : GoLib) (st st' : σ)
    (now : Time) (uuid : String) (req : VCRequest) (vc : VerifiableCredential)
    (h : issuerService.CreateVC S L st now uuid (some req) = (st', .ret (.ok vc))) :
    ∃ p key, vc.Proof = some p ∧
      p.ProofPurpose = "assertionMethod" ∧
      p.VerificationMethod = req.IssuerDID ++ "#key-1" ∧
      p.Created = vc.IssuanceDate ∧
      S.LoadAs st ("privatekey:" ++ req.IssuerDID ++ "#key-1") decodeBytes = .ok key ∧
      cryptoService.SignVC L { vc with Proof := none } key = .ret (.ok p.JWS) := by
  obtain ⟨-, -, key, jws, hres, hsign, hvc, -⟩ := CreateVC_ok_inv h
  obtain ⟨-, -, -, hload⟩ := resolvePrivateKey_ok hres
  subst hvc
  refine ⟨_, key, rfl, rfl, rfl, rfl, ?_, hsign⟩
  rw [String.append_assoc]
  exact hload

/-- C7 (witness). The statement at `overrideRequest` on the store of a freshly minted
issuer, run with the stand-in library. -/
theorem CreateVC_attaches_assertion_proof_witness :
    (issuerService.CreateVC memoryStore sampleLib (issuerStore sampleLib)
        1700000100000000000 "" (some overrideRequest)).2 = .ret (.ok sampleCredential) ∧
    ∃ p key, sampleCredential.Proof = some p ∧
      p.ProofPurpose = "assertionMethod" ∧
      p.VerificationMethod = overrideRequest.IssuerDID ++ "#key-1" ∧
      p.Created = sampleCredential.IssuanceDate ∧
      memoryStore.LoadAs (issuerStore sampleLib)
        ("privatekey:" ++ overrideRequest.IssuerDID ++ "#key-1") decodeBytes = .ok key ∧
      cryptoService.SignVC sampleLib { sampleCredential with Proof := none } key
        = .ret (.ok p.JWS) :=
  ⟨rfl, CreateVC_attaches_assertion_proof memoryStore sampleLib (issuerStore sampleLib) _
    1700000100000000000 "" overrideRequest sampleCredential rfl⟩

/-! ## Key conventions -/

theorem hasPrefix_iff (s p : String) : hasPrefix s p = true ↔ ∃ t : String, s = p ++ t := by
  unfold hasPrefix
  rw [List.isPrefixOf_iff_prefix]
  constructor
  · rintro ⟨t, ht⟩
    exact ⟨⟨t⟩, String.ext (by simp [← ht])⟩
  · rintro ⟨t, rfl⟩
    exact ⟨t.data, by simp⟩

theorem append_left_cancel {p a b : String} (h : p ++ a = p ++ b) : a = b := by
  have := congrArg String.data h
  simp only [String.data_append] at this
  exact String.ext (List.append_cancel_left this)

theorem append_right_cancel {a b s : String} (h : a ++ s = b ++ s) : a = b := by
  have := congrArg String.data h
  simp only [String.data_append] at this
  exact String.ext (List.append_cancel_right this)

theorem append_ne_of_head (c d : Char) (cs ds : List Char) (x y : String) (h : c ≠ d) :
    String.mk (c :: cs) ++ x ≠ String.mk (d :: ds) ++ y := by
  intro e
  have := congrArg String.data e
  simp only [String.data_append, List.cons_append, List.cons.injEq] at this
  exact h this.1

theorem did_ne_privatekey (x y : String) : "did:" ++ x ≠ "privatekey:" ++ y :=
  append_ne_of_head 'd' 'p' ['i', 'd', ':'] _ x y (by decide)

theorem did_ne_vc (x y : String) : "did:" ++ x ≠ "vc:" ++ y :=
  append_ne_of_head 'd' 'v' ['i', 'd', ':'] _ x y (by decide)

theorem did_ne_vp (x y : String) : "did:" ++ x ≠ "vp:" ++ y :=
  append_ne_of_head 'd' 'v' ['i', 'd', ':'] _ x y (by decide)

theorem privatekey_ne_vc (x y : String) : "privatekey:" ++ x ≠ "vc:" ++ y :=
  append_ne_of_head 'p' 'v' _ ['c', ':'] x y (by decide)

theorem privatekey_ne_vp (x y : String) : "privatekey:" ++ x ≠ "vp:" ++ y :=
  append_ne_of_head 'p' 'v' _ ['p', ':'] x y (by decide)

theorem literal_append_ne_empty (c : Char) (cs : List Char) (x : String) :
    String.mk (c :: cs) ++ x ≠ "" := by
  intro h
  have := congrArg String.data h
  simp at this

/-! ## Reads never see private-key records -/

theorem get_redact (st : MemoryStore) (key : String) :
    GoMap.get (redact st) key
      = (GoMap.get st key).map (fun j => match j with
          | .bytes _ => JVal.bytes []
          | j => j) := by
  induction st with
  | nil => rfl
  | cons hd t ih =>
    obtain ⟨k, v⟩ := hd
    by_cases hk : k = key
    · subst hk
      cases v <;> simp [redact, GoMap.get]
    · have ih' : GoMap.get (List.map (fun kv => match kv.2 with
          | .bytes _ => (kv.1, JVal.bytes [])
          | _ => kv) t) key = _ := ih
      cases v <;> simp [redact, GoMap.get, hk, ih']

theorem keys_redact (st : MemoryStore) : GoMap.keys (redact st) = GoMap.keys st := by
  unfold redact GoMap.keys
  rw [List.map_map]
  apply List.map_congr_left
  rintro ⟨k, v⟩ -
  cases v <;> rfl

theorem LoadAs_redact {α : Type} (decode : JVal → Except String α)
    (hdec : ∀ bs, decode (.bytes bs) = decode (.bytes [])) (st : MemoryStore) (key : String) :
    memoryStore.LoadAs (redact st) key decode = memoryStore.LoadAs st key decode := by
  show (match MemoryStore.Load (redact st) key with
    | Except.error e => Except.error e
    | Except.ok j => decode j) = (match MemoryStore.Load st key with
    | Except.error e => Except.error e
    | Except.ok j => decode j)
  unfold MemoryStore.Load
  rw [get_redact]
  cases h : GoMap.get st key with
  | none => rfl
  | some j =>
    cases j <;> simp only [Option.map]
    exact (hdec _).symm

theorem listRecords_redact {α : Type} (decode : JVal → Except String α)
    (hdec : ∀ bs, decode (.bytes bs) = decode (.bytes [])) (keep : String → α → Bool)
    (st : MemoryStore) (pfx : String) (keys : List String) :
    listRecords memoryStore (redact st) pfx decode keep keys
      = listRecords memoryStore st pfx decode keep keys := by
  induction keys with
  | nil => rfl
  | cons k rest ih => simp only [listRecords, LoadAs_redact decode hdec, ih]

theorem ListKeys_redact (st : MemoryStore) (pfx : String) :
    memoryStore.ListKeys (redact st) pfx = memoryStore.ListKeys st pfx := by
  show MemoryStore.ListKeys (redact st) pfx = MemoryStore.ListKeys st pfx
  unfold MemoryStore.ListKeys
  rw [keys_redact]

theorem loadDisclosedVCs_redact (st : MemoryStore) (ids : List String) :
    loadDisclosedVCs memoryStore (redact st) ids = loadDisclosedVCs memoryStore st ids := by
  induction ids with
  | nil => rfl
  | cons id rest ih =>
    simp only [loadDisclosedVCs, LoadAs_redact decodeVC (fun _ => rfl), ih]

theorem MemoryStore.Save_error_eq (m m2 : MemoryStore) (key : String)
    (value : Except String JVal) :
    (memoryStore.Save m key value).2 = (memoryStore.Save m2 key value).2 := by
  show (MemoryStore.Save m key value).2 = (MemoryStore.Save m2 key value).2
  unfold MemoryStore.Save
  split
  · rfl
  · cases value <;> rfl

theorem GenerateKeyPair_2018 (L : GoLib) (now : Time) :
    cryptoService.GenerateKeyPair L now "Ed25519VerificationKey2018"
      = .ok (keyAt L now, jwkAt L now) := rfl

theorem newDID_eq (uuid method : String) (opts : GoMap JVal) :
    ∃ x, issuerService.newDID uuid method opts = "did:" ++ x := by
  refine ⟨method ++ (":" ++ if optionID opts = "" then String.mk (uuid.data.take 8)
    else optionID opts), ?_⟩
  simp only [issuerService.newDID, String.append_assoc]

theorem MemoryStore.Save_set (m : MemoryStore) (key : String) (j : JVal) (hk : key ≠ "") :
    memoryStore.Save m key (.ok j) = (GoMap.set m key j, none) := by
  show MemoryStore.Save m key (.ok j) = _
  unfold MemoryStore.Save
  rw [if_neg hk]

theorem GenerateDID_memoryStore (L : GoLib) (st : MemoryStore) (now : Time)
    (uuid method : String) (opts : GoMap JVal) :
    issuerService.GenerateDID memoryStore L st now uuid method opts
      = (GoMap.set
          (GoMap.set st ("privatekey:" ++ (issuerService.newDID uuid method opts ++ "#key-1"))
            (.bytes (keyAt L now)))
          (issuerService.newDID uuid method opts)
          (encodeDID (issuerService.newDocument (issuerService.newDID uuid method opts)
            "Ed25519VerificationKey2018" (jwkAt L now))),
        .ok (issuerService.newDocument (issuerService.newDID uuid method opts)
            "Ed25519VerificationKey2018" (jwkAt L now))) := by
  obtain ⟨x, hx⟩ := newDID_eq uuid method opts
  unfold issuerService.GenerateDID
  simp only [GenerateKeyPair_2018]
  rw [MemoryStore.Save_set _ _ _ (literal_append_ne_empty 'p' _ _)]
  rw [MemoryStore.Save_set _ _ _ (by rw [hx]; exact literal_append_ne_empty 'd' _ _)]
  rfl

/-- C9. `GenerateDID` writes the private key under its `privatekey:` key as a byte-string
record, which `redact` blanks; and on every store state every wallet read (`GetDID`,
`GetVC`, `GetVP`, `ListDIDs`, `ListVCs`, `ListVPs` and the presentation or error returned by
`BuildVP`), for every identifier argument, gives the same result on the store and on the
store with all byte-string records blanked, so that no result holds private key material. -/
theorem wallet_reads_never_return_private_keys (L : GoLib) (st0 st : MemoryStore)
    (now : Time) (uuid method : String) (opts : GoMap JVal) (id : String)
    (clock : String → Time × Time) (vcFilter : VCFilter) (vpFilter : VPFilter)
    (now1 now2 : Time) (vcIDs : List String) (revealFields : GoMap (List String))
    (nonce : String) :
    (∃ doc,
      (issuerService.GenerateDID memoryStore L st0 now uuid method opts).2 = .ok doc ∧
      GoMap.get (issuerService.GenerateDID memoryStore L st0 now uuid method opts).1
        ("privatekey:" ++ doc.ID ++ "#key-1") = some (.bytes (keyAt L now)) ∧
      GoMap.get (redact (issuerService.GenerateDID memoryStore L st0 now uuid method opts).1)
        ("privatekey:" ++ doc.ID ++ "#key-1") = some (.bytes [])) ∧
    WalletService.GetDID memoryStore (redact st) id = WalletService.GetDID memoryStore st id ∧
    WalletService.GetVC memoryStore (redact st) id = WalletService.GetVC memoryStore st id ∧
    WalletService.GetVP memoryStore (redact st) id = WalletService.GetVP memoryStore st id ∧
    WalletService.ListDIDs memoryStore (redact st) = WalletService.ListDIDs memoryStore st ∧
    WalletService.ListVCs memoryStore (redact st) clock vcFilter
      = WalletService.ListVCs memoryStore st clock vcFilter ∧
    WalletService.ListVPs memoryStore (redact st) vpFilter
      = WalletService.ListVPs memoryStore st vpFilter ∧
    (WalletService.BuildVP memoryStore (redact st) now1 now2 vcIDs revealFields nonce).2
      = (WalletService.BuildVP memoryStore st now1 now2 vcIDs revealFields nonce).2 := by
  refine ⟨?_, ?_, ?_, ?_, ?_, ?_, ?_, ?_⟩
  · obtain ⟨x, hx⟩ := newDID_eq uuid method opts
    rw [GenerateDID_memoryStore]
    have hkey : "privatekey:" ++ (issuerService.newDID uuid method opts ++ "#key-1")
        ≠ issuerService.newDID uuid method opts := by
      rw [hx]
      exact (did_ne_privatekey _ _).symm
    have hget : GoMap.get (GoMap.set (GoMap.set st0
        ("privatekey:" ++ (issuerService.newDID uuid method opts ++ "#key-1"))
        (.bytes (keyAt L now))) (issuerService.newDID uuid method opts)
        (encodeDID (issuerService.newDocument (issuerService.newDID uuid method opts)
          "Ed25519VerificationKey2018" (jwkAt L now))))
        ("privatekey:" ++ (issuerService.newDID uuid method opts ++ "#key-1"))
        = some (.bytes (keyAt L now)) := by
      rw [GoMap.get_set_other _ _ _ _ hkey, GoMap.get_set_same]
    have hid : (issuerService.newDocument (issuerService.newDID uuid method opts)
        "Ed25519VerificationKey2018" (jwkAt L now)).ID
        = issuerService.newDID uuid method opts := rfl
    refine ⟨_, rfl, ?_, ?_⟩
    · rw [hid, String.append_assoc]
      exact hget
    · rw [hid, String.append_assoc, get_redact, hget]
      rfl
  · simp only [WalletService.GetDID, LoadAs_redact decodeDID (fun _ => rfl)]
  · simp only [WalletService.GetVC, LoadAs_redact decodeVC (fun _ => rfl)]
  · simp only [WalletService.GetVP, LoadAs_redact decodeVP (fun _ => rfl)]
  · simp only [WalletService.ListDIDs, ListKeys_redact,
      listRecords_redact decodeDID (fun _ => rfl)]
  · simp only [WalletService.ListVCs, ListKeys_redact,
      listRecords_redact decodeVC (fun _ => rfl)]
  · simp only [WalletService.ListVPs, ListKeys_redact,
      listRecords_redact decodeVP (fun _ => rfl)]
  · unfold WalletService.BuildVP
    rw [loadDisclosedVCs_redact]
    split
    · rfl
    · split
      · rfl
      · cases hl : loadDisclosedVCs memoryStore st vcIDs with
        | error e => rfl
        | ok vcs =>
          simp only
          have hs := MemoryStore.Save_error_eq (redact st) st ("vp:" ++ nonce)
            (encodeVP (WalletService.presentation now1 now2 vcs nonce))
          generalize memoryStore.Save (redact st) ("vp:" ++ nonce)
            (encodeVP (WalletService.presentation now1 now2 vcs nonce)) = r1 at hs ⊢
          generalize memoryStore.Save st ("vp:" ++ nonce)
            (encodeVP (WalletService.presentation now1 now2 vcs nonce)) = r2 at hs ⊢
          obtain ⟨a1, e1⟩ := r1
          obtain ⟨a2, e2⟩ := r2
          simp only at hs
          subst hs
          cases e1 <;> rfl

/-- C10 (code defect). `GenerateKeyPair` draws its key from a generator seeded with the
clock reading alone: two successful calls that see the same reading, here one per supported
key type, return the same private key and the same public JWK. -/
theorem GenerateKeyPair_repeats_key_at_equal_clock (L : GoLib) (now : Time) :
    ∃ key jwk,
      cryptoService.GenerateKeyPair L now "Ed25519VerificationKey2018" = .ok (key, jwk) ∧
      cryptoService.GenerateKeyPair L now "Ed25519VerificationKey2020" = .ok (key, jwk) ∧
      key = keyAt L now :=
  ⟨_, _, rfl, rfl, rfl⟩

/-! ## The issuer's key stays listed -/

theorem runOps_append (L : GoLib) (pre post : List Op) :
    runOps L (pre ++ post) = post.foldl (Op.run L) (runOps L pre) := by
  unfold runOps
  rw [List.foldl_append]

theorem resolve_overwrittenStore (L : GoLib) :
    issuerService.resolvePrivateKey memoryStore (overwrittenStore L) "did:telco:issuer"
      = .ok (keyAt L 1700000000000000000, "did:telco:issuer#key-1") := by
  have h : (keyAt L 1700000000000000000).length = 64 := L.privateKeySize _
  have hload : memoryStore.LoadAs (overwrittenStore L)
      ("privatekey:" ++ ("did:telco:issuer" ++ "#key-1")) decodeBytes
      = .ok (keyAt L 1700000000000000000) := rfl
  unfold issuerService.resolvePrivateKey
  rw [if_neg (by decide)]
  simp only [hload, h]
  rfl

/-- C8 (counterexample). Whatever the library routines, after the issuer mints
`did:telco:issuer` and the wallet stores `blankDocument` under that identifier, `CreateVC`
still succeeds for the issuer, and the document stored under the credential's `Issuer`
does not list the credential's `Proof.VerificationMethod`. -/
theorem StoreDID_unlists_issuer_key :
    ¬ ∃ L : GoLib, ∀ (pre post : List Op) (now : Time) (uuid : String) (req : VCRequest)
        (st' : MemoryStore) (vc : VerifiableCredential),
      issuerService.CreateVC memoryStore L (runOps L pre) now uuid (some req)
        = (st', .ret (.ok vc)) →
      methodListed (runOps L (pre ++ Op.createVC now uuid req :: post)) vc = true := by
  rintro ⟨L, hclaim⟩
  have h : (keyAt L 1700000000000000000).length = 64 := L.privateKeySize _
  have hr := resolve_overwrittenStore L
  have hex : ∃ st vc, issuerService.CreateVC memoryStore L (overwrittenStore L)
      1700000100000000000 "" (some overrideRequest) = (st, .ret (.ok vc)) ∧
      methodListed st vc = false := by
    apply Exists.intro
    apply Exists.intro
    apply And.intro
    · unfold issuerService.CreateVC
      simp only [overrideRequest] at hr ⊢
      rw [if_neg (by decide), if_neg (by decide)]
      simp only [hr, cryptoService.SignVC, h, ne_eq, not_true_eq_false, if_false]
      rfl
    · rfl
  obtain ⟨st, vc, hc, hm⟩ := hex
  have hl := hclaim [.generateDID 1700000000000000000 "" "telco" [("id", .str "issuer")],
    .storeDID blankDocument] [] 1700000100000000000 "" overrideRequest st vc hc
  rw [runOps_append] at hl
  simp only [List.foldl_cons, List.foldl_nil, Op.run] at hl
  change methodListed (issuerService.CreateVC memoryStore L (overwrittenStore L)
    1700000100000000000 "" (some overrideRequest)).1 vc = true at hl
  rw [hc, hm] at hl
  cases hl

theorem encodeVC_obj {vc : VerifiableCredential} {j : JVal} (h : encodeVC vc = .ok j) :
    ∃ fs, j = .obj fs := by
  unfold encodeVC at h
  split at h
  · cases h
  · split at h
    · cases h
    · split at h
      · cases h
      · cases h
        exact ⟨_, rfl⟩

theorem encodeVP_obj {vp : VerifiablePresentation} {j : JVal} (h : encodeVP vp = .ok j) :
    ∃ fs, j = .obj fs := by
  unfold encodeVP at h
  split at h
  · cases h
  · split at h
    · cases h
    · split at h
      · cases h
      · cases h
        exact ⟨_, rfl⟩

theorem MemoryStore.Save_fst (m : MemoryStore) (key : String) (value : Except String JVal) :
    (memoryStore.Save m key value).1 = m ∨
      ∃ j, value = .ok j ∧ (memoryStore.Save m key value).1 = GoMap.set m key j := by
  show (MemoryStore.Save m key value).1 = m ∨
      ∃ j, value = .ok j ∧ (MemoryStore.Save m key value).1 = GoMap.set m key j
  unfold MemoryStore.Save
  split
  · exact Or.inl rfl
  · cases value with
    | error e => exact Or.inl rfl
    | ok j => exact Or.inr ⟨j, rfl, rfl⟩

theorem CreateVC_fst {L : GoLib} (st : MemoryStore) (now : Time) (uuid : String)
    (req : VCRequest) :
    (issuerService.CreateVC memoryStore L st now uuid (some req)).1 = st ∨
      ∃ y fs, (issuerService.CreateVC memoryStore L st now uuid (some req)).1
        = GoMap.set st ("vc:" ++ y) (.obj fs) := by
  unfold issuerService.CreateVC
  simp only
  split
  · exact Or.inl rfl
  · split
    · exact Or.inl rfl
    · split
      · exact Or.inl rfl
      · rename_i key vm hres
        split
        · exact Or.inl rfl
        · exact Or.inl rfl
        · rename_i jws hsign
          rcases MemoryStore.Save_fst st
            (issuerService.attachProof (issuerService.unsignedVC now uuid req) vm jws).ID
            (encodeVC (issuerService.attachProof (issuerService.unsignedVC now uuid req)
              vm jws)) with h | ⟨j, hj, h⟩
          · left
            split
            · rename_i st1 e hs
              rw [hs] at h
              exact h
            · rename_i st1 hs
              rw [hs] at h
              exact h
          · right
            obtain ⟨fs, rfl⟩ := encodeVC_obj hj
            refine ⟨req.SubjectDID ++ (":" ++ if optionID req.Options = "" then uuid
              else optionID req.Options), fs, ?_⟩
            have hid : (issuerService.attachProof (issuerService.unsignedVC now uuid req)
                vm jws).ID = "vc:" ++ (req.SubjectDID ++ (":" ++
                  if optionID req.Options = "" then uuid else optionID req.Options)) := by
              simp only [issuerService.attachProof, issuerService.unsignedVC,
                String.append_assoc]
            rw [hid] at h
            split
            · rename_i st1 e hs
              rw [hid] at hs
              rw [hs] at h
              exact h
            · rename_i st1 hs
              rw [hid] at hs
              rw [hs] at h
              exact h

theorem BuildVP_fst (st : MemoryStore) (now1 now2 : Time) (vcIDs : List String)
    (revealFields : GoMap (List String)) (nonce : String) :
    (WalletService.BuildVP memoryStore st now1 now2 vcIDs revealFields nonce).1 = st ∨
      ∃ fs, (WalletService.BuildVP memoryStore st now1 now2 vcIDs revealFields nonce).1
        = GoMap.set st ("vp:" ++ nonce) (.obj fs) := by
  unfold WalletService.BuildVP
  split
  · exact Or.inl rfl
  · split
    · exact Or.inl rfl
    · split
      · exact Or.inl rfl
      · rename_i vcs hvcs
        simp only
        rcases MemoryStore.Save_fst st ("vp:" ++ nonce)
          (encodeVP (WalletService.presentation now1 now2 vcs nonce)) with h | ⟨j, hj, h⟩
        · left
          split
          · rename_i st1 e hs
            rw [hs] at h
            exact h
          · rename_i st1 hs
            rw [hs] at h
            exact h
        · right
          obtain ⟨fs, rfl⟩ := encodeVP_obj hj
          refine ⟨fs, ?_⟩
          split
          · rename_i st1 e hs
            rw [hs] at h
            exact h
          · rename_i st1 hs
            rw [hs] at h
            exact h

theorem decodeDID_newDocument (L : GoLib) (now : Time) (did : String) :
    decodeDID (encodeDID (issuerService.newDocument did "Ed25519VerificationKey2018"
      (jwkAt L now)))
      = .ok (issuerService.newDocument did "Ed25519VerificationKey2018" (jwkAt L now)) := rfl

theorem listsKey_set_other {st : MemoryStore} {d k : String} {v : JVal} (hne : d ≠ k)
    (h : listsKey st d) : listsKey (GoMap.set st k v) d := by
  obtain ⟨j, doc, hget, hdec, hmem⟩ := h
  exact ⟨j, doc, by rw [GoMap.get_set_other _ _ _ _ hne]; exact hget, hdec, hmem⟩

theorem decodeBytes_length {j : JVal} {key : Bytes} (h : decodeBytes j = .ok key)
    (hlen : key.length = 64) : j = .bytes key := by
  cases j <;> simp only [decodeBytes] at h <;> cases h
  · cases hlen
  · rfl

/-! ## Rejections that leave the store alone -/

/-- C12. A presentation whose proof is absent or whose credential sequence is empty is
answered by `VerifyVP` with `false` and an error, whatever its other fields. -/
theorem VerifyVP_rejects_malformed (vp : VerifiablePresentation)
    (h : vp.Proof = none ∨ vp.VerifiableCredential = []) :
    ∃ e, verifierService.VerifyVP vp = .ret (false, some e) := by
  unfold verifierService.VerifyVP
  cases hp : vp.Proof with
  | none => exact ⟨_, rfl⟩
  | some p =>
    rcases h with h | h
    · rw [hp] at h; cases h
    · rw [h]
      exact ⟨_, rfl⟩

/-- C12 (witness). The statement at `emptyPresentation`, which has a proof and no
credential. -/
theorem VerifyVP_rejects_malformed_witness :
    (emptyPresentation.Proof = none ∨ emptyPresentation.VerifiableCredential = []) ∧
    ∃ e, verifierService.VerifyVP emptyPresentation = .ret (false, some e) :=
  ⟨Or.inr rfl, VerifyVP_rejects_malformed emptyPresentation (Or.inr rfl)⟩

/-- C14. With an empty `vcIDs`, whatever the nonce, and with an empty nonce, whatever the
identifiers, `BuildVP` returns an error and no presentation and hands back the store state it
was given; this holds over every store implementation. -/
theorem BuildVP_rejects_empty_input {σ : Type} (S : Store σ) (st : σ) (now1 now2 : Time)
    (vcIDs : List String) (revealFields : GoMap (List String)) (nonce : String)
    (h : vcIDs = [] ∨ nonce = "") :
    ∃ e, WalletService.BuildVP S st now1 now2 vcIDs revealFields nonce = (st, .error e) := by
  unfold WalletService.BuildVP
  by_cases h1 : vcIDs.length = 0
  · rw [if_pos h1]
    exact ⟨_, rfl⟩
  · rw [if_neg h1]
    rcases h with h | h
    · rw [h] at h1
      exact absurd rfl h1
    · rw [if_pos h]
      exact ⟨_, rfl⟩

/-- C14 (witness). The statement on the wallet store, with an identifier and no nonce. -/
theorem BuildVP_rejects_empty_input_witness :
    (["vc:did:telco:alice:1"] = ([] : List String) ∨ ("" : String) = "") ∧
    ∃ e, WalletService.BuildVP memoryStore walletStore 1700000200000000000
      1700000200000000000 ["vc:did:telco:alice:1"] [] "" = (walletStore, .error e) :=
  ⟨Or.inr rfl, BuildVP_rejects_empty_input memoryStore walletStore 1700000200000000000
    1700000200000000000 ["vc:did:telco:alice:1"] [] "" (Or.inr rfl)⟩

theorem loadDisclosedVCs_missing {σ : Type} (S : Store σ) (st : σ) (vcIDs : List String)
    (id e : String) (hid : id ∈ vcIDs) (hload : S.Load st id = .error e) :
    ∃ e', loadDisclosedVCs S st vcIDs = .error e' := by
  induction vcIDs with
  | nil => cases hid
  | cons a rest ih =>
    unfold loadDisclosedVCs
    cases ha : S.LoadAs st a decodeVC with
    | error e1 => exact ⟨_, rfl⟩
    | ok vc =>
      have hne : id ≠ a := by
        rintro rfl
        simp only [Store.LoadAs, hload] at ha
        cases ha
      obtain ⟨e', he'⟩ := ih (by
        rcases List.mem_cons.mp hid with h | h
        · exact absurd h hne
        · exact h)
      simp only [he']
      exact ⟨_, rfl⟩

/-- C15. When some identifier of `vcIDs` has no record in the store, `BuildVP` returns an
error and no presentation and hands back the store state it was given, however many of the
other identifiers resolve; this holds over every store implementation. -/
theorem BuildVP_fails_on_missing_credential {σ : Type} (S : Store σ) (st : σ)
    (now1 now2 : Time) (vcIDs : List String) (revealFields : GoMap (List String))
    (nonce id e : String) (hid : id ∈ vcIDs) (hload : S.Load st id = .error e) :
    ∃ e', WalletService.BuildVP S st now1 now2 vcIDs revealFields nonce
      = (st, .error e') := by
  unfold WalletService.BuildVP
  split
  · exact ⟨_, rfl⟩
  · split
    · exact ⟨_, rfl⟩
    · obtain ⟨e', he'⟩ := loadDisclosedVCs_missing S st vcIDs id e hid hload
      simp only [he']
      exact ⟨_, rfl⟩

/-- C15 (witness). The statement on the wallet store, for two stored credentials and one
identifier without a record between them. -/
theorem BuildVP_fails_on_missing_credential_witness :
    "vc:did:telco:alice:9" ∈ ["vc:did:telco:alice:1", "vc:did:telco:alice:9",
      "vc:did:telco:alice:2"] ∧
    memoryStore.Load walletStore "vc:did:telco:alice:9"
      = .error "key not found: vc:did:telco:alice:9" ∧
    ∃ e', WalletService.BuildVP memoryStore walletStore 1700000200000000000
      1700000200000000000 ["vc:did:telco:alice:1", "vc:did:telco:alice:9",
        "vc:did:telco:alice:2"] [] "n1" = (walletStore, .error e') :=
  ⟨by decide, rfl, BuildVP_fails_on_missing_credential memoryStore walletStore
    1700000200000000000 1700000200000000000 _ [] "n1" "vc:did:telco:alice:9" _
    (by decide) rfl⟩

/-- C19. For a nil request and for a request whose `IssuerDID` or `SubjectDID` is empty,
`CreateVC` returns an error and no credential and hands back the store state it was given;
this holds over every store implementation. -/
theorem CreateVC_rejects_missing_identifiers {σ : Type} (S : Store σ) (L : GoLib) (st : σ)
    (now : Time) (uuid : String) (req : Option VCRequest)
    (h : req = none ∨ ∃ r, req = some r ∧ (r.IssuerDID = "" ∨ r.SubjectDID = "")) :
    ∃ e, issuerService.CreateVC S L st now uuid req = (st, .ret (.error e)) := by
  rcases h with rfl | ⟨r, rfl, h⟩
  · exact ⟨_, rfl⟩
  · unfold issuerService.CreateVC
    simp only
    by_cases h1 : r.IssuerDID = ""
    · rw [if_pos h1]
      exact ⟨_, rfl⟩
    · rw [if_neg h1]
      rcases h with h | h
      · exact absurd h h1
      · rw [if_pos h]
        exact ⟨_, rfl⟩

/-- C19 (witness). The statement on the store of a freshly minted issuer, for
`overrideRequest` with its subject removed. -/
theorem CreateVC_rejects_missing_identifiers_witness :
    (some { overrideRequest with SubjectDID := "" } = (none : Option VCRequest) ∨
      ∃ r, some { overrideRequest with SubjectDID := "" } = some r ∧
        (r.IssuerDID = "" ∨ r.SubjectDID = "")) ∧
    ∃ e, issuerService.CreateVC memoryStore sampleLib (issuerStore sampleLib)
      1700000100000000000 "" (some { overrideRequest with SubjectDID := "" })
      = (issuerStore sampleLib, .ret (.error e)) :=
  ⟨Or.inr ⟨_, rfl, Or.inr rfl⟩,
    CreateVC_rejects_missing_identifiers memoryStore sampleLib (issuerStore sampleLib)
      1700000100000000000 "" _ (Or.inr ⟨_, rfl, Or.inr rfl⟩)⟩

theorem decodeVCItems_encodeVCList {l : List (Option VerifiableCredential)} {js : List JVal}
    (h : encodeVCList l = .ok js) : decodeVCItems js = .ok l ∧ (js = [] ↔ l = []) := by
  induction l generalizing js with
  | nil => cases h; exact ⟨rfl, by simp⟩
  | cons c rest ih =>
    cases c with
    | none =>
      simp only [encodeVCList] at h
      split at h
      · cases h
      · rename_i js' hjs
        cases h
        refine ⟨?_, by simp⟩
        simp only [decodeVCItems, (ih hjs).1]
    | some vc =>
      simp only [encodeVCList] at h
      split at h
      · cases h
      · rename_i j hj
        split at h
        · cases h
        · rename_i js' hjs
          cases h
          obtain ⟨fs, rfl⟩ := encodeVC_obj hj
          refine ⟨?_, by simp⟩
          simp only [decodeVCItems, decodeVC_encodeVC hj, (ih hjs).1]

theorem decodeVP_encodeVP {vp : VerifiablePresentation} {j : JVal}
    (h : encodeVP vp = .ok j) : decodeVP j = .ok vp := by
  obtain ⟨ctx, typ, vcs, holder, proof, nonce, created⟩ := vp
  simp only [encodeVP] at h
  split at h
  · cases h
  · rename_i js hjs
    split at h
    · cases h
    · rename_i jp hp
      split at h
      · cases h
      · rename_i jc hc
        cases h
        have hc' := encodeTime_ok hc
        obtain ⟨hp1, hp2⟩ := encodeOptProof_ok hp
        obtain ⟨hv1, hv2⟩ := decodeVCItems_encodeVCList hjs
        subst hc'
        have e1 := decodeStrings_encodeStrings ctx
        have e2 := decodeStrings_encodeStrings typ
        have e3 : decodeVCList (if js.isEmpty = true then JVal.null else JVal.arr js)
            = .ok vcs := by
          cases js with
          | nil =>
            have : vcs = [] := hv2.mp rfl
            subst this
            rfl
          | cons a t => exact hv1
        by_cases h1 : holder = "" <;> by_cases h2 : nonce = "" <;> cases jp <;>
          simp only [Option.getD] at hp1 <;>
          simp only [decodeVP, member, GoMap.get, omitNil, omitEmptyStr, h1, h2,
            List.cons_append, List.nil_append, List.append_nil, Option.getD, decodeString,
            decodeTime, e1, e2, e3, hp1, String.reduceEq, if_true, if_false]

theorem loadDisclosedVCs_ok {σ : Type} {S : Store σ} {st : σ} {ids : List String}
    {vcs : List (Option VerifiableCredential)} (h : loadDisclosedVCs S st ids = .ok vcs) :
    vcs.length = ids.length ∧
      ∀ (i : Nat) (id : String), ids[i]? = some id →
        ∃ vc, S.LoadAs st id decodeVC = .ok vc ∧ vcs[i]? = some (some vc) := by
  induction ids generalizing vcs with
  | nil =>
    cases h
    exact ⟨rfl, fun i id hi => by simp at hi⟩
  | cons a rest ih =>
    unfold loadDisclosedVCs at h
    split at h
    · cases h
    · rename_i vc hvc
      split at h
      · cases h
      · rename_i vcs' hrest
        cases h
        obtain ⟨hlen, hall⟩ := ih hrest
        refine ⟨by simp [hlen], ?_⟩
        intro i id hi
        cases i with
        | zero =>
          simp only [List.getElem?_cons_zero, Option.some.injEq] at hi
          subst hi
          exact ⟨vc, hvc, by simp⟩
        | succ n =>
          simp only [List.getElem?_cons_succ] at hi
          obtain ⟨vc', h1, h2⟩ := hall n id hi
          exact ⟨vc', h1, by simpa using h2⟩

/-- C16. A presentation returned by `BuildVP` has `Holder = "vp:" + nonce` and
`Nonce = nonce`, carries a proof with purpose `authentication` and verification method
`Holder + "#key-1"`, and afterwards the in-memory store holds that same presentation under
the key equal to its `Holder`. -/
theorem BuildVP_holder_proof_and_record (st st' : MemoryStore) (now1 now2 : Time)
    (vcIDs : List String) (revealFields : GoMap (List String)) (nonce : String)
    (vp : VerifiablePresentation)
    (h : WalletService.BuildVP memoryStore st now1 now2 vcIDs revealFields nonce
      = (st', .ok vp)) :
    vp.Holder = "vp:" ++ nonce ∧ vp.Nonce = nonce ∧
      (∃ p, vp.Proof = some p ∧ p.ProofPurpose = "authentication" ∧
        p.VerificationMethod = vp.Holder ++ "#key-1") ∧
      memoryStore.LoadAs st' vp.Holder decodeVP = .ok vp := by
  obtain ⟨-, -, vcs, -, hvp, hsave⟩ := BuildVP_ok_inv h
  obtain ⟨-, j, hj, hst⟩ := MemoryStore.Save_ok hsave
  subst hvp
  subst hst
  refine ⟨rfl, rfl, ⟨_, rfl, rfl, rfl⟩, ?_⟩
  show (match MemoryStore.Load (GoMap.set st ("vp:" ++ nonce) j) ("vp:" ++ nonce) with
    | Except.error e => Except.error e
    | Except.ok j => decodeVP j)
    = Except.ok (WalletService.presentation now1 now2 vcs nonce)
  unfold MemoryStore.Load
  rw [GoMap.get_set_same]
  exact decodeVP_encodeVP hj

/-- C16 (witness). The statement for the presentation of `vcA` built on the wallet store
with nonce `n1`. -/
theorem BuildVP_holder_proof_and_record_witness :
    (WalletService.BuildVP memoryStore walletStore 1700000200000000000 1700000200000000001
        ["vc:did:telco:alice:1"] [] "n1").2
      = .ok (WalletService.presentation 1700000200000000000 1700000200000000001
        [some vcA] "n1") ∧
    (WalletService.presentation 1700000200000000000 1700000200000000001 [some vcA]
      "n1").Holder = "vp:" ++ "n1" ∧
    memoryStore.LoadAs
      (WalletService.BuildVP memoryStore walletStore 1700000200000000000
        1700000200000000001 ["vc:did:telco:alice:1"] [] "n1").1
      "vp:n1" decodeVP
      = .ok (WalletService.presentation 1700000200000000000 1700000200000000001
        [some vcA] "n1") :=
  have h := BuildVP_holder_proof_and_record walletStore _ 1700000200000000000
    1700000200000000001 ["vc:did:telco:alice:1"] [] "n1"
    (WalletService.presentation 1700000200000000000 1700000200000000001 [some vcA] "n1") rfl
  ⟨rfl, h.1, h.2.2.2⟩

/-- C18. A presentation returned by `BuildVP`, in particular when `revealFields` has no
entry for any identifier of `vcIDs`, embeds as many credentials as `vcIDs` has identifiers,
and its i-th credential is the credential stored under the i-th identifier as the store
reads it, with all of its subject claims; this holds over every store implementation. -/
theorem BuildVP_embeds_all_in_order {σ : Type} (S : Store σ) (st st' : σ) (now1 now2 : Time)
    (vcIDs : List String) (revealFields : GoMap (List String)) (nonce : String)
    (vp : VerifiablePresentation)
    (_hreveal : ∀ id ∈ vcIDs, GoMap.get revealFields id = none)
    (h : WalletService.BuildVP S st now1 now2 vcIDs revealFields nonce = (st', .ok vp)) :
    vp.VerifiableCredential.length = vcIDs.length ∧
      ∀ (i : Nat) (id : String), vcIDs[i]? = some id →
        ∃ vc, S.LoadAs st id decodeVC = .ok vc ∧
          vp.VerifiableCredential[i]? = some (some vc) := by
  obtain ⟨-, -, vcs, hvcs, hvp, -⟩ := BuildVP_ok_inv h
  subst hvp
  exact loadDisclosedVCs_ok hvcs

/-- C18 (witness). The statement for the presentation of `vcExpired` and `vcA`, in that
order, built on the wallet store without any `revealFields`. -/
theorem BuildVP_embeds_all_in_order_witness :
    (∀ id ∈ ["vc:did:telco:alice:2", "vc:did:telco:alice:1"],
      GoMap.get ([] : GoMap (List String)) id = none) ∧
    (WalletService.BuildVP memoryStore walletStore 1700000200000000000 1700000200000000001
        ["vc:did:telco:alice:2", "vc:did:telco:alice:1"] [] "n1").2
      = .ok (WalletService.presentation 1700000200000000000 1700000200000000001
        [some vcExpired, some vcA] "n1") ∧
    (WalletService.presentation 1700000200000000000 1700000200000000001
      [some vcExpired, some vcA] "n1").VerifiableCredential.length = 2 ∧
    ∀ (i : Nat) (id : String),
      ["vc:did:telco:alice:2", "vc:did:telco:alice:1"][i]? = some id →
      ∃ vc, memoryStore.LoadAs walletStore id decodeVC = .ok vc ∧
        (WalletService.presentation 1700000200000000000 1700000200000000001
          [some vcExpired, some vcA] "n1").VerifiableCredential[i]? = some (some vc) :=
  have h := BuildVP_embeds_all_in_order memoryStore walletStore _ 1700000200000000000
    1700000200000000001 ["vc:did:telco:alice:2", "vc:did:telco:alice:1"] [] "n1"
    (WalletService.presentation 1700000200000000000 1700000200000000001
      [some vcExpired, some vcA] "n1") (fun _ _ => rfl) rfl
  ⟨fun _ _ => rfl, rfl, h.1, h.2⟩

/-- C17 (counterexample). The wallet holds the credential `vcShadow` under the identifier
`vp:n1`; `BuildVP` for that identifier with nonce `n1` succeeds and saves the presentation
under the same key, so the record under an identifier of `vcIDs` is no longer the stored
credential: read back as a credential it has lost its identifier and its claims. -/
theorem BuildVP_overwrites_credential_under_presentation_key :
    ∃ st vp vc,
      WalletService.BuildVP memoryStore shadowStore 1700000200000000000 1700000200000000000
        ["vp:n1"] [] "n1" = (st, .ok vp) ∧
      WalletService.GetVC memoryStore shadowStore "vp:n1" = .ok vcShadow ∧
      WalletService.GetVC memoryStore st "vp:n1" = .ok vc ∧
      vcShadow.ID = "vp:n1" ∧ vc.ID = "" ∧
      GoMap.get vcShadow.CredentialSubject "name" = some (.str "Alice") ∧
      GoMap.get vc.CredentialSubject "name" = none ∧
      GoMap.get st "vp:n1" ≠ GoMap.get shadowStore "vp:n1" := by
  refine ⟨_, _, _, rfl, rfl, rfl, rfl, rfl, rfl, rfl, ?_⟩
  intro h
  have h2 := congrArg (fun r => (match r with
    | some j => (decodeVC j).toOption.map VerifiableCredential.ID
    | none => none)) h
  revert h2
  decide

/-- C17 (amended). `BuildVP` writes under the key `"vp:" + nonce` only: whether it succeeds
or not, the record that the in-memory store holds under any other identifier, in particular
under each identifier of `vcIDs` other than `"vp:" + nonce`, is the one it held before. -/
theorem BuildVP_keeps_other_records (st : MemoryStore) (now1 now2 : Time)
    (vcIDs : List String) (revealFields : GoMap (List String)) (nonce id : String)
    (hid : id ≠ "vp:" ++ nonce) :
    GoMap.get (WalletService.BuildVP memoryStore st now1 now2 vcIDs revealFields nonce).1 id
      = GoMap.get st id := by
  rcases BuildVP_fst st now1 now2 vcIDs revealFields nonce with h | ⟨fs, h⟩
  · rw [h]
  · rw [h, GoMap.get_set_other _ _ _ _ hid]

/-- C17 (witness). The amended statement for `vcA` on the wallet store. -/
theorem BuildVP_keeps_other_records_witness :
    "vc:did:telco:alice:1" ≠ "vp:" ++ "n1" ∧
    GoMap.get (WalletService.BuildVP memoryStore walletStore 1700000200000000000
      1700000200000000000 ["vc:did:telco:alice:1"] [] "n1").1 "vc:did:telco:alice:1"
      = GoMap.get walletStore "vc:did:telco:alice:1" :=
  ⟨by decide, BuildVP_keeps_other_records walletStore 1700000200000000000
    1700000200000000000 ["vc:did:telco:alice:1"] [] "n1" "vc:did:telco:alice:1"
    (by decide)⟩

theorem wrapInt64_of_range (x : Int) (h1 : -9223372036854775808 ≤ x)
    (h2 : x < 9223372036854775808) : wrapInt64 x = x := by
  unfold wrapInt64
  omega

/-- C20 (counterexample). Whatever the library routines, `CreateVC` succeeds for
`longRequest`, whose `ValidityDays` is 106752, and the expiration date of the credential is
not the issuance date plus 106752 days: the `int64` product wraps around and the expiration
date lies before the issuance date. -/
theorem CreateVC_validity_overflows :
    ¬ ∃ L : GoLib, ∀ (st st' : MemoryStore) (now : Time) (uuid : String) (req : VCRequest)
        (vc : VerifiableCredential),
      issuerService.CreateVC memoryStore L st now uuid (some req) = (st', .ret (.ok vc)) →
      0 < req.ValidityDays →
      ∃ e, vc.ExpirationDate = some e ∧
        e = vc.IssuanceDate + req.ValidityDays * 86400000000000 ∧ vc.IssuanceDate < e := by
  rintro ⟨L, hclaim⟩
  have h : (keyAt L 1700000000000000000).length = 64 := L.privateKeySize _
  have hr := resolve_issuerStore L
  have hex : ∃ st vc, issuerService.CreateVC memoryStore L (issuerStore L)
      1700000100000000000 "" (some longRequest) = (st, .ret (.ok vc)) ∧
      vc.IssuanceDate = 1700000100000000000 ∧
      vc.ExpirationDate = some (1700000100000000000 - 9223371273709551616) := by
    apply Exists.intro
    apply Exists.intro
    apply And.intro
    · unfold issuerService.CreateVC
      simp only [longRequest, overrideRequest] at hr ⊢
      rw [if_neg (by decide), if_neg (by decide)]
      simp only [hr, cryptoService.SignVC, h, ne_eq, not_true_eq_false, if_false]
      rfl
    · exact ⟨rfl, rfl⟩
  obtain ⟨st, vc, hc, hi, he⟩ := hex
  obtain ⟨e, he', -, hlt⟩ := hclaim _ _ _ _ _ _ hc (by decide)
  rw [he] at he'
  cases he'
  rw [hi] at hlt
  revert hlt
  decide

/-- C20 (amended). On every request for which `CreateVC` succeeds: when `ValidityDays` is
between 1 and 106751, the expiration date is set, equals the issuance date plus
`ValidityDays` times 24 hours and is later than the issuance date; when `ValidityDays` is
zero or negative, the expiration date is absent. -/
theorem CreateVC_expiration_date {σ : Type} (S : Store σ) (L : GoLib) (st st' : σ)
    (now : Time) (uuid : String) (req : VCRequest) (vc : VerifiableCredential)
    (h : issuerService.CreateVC S L st now uuid (some req) = (st', .ret (.ok vc))) :
    (0 < req.ValidityDays → req.ValidityDays ≤ 106751 →
      vc.ExpirationDate = some (vc.IssuanceDate + req.ValidityDays * 86400000000000) ∧
      vc.IssuanceDate < vc.IssuanceDate + req.ValidityDays * 86400000000000) ∧
    (req.ValidityDays ≤ 0 → vc.ExpirationDate = none) := by
  obtain ⟨-, -, key, jws, -, -, hvc, -⟩ := CreateVC_ok_inv h
  subst hvc
  constructor
  · intro hpos hle
    have hw1 : wrapInt64 (req.ValidityDays * 24) = req.ValidityDays * 24 :=
      wrapInt64_of_range _ (by omega) (by omega)
    have hw2 : wrapInt64 (req.ValidityDays * 24 * 3600000000000)
        = req.ValidityDays * 86400000000000 := by
      rw [wrapInt64_of_range _ (by omega) (by omega)]
      omega
    refine ⟨?_, Int.lt_add_of_pos_right _ (by omega)⟩
    simp only [issuerService.attachProof, issuerService.unsignedVC, gt_iff_lt, hpos,
      if_true, hw1, hw2]
  · intro hle
    have hn : ¬ req.ValidityDays > 0 := by omega
    simp only [issuerService.attachProof, issuerService.unsignedVC, hn, if_false]

/-- C20 (witness). The amended statement for `overrideRequest`, whose `ValidityDays` is
30, on the store of a freshly minted issuer. -/
theorem CreateVC_expiration_date_witness :
    (issuerService.CreateVC memoryStore sampleLib (issuerStore sampleLib)
        1700000100000000000 "" (some overrideRequest)).2 = .ret (.ok sampleCredential) ∧
    (0 : Int) < overrideRequest.ValidityDays ∧ overrideRequest.ValidityDays ≤ 106751 ∧
    sampleCredential.ExpirationDate
      = some (sampleCredential.IssuanceDate + overrideRequest.ValidityDays * 86400000000000) ∧
    sampleCredential.IssuanceDate
      < sampleCredential.IssuanceDate + overrideRequest.ValidityDays * 86400000000000 :=
  have h := (CreateVC_expiration_date memoryStore sampleLib (issuerStore sampleLib) _
    1700000100000000000 "" overrideRequest sampleCredential rfl).1 (by decide) (by decide)
  ⟨rfl, by decide, by decide, h.1, h.2⟩

theorem verifyCredentials_first_missing (pre post : List (Option VerifiableCredential))
    (vc : VerifiableCredential) (i : Nat)
    (hpre : ∀ c ∈ pre, ∃ v, c = some v ∧ v.Proof.isSome = true) (hvc : vc.Proof = none) :
    verifierService.verifyCredentials i (pre ++ some vc :: post)
      = .ret (false, some ("VC index " ++ toString (i + pre.length)
          ++ " verification failed: missing VC proof")) := by
  induction pre generalizing i with
  | nil =>
    simp only [List.nil_append, verifierService.verifyCredentials, hvc, Option.isNone_none,
      if_true, List.length_nil, Nat.add_zero]
  | cons c rest ih =>
    obtain ⟨v, hc, hp⟩ := hpre c (List.mem_cons_self _ _)
    subst hc
    have hnone : v.Proof.isNone = false := by
      cases hvp : v.Proof with
      | none => rw [hvp] at hp; cases hp
      | some p => rfl
    have hrec := ih (i + 1) (fun c hc => hpre c (List.mem_cons_of_mem _ hc))
    have hidx : i + 1 + rest.length = i + (rest.length + 1) := by omega
    rw [hidx] at hrec
    show verifierService.verifyCredentials i (some v :: (rest ++ some vc :: post)) = _
    simp only [verifierService.verifyCredentials, hnone, verifierService.verifyVCInternally,
      List.length_cons, Bool.false_eq_true, if_false]
    exact hrec

/-- C13 (code defect). `nilFirstPresentation` has a proof, a nil first entry and, at index
1, a credential without a proof; `VerifyVP` reads the `Proof` of the nil entry and panics
instead of returning `false` with an error that names an index. -/
theorem VerifyVP_panics_before_reporting_missing_proof :
    nilFirstPresentation.Proof.isSome = true ∧
    nilFirstPresentation.VerifiableCredential = [none, some vcUnsigned] ∧
    vcUnsigned.Proof = none ∧
    verifierService.VerifyVP nilFirstPresentation
      = .panic "runtime error: invalid memory address or nil pointer dereference" :=
  ⟨rfl, rfl, rfl, rfl⟩

/-! ## The order of map keys -/

theorem Char.toNat_eq {a b : Char} (h : a.toNat = b.toNat) : a = b := by
  apply Char.eq_of_val_eq
  apply UInt32.eq_of_val_eq
  apply Fin.eq_of_val_eq
  exact h

theorem lexLt_irrefl (a : List Char) : lexLt a a = false := by
  induction a with
  | nil => rfl
  | cons c t ih => simp [lexLt, ih]

theorem lexLt_asymm {a b : List Char} (h : lexLt a b = true) : lexLt b a = false := by
  induction a generalizing b with
  | nil => cases b <;> simp_all [lexLt]
  | cons c t ih =>
    cases b with
    | nil => simp [lexLt] at h
    | cons d u =>
      simp only [lexLt] at h ⊢
      by_cases h1 : c.toNat < d.toNat
      · have h2 : ¬ d.toNat < c.toNat := by omega
        have h3 : ¬ d.toNat = c.toNat := by omega
        simp [h2, h3]
      · by_cases h4 : c.toNat = d.toNat
        · have hcd : c = d := Char.toNat_eq h4
          subst hcd
          simp only [lt_irrefl, if_false, if_true] at h ⊢
          exact ih h
        · simp [h1, h4] at h

theorem lexLt_total {a b : List Char} (h : lexLt a b = false) (hne : a ≠ b) :
    lexLt b a = true := by
  induction a generalizing b with
  | nil =>
    cases b with
    | nil => exact absurd rfl hne
    | cons d u => simp [lexLt] at h
  | cons c t ih =>
    cases b with
    | nil => rfl
    | cons d u =>
      simp only [lexLt] at h ⊢
      by_cases h1 : c.toNat < d.toNat
      · simp [h1] at h
      · by_cases h4 : c.toNat = d.toNat
        · have hcd : c = d := Char.toNat_eq h4
          subst hcd
          have : t ≠ u := fun e => hne (by rw [e])
          simp only [lt_irrefl, if_false, if_true] at h ⊢
          exact ih h this
        · have h5 : d.toNat < c.toNat := by omega
          simp [h5]

theorem lexLt_trans {a b c : List Char} (h1 : lexLt a b = true) (h2 : lexLt b c = true) :
    lexLt a c = true := by
  induction a generalizing b c with
  | nil =>
    cases b with
    | nil => simp [lexLt] at h1
    | cons d u =>
      cases c with
      | nil => simp [lexLt] at h2
      | cons e w => rfl
  | cons x t ih =>
    cases b with
    | nil => simp [lexLt] at h1
    | cons d u =>
      cases c with
      | nil => simp [lexLt] at h2
      | cons e w =>
        simp only [lexLt] at h1 h2 ⊢
        by_cases p1 : x.toNat < d.toNat
        · by_cases p2 : d.toNat < e.toNat
          · have : x.toNat < e.toNat := by omega
            simp [this]
          · by_cases p3 : d.toNat = e.toNat
            · have : x.toNat < e.toNat := by omega
              simp [this]
            · simp [p2, p3] at h2
        · by_cases p4 : x.toNat = d.toNat
          · have hxd : x = d := Char.toNat_eq p4
            subst hxd
            simp only [lt_irrefl, if_false, if_true] at h1
            by_cases p2 : x.toNat < e.toNat
            · simp [p2]
            · by_cases p3 : x.toNat = e.toNat
              · have hxe : x = e := Char.toNat_eq p3
                subst hxe
                simp only [lt_irrefl, if_false, if_true] at h2 ⊢
                exact ih h1 h2
              · simp [p2, p3] at h2
          · simp [p1, p4] at h1

theorem strLt_cases (a b : String) :
    (a = b ∧ strLt a b = false ∧ strLt b a = false) ∨
    (a ≠ b ∧ strLt a b = true ∧ strLt b a = false) ∨
    (a ≠ b ∧ strLt a b = false ∧ strLt b a = true) := by
  unfold strLt
  by_cases h : a = b
  · subst h
    exact Or.inl ⟨rfl, lexLt_irrefl _, lexLt_irrefl _⟩
  · have hd : a.data ≠ b.data := fun e => h (String.ext e)
    cases hl : lexLt a.data b.data with
    | true => exact Or.inr (Or.inl ⟨h, rfl, lexLt_asymm hl⟩)
    | false => exact Or.inr (Or.inr ⟨h, rfl, lexLt_total hl hd⟩)

theorem strLt_trans {a b c : String} (h1 : strLt a b = true) (h2 : strLt b c = true) :
    strLt a c = true := lexLt_trans h1 h2

theorem GoMap.set_comm {α : Type} (m : GoMap α) (k1 k2 : String) (v1 v2 : α)
    (h : k1 ≠ k2) :
    GoMap.set (GoMap.set m k1 v1) k2 v2 = GoMap.set (GoMap.set m k2 v2) k1 v1 := by
  have h' : k2 ≠ k1 := fun e => h e.symm
  induction m with
  | nil =>
    rcases strLt_cases k1 k2 with ⟨e, -, -⟩ | ⟨-, a, b⟩ | ⟨-, a, b⟩
    · exact absurd e h
    · simp [GoMap.set, h, h', a, b]
    · simp [GoMap.set, h, h', a, b]
  | cons hd t ih =>
    obtain ⟨k, v⟩ := hd
    have t1 : strLt k1 k = true → strLt k k2 = true → strLt k1 k2 = true := strLt_trans
    have t2 : strLt k2 k = true → strLt k k1 = true → strLt k2 k1 = true := strLt_trans
    have t3 : strLt k1 k2 = true → strLt k2 k = true → strLt k1 k = true := strLt_trans
    have t4 : strLt k2 k1 = true → strLt k1 k = true → strLt k2 k = true := strLt_trans
    have t5 : strLt k k1 = true → strLt k1 k2 = true → strLt k k2 = true := strLt_trans
    have t6 : strLt k k2 = true → strLt k2 k1 = true → strLt k k1 = true := strLt_trans
    rcases strLt_cases k1 k2 with ⟨e, -, -⟩ | ⟨-, a, b⟩ | ⟨-, a, b⟩
    · exact absurd e h
    · rcases strLt_cases k1 k with ⟨e1, c1, d1⟩ | ⟨e1, c1, d1⟩ | ⟨e1, c1, d1⟩ <;>
        rcases strLt_cases k2 k with ⟨e2, c2, d2⟩ | ⟨e2, c2, d2⟩ | ⟨e2, c2, d2⟩ <;>
        simp_all [GoMap.set]
    · rcases strLt_cases k1 k with ⟨e1, c1, d1⟩ | ⟨e1, c1, d1⟩ | ⟨e1, c1, d1⟩ <;>
        rcases strLt_cases k2 k with ⟨e2, c2, d2⟩ | ⟨e2, c2, d2⟩ | ⟨e2, c2, d2⟩ <;>
        simp_all [GoMap.set]

theorem mapsCopy_perm {α : Type} {es1 es2 : List (String × α)} (hperm : es1.Perm es2)
    (hkeys : (es1.map Prod.fst).Nodup) (m : GoMap α) : mapsCopy m es1 = mapsCopy m es2 := by
  unfold mapsCopy
  induction hperm generalizing m with
  | nil => rfl
  | cons x _ ih =>
    simp only [List.map_cons, List.nodup_cons] at hkeys
    simp only [List.foldl_cons]
    exact ih hkeys.2 _
  | swap x y l =>
    simp only [List.map_cons, List.nodup_cons, List.mem_cons, not_or] at hkeys
    simp only [List.foldl_cons]
    rw [GoMap.set_comm m y.1 x.1 y.2 x.2 hkeys.1.1]
  | trans p _ ih1 ih2 =>
    rw [ih1 hkeys, ih2 ((p.map Prod.fst).nodup_iff.mp hkeys)]

/-- C11. For every private key and every credential, two subject-claim maps built by
writing the same entries (with distinct keys) in different orders, starting from the same
map, are the same map, so `SignVC` serialises the same JSON document and returns the same
signature string for both credentials. -/
theorem SignVC_ignores_insertion_order (L : GoLib) (vc : VerifiableCredential) (key : Bytes)
    (base : GoMap JVal) (es1 es2 : List (String × JVal)) (hperm : es1.Perm es2)
    (hkeys : (es1.map Prod.fst).Nodup) :
    encodeVC { vc with CredentialSubject := mapsCopy base es1, Proof := none }
      = encodeVC { vc with CredentialSubject := mapsCopy base es2, Proof := none } ∧
    cryptoService.SignVC L { vc with CredentialSubject := mapsCopy base es1 } key
      = cryptoService.SignVC L { vc with CredentialSubject := mapsCopy base es2 } key := by
  rw [mapsCopy_perm hperm hkeys base]
  exact ⟨rfl, rfl⟩

/-- C11 (witness). The statement for the claims of `vcA` written in two orders. -/
theorem SignVC_ignores_insertion_order_witness :
    [("name", JVal.str "Alice"), ("age", JVal.num 42)].Perm
      [("age", JVal.num 42), ("name", JVal.str "Alice")] ∧
    ([("name", JVal.str "Alice"), ("age", JVal.num 42)].map Prod.fst).Nodup ∧
    cryptoService.SignVC sampleLib
        { vcA with CredentialSubject := (mapsCopy [("id", JVal.str "did:telco:alice")]
            [("name", JVal.str "Alice"), ("age", JVal.num 42)]) }
        (keyAt sampleLib 1700000000000000000)
      = cryptoService.SignVC sampleLib
        { vcA with CredentialSubject := (mapsCopy [("id", JVal.str "did:telco:alice")]
            [("age", JVal.num 42), ("name", JVal.str "Alice")]) }
        (keyAt sampleLib 1700000000000000000) :=
  ⟨List.Perm.swap _ _ _, by decide,
    (SignVC_ignores_insertion_order sampleLib vcA (keyAt sampleLib 1700000000000000000)
      [("id", .str "did:telco:alice")] _ _ (List.Perm.swap _ _ _) (by decide)).2⟩

theorem VerifyVP_reports_first_missing_proof (vp : VerifiablePresentation)
    (pre post : List (Option VerifiableCredential)) (vc : VerifiableCredential)
    (hproof : vp.Proof.isSome = true)
    (hcreds : vp.VerifiableCredential = pre ++ some vc :: post)
    (hpre : ∀ c ∈ pre, ∃ v, c = some v ∧ v.Proof.isSome = true) (hvc : vc.Proof = none) :
    verifierService.VerifyVP vp
      = .ret (false, some ("VC index " ++ toString pre.length
          ++ " verification failed: missing VC proof")) := by
  unfold verifierService.VerifyVP
  have h1 : vp.Proof.isNone = false := by
    cases hvp : vp.Proof with
    | none => rw [hvp] at hproof; cases hproof
    | some p => rfl
  have h2 : ¬ vp.VerifiableCredential.length = 0 := by
    rw [hcreds]
    simp
  simp only [h1, h2, if_false, Bool.false_eq_true]
  rw [hcreds, verifyCredentials_first_missing pre post vc 0 hpre hvc, Nat.zero_add]

/-! ## Key resolution and identifiers of the issuer -/

/-- C21. For a request with non-empty `IssuerDID` and `SubjectDID`: when the record under
`"privatekey:" + IssuerDID + "#key-1"` does not load as a byte string, or loads as one that
is not 64 bytes long, `CreateVC` returns an error and no credential and hands back the
store state it was given; when it loads as a 64-byte string, `resolvePrivateKey` succeeds
with that key and the method `IssuerDID + "#key-1"`. This holds over every store
implementation. -/
theorem CreateVC_fails_closed_on_signing_key {σ : Type} (S : Store σ) (L : GoLib) (st : σ)
    (now : Time) (uuid : String) (req : VCRequest)
    (hissuer : req.IssuerDID ≠ "") (hsubject : req.SubjectDID ≠ "") :
    ((∃ e, S.LoadAs st ("privatekey:" ++ req.IssuerDID ++ "#key-1") decodeBytes = .error e) ∨
      (∃ key, S.LoadAs st ("privatekey:" ++ req.IssuerDID ++ "#key-1") decodeBytes = .ok key ∧
        key.length ≠ 64) →
      ∃ e, issuerService.CreateVC S L st now uuid (some req) = (st, .ret (.error e))) ∧
    (∀ key, S.LoadAs st ("privatekey:" ++ req.IssuerDID ++ "#key-1") decodeBytes = .ok key →
      key.length = 64 →
      issuerService.resolvePrivateKey S st req.IssuerDID
        = .ok (key, req.IssuerDID ++ "#key-1")) := by
  rw [String.append_assoc]
  constructor
  · intro h
    unfold issuerService.CreateVC issuerService.resolvePrivateKey
    simp only [if_neg hissuer, if_neg hsubject]
    rcases h with ⟨e, he⟩ | ⟨key, hk, hlen⟩
    · simp only [he]
      exact ⟨_, rfl⟩
    · simp only [hk, if_pos hlen]
      exact ⟨_, rfl⟩
  · intro key hk hlen
    unfold issuerService.resolvePrivateKey
    simp only [if_neg hissuer, hk, hlen, ne_eq, not_true_eq_false, if_false]

/-- C21 (witness). The statement on the store of a freshly minted issuer, for a request
naming an issuer that has no key there. -/
theorem CreateVC_fails_closed_on_signing_key_witness :
    strangerRequest.IssuerDID ≠ "" ∧ strangerRequest.SubjectDID ≠ "" ∧
    memoryStore.LoadAs (issuerStore sampleLib)
        ("privatekey:" ++ strangerRequest.IssuerDID ++ "#key-1") decodeBytes
      = .error "key not found: privatekey:did:telco:stranger#key-1" ∧
    ∃ e, issuerService.CreateVC memoryStore sampleLib (issuerStore sampleLib)
      1700000100000000000 "" (some strangerRequest)
      = (issuerStore sampleLib, .ret (.error e)) :=
  ⟨by decide, by decide, rfl,
    (CreateVC_fails_closed_on_signing_key memoryStore sampleLib (issuerStore sampleLib)
      1700000100000000000 "" strangerRequest (by decide) (by decide)).1
      (Or.inl ⟨_, rfl⟩)⟩

/-- C22. On every request for which `CreateVC` succeeds, the credential's ID is
`"vc:" + SubjectDID + ":" + localId`, where `localId` is `Options["id"]` when that is a
non-empty string and the generated UUID otherwise; the credential carries its proof, and
afterwards wallet `GetVC` on the same in-memory store returns it under that ID. -/
theorem CreateVC_identifier_and_record (L : GoLib) (st st' : MemoryStore) (now : Time)
    (uuid : String) (req : VCRequest) (vc : VerifiableCredential)
    (h : issuerService.CreateVC memoryStore L st now uuid (some req)
      = (st', .ret (.ok vc))) :
    vc.ID = "vc:" ++ req.SubjectDID ++ ":"
        ++ (if optionID req.Options = "" then uuid else optionID req.Options) ∧
    (∀ s, GoMap.get req.Options "id" = some (.str s) → s ≠ "" → optionID req.Options = s) ∧
    ((∀ s, GoMap.get req.Options "id" = some (.str s) → s = "") →
      optionID req.Options = "") ∧
    vc.Proof.isSome = true ∧
    WalletService.GetVC memoryStore st' vc.ID = .ok vc := by
  obtain ⟨-, -, key, jws, -, -, hvc, -⟩ := CreateVC_ok_inv h
  refine ⟨by rw [hvc]; rfl, ?_, ?_, by rw [hvc]; rfl, GetVC_after_CreateVC h⟩
  · intro s hs _
    simp only [optionID, hs]
  · intro hall
    unfold optionID
    split
    · rename_i s hs
      exact hall s hs
    · rfl

/-- C22 (witness). The statement for `overrideRequest`, whose options give the local
identifier `1`, on the store of a freshly minted issuer. -/
theorem CreateVC_identifier_and_record_witness :
    (issuerService.CreateVC memoryStore sampleLib (issuerStore sampleLib)
        1700000100000000000 "" (some overrideRequest)).2 = .ret (.ok sampleCredential) ∧
    sampleCredential.ID = "vc:did:telco:alice:1" ∧
    WalletService.GetVC memoryStore
      (issuerService.CreateVC memoryStore sampleLib (issuerStore sampleLib)
        1700000100000000000 "" (some overrideRequest)).1 sampleCredential.ID
      = .ok sampleCredential :=
  ⟨rfl, rfl,
    (CreateVC_identifier_and_record sampleLib (issuerStore sampleLib) _ 1700000100000000000
      "" overrideRequest sampleCredential rfl).2.2.2.2⟩

/-- C23. On the in-memory store, whose writes succeed for these keys, `GenerateDID` returns
a document whose ID is `"did:" + method + ":" + id`, with `id = opts["id"]` when that is a
non-empty string; the document has exactly one verification-method entry, with
`ID = document ID + "#key-1"` and `Controller = document ID`; the store then holds a 64-byte
private key under `"privatekey:" + document ID + "#key-1"` and the document under its ID,
so that `ResolveDID` returns it; and the entry's JWK member `x` is the base64url text of the
public key generated together with the stored private key. -/
theorem GenerateDID_document_and_records (L : GoLib) (st : MemoryStore) (now : Time)
    (uuid method : String) (opts : GoMap JVal) :
    ∃ doc entry seed,
      (issuerService.GenerateDID memoryStore L st now uuid method opts).2 = .ok doc ∧
      doc.ID = "did:" ++ method ++ ":"
        ++ (if optionID opts = "" then String.mk (uuid.data.take 8) else optionID opts) ∧
      (∀ s, GoMap.get opts "id" = some (.str s) → s ≠ "" → optionID opts = s) ∧
      doc.PublicKey = [entry] ∧
      entry.ID = doc.ID ++ "#key-1" ∧ entry.Controller = doc.ID ∧
      GoMap.get (issuerService.GenerateDID memoryStore L st now uuid method opts).1
        ("privatekey:" ++ doc.ID ++ "#key-1")
        = some (.bytes (L.ed25519KeyFromSeed seed).2) ∧
      (L.ed25519KeyFromSeed seed).2.length = 64 ∧
      issuerService.ResolveDID memoryStore
        (issuerService.GenerateDID memoryStore L st now uuid method opts).1 doc.ID
        = .ok doc ∧
      GoMap.get entry.PublicKeyJWK "x"
        = some (.str (L.base64RawURL (L.ed25519KeyFromSeed seed).1)) := by
  obtain ⟨x, hx⟩ := newDID_eq uuid method opts
  rw [GenerateDID_memoryStore]
  have hkey : "privatekey:" ++ (issuerService.newDID uuid method opts ++ "#key-1")
      ≠ issuerService.newDID uuid method opts := by
    rw [hx]
    exact (did_ne_privatekey _ _).symm
  have hid : (issuerService.newDocument (issuerService.newDID uuid method opts)
      "Ed25519VerificationKey2018" (jwkAt L now)).ID
      = issuerService.newDID uuid method opts := rfl
  refine ⟨_, _, L.mathRandRead now 32, rfl, rfl, ?_, rfl, rfl, rfl, ?_, L.privateKeySize _,
    ?_, rfl⟩
  · intro s hs _
    simp only [optionID, hs]
  · rw [hid, String.append_assoc, GoMap.get_set_other _ _ _ _ hkey, GoMap.get_set_same]
    rfl
  · rw [hid]
    unfold issuerService.ResolveDID
    have hload : memoryStore.LoadAs
        (GoMap.set (GoMap.set st
          ("privatekey:" ++ (issuerService.newDID uuid method opts ++ "#key-1"))
          (JVal.bytes (keyAt L now))) (issuerService.newDID uuid method opts)
          (encodeDID (issuerService.newDocument (issuerService.newDID uuid method opts)
            "Ed25519VerificationKey2018" (jwkAt L now))))
        (issuerService.newDID uuid method opts) decodeDID
        = .ok (issuerService.newDocument (issuerService.newDID uuid method opts)
            "Ed25519VerificationKey2018" (jwkAt L now)) := by
      show (match MemoryStore.Load _ _ with
        | Except.error e => Except.error e
        | Except.ok j => decodeDID j) = _
      unfold MemoryStore.Load
      rw [GoMap.get_set_same]
      exact decodeDID_newDocument L now _
    rw [hload]

/-- C24. Over every store implementation: when saving the public document succeeds,
`GenerateDID` returns the document with no error and the state in which it was saved,
whether or not saving the private key failed; when saving the public document fails,
`GenerateDID` returns an error and no document, whether or not the private key was
saved. -/
theorem GenerateDID_persistence_failures {σ : Type} (S : Store σ) (L : GoLib) (st : σ)
    (now : Time) (uuid method : String) (opts : GoMap JVal) :
    (∀ st2,
      S.Save
          (S.Save st
            ("privatekey:" ++ (issuerService.newDID uuid method opts ++ "#key-1"))
            (.ok (encodeBytes (keyAt L now)))).1
          (issuerService.newDID uuid method opts)
          (.ok (encodeDID (issuerService.newDocument (issuerService.newDID uuid method opts)
            "Ed25519VerificationKey2018" (jwkAt L now)))) = (st2, none) →
      issuerService.GenerateDID S L st now uuid method opts
        = (st2, .ok (issuerService.newDocument (issuerService.newDID uuid method opts)
            "Ed25519VerificationKey2018" (jwkAt L now)))) ∧
    (∀ st2 e,
      S.Save
          (S.Save st
            ("privatekey:" ++ (issuerService.newDID uuid method opts ++ "#key-1"))
            (.ok (encodeBytes (keyAt L now)))).1
          (issuerService.newDID uuid method opts)
          (.ok (encodeDID (issuerService.newDocument (issuerService.newDID uuid method opts)
            "Ed25519VerificationKey2018" (jwkAt L now)))) = (st2, some e) →
      ∃ e', issuerService.GenerateDID S L st now uuid method opts = (st2, .error e')) := by
  constructor
  · intro st2 h
    unfold issuerService.GenerateDID
    simp only [GenerateKeyPair_2018]
    rw [h]
  · intro st2 e h
    unfold issuerService.GenerateDID
    simp only [GenerateKeyPair_2018]
    rw [h]
    exact ⟨_, rfl⟩

/-- C24 (witness). On `keylessStore` the private key is refused, the document is saved and
returned and no private key is stored; on `readOnlyStore` the document is refused and an
error is returned. -/
theorem GenerateDID_persistence_failures_witness :
    (keylessStore.Save NewMemoryStore "privatekey:did:telco:issuer#key-1"
      (.ok (encodeBytes (keyAt sampleLib 1700000000000000000)))).2 = some "write refused" ∧
    (∃ st doc,
      issuerService.GenerateDID keylessStore sampleLib NewMemoryStore 1700000000000000000 ""
        "telco" [("id", .str "issuer")] = (st, .ok doc) ∧
      GoMap.keys st = ["did:telco:issuer"]) ∧
    ∃ e, issuerService.GenerateDID readOnlyStore sampleLib NewMemoryStore
      1700000000000000000 "" "telco" [("id", .str "issuer")] = (NewMemoryStore, .error e) :=
  ⟨rfl,
    ⟨_, _, (GenerateDID_persistence_failures keylessStore sampleLib NewMemoryStore
      1700000000000000000 "" "telco" [("id", .str "issuer")]).1 _ rfl, rfl⟩,
    (GenerateDID_persistence_failures readOnlyStore sampleLib NewMemoryStore
      1700000000000000000 "" "telco" [("id", .str "issuer")]).2 _ _ rfl⟩

/-! ## Wallet writes and filters -/

theorem MemoryStore.Save_get_other (m : MemoryStore) (key k : String)
    (value : Except String JVal) (hk : k ≠ key) :
    GoMap.get (memoryStore.Save m key value).1 k = GoMap.get m k := by
  rcases MemoryStore.Save_fst m key value with h | ⟨j, -, h⟩
  · rw [h]
  · rw [h, GoMap.get_set_other _ _ _ _ hk]

/-- C29. Over every store implementation, `StoreDID` with an empty `doc.ID`, `StoreVC` with
an empty `vc.ID` and `StoreVP` with an empty `vp.Holder` return an error and hand back the
store state they were given; with a non-empty identifier `StoreDID` and `StoreVC` are the
single `Save` under the key equal to that identifier, which on the in-memory store leaves
the record under every other key as it was. -/
theorem wallet_store_rejects_empty_identifier {σ : Type} (S : Store σ) (st : σ)
    (m : MemoryStore) (doc : DIDDocument) (vc : VerifiableCredential)
    (vp : VerifiablePresentation) :
    (doc.ID = "" → ∃ e, WalletService.StoreDID S st doc = (st, some e)) ∧
    (vc.ID = "" → ∃ e, WalletService.StoreVC S st vc = (st, some e)) ∧
    (vp.Holder = "" → ∃ e, WalletService.StoreVP S st vp = (st, some e)) ∧
    (doc.ID ≠ "" →
      WalletService.StoreDID S st doc = S.Save st doc.ID (.ok (encodeDID doc)) ∧
      ∀ k, k ≠ doc.ID →
        GoMap.get (WalletService.StoreDID memoryStore m doc).1 k = GoMap.get m k) ∧
    (vc.ID ≠ "" →
      WalletService.StoreVC S st vc = S.Save st vc.ID (encodeVC vc) ∧
      ∀ k, k ≠ vc.ID →
        GoMap.get (WalletService.StoreVC memoryStore m vc).1 k = GoMap.get m k) := by
  refine ⟨?_, ?_, ?_, ?_, ?_⟩
  · intro h
    exact ⟨"DID must have an ID", by simp only [WalletService.StoreDID, if_pos h]⟩
  · intro h
    exact ⟨"VC must have an ID", by simp only [WalletService.StoreVC, if_pos h]⟩
  · intro h
    exact ⟨"VP must have an Holder", by simp only [WalletService.StoreVP, if_pos h]⟩
  · intro h
    refine ⟨by simp only [WalletService.StoreDID, if_neg h], ?_⟩
    intro k hk
    simp only [WalletService.StoreDID, if_neg h]
    exact MemoryStore.Save_get_other _ _ _ _ hk
  · intro h
    refine ⟨by simp only [WalletService.StoreVC, if_neg h], ?_⟩
    intro k hk
    simp only [WalletService.StoreVC, if_neg h]
    exact MemoryStore.Save_get_other _ _ _ _ hk

/-- C29 (witness). The statement on the wallet store: `vcA` without its identifier is
refused, and storing `blankDocument` leaves the record of `vcA` as it was. -/
theorem wallet_store_rejects_empty_identifier_witness :
    ({ vcA with ID := "" } : VerifiableCredential).ID = "" ∧
    (∃ e, WalletService.StoreVC memoryStore walletStore { vcA with ID := "" }
      = (walletStore, some e)) ∧
    blankDocument.ID ≠ "" ∧ "vc:did:telco:alice:1" ≠ blankDocument.ID ∧
    GoMap.get (WalletService.StoreDID memoryStore walletStore blankDocument).1
      "vc:did:telco:alice:1" = GoMap.get walletStore "vc:did:telco:alice:1" :=
  have h := wallet_store_rejects_empty_identifier memoryStore walletStore walletStore
    blankDocument { vcA with ID := "" } unsignedPresentation
  ⟨rfl, h.2.1 rfl, by decide, by decide, (h.2.2.2.1 (by decide)).2 _ (by decide)⟩

/-- C27 (code defect). For a credential that expires exactly at the evaluation instant,
`matchVCFilter` accepts it both under `ActiveOnly` and under `ExpiredOnly`: each test is a
strict comparison (`Before`, `After`), so the two filters overlap at `e = now` and
`ActiveOnly` does not reject a credential expiring exactly now. -/
theorem matchVCFilter_overlap_at_expiration (vc : VerifiableCredential) (now : Time) :
    matchVCFilter now now { vc with ExpirationDate := some now } ⟨"", "", "", true, false⟩
      = true ∧
    matchVCFilter now now { vc with ExpirationDate := some now } ⟨"", "", "", false, true⟩
      = true := by
  simp [matchVCFilter]

theorem matchVCFilter_expiry_away_from_now (vc : VerifiableCredential) (now e : Time)
    (hexp : vc.ExpirationDate = some e) (hne : e ≠ now) :
    (matchVCFilter now now vc ⟨"", "", "", true, false⟩ = true ↔
      matchVCFilter now now vc ⟨"", "", "", false, true⟩ = false) ∧
    (e < now → matchVCFilter now now vc ⟨"", "", "", true, false⟩ = false) ∧
    (e < now → matchVCFilter now now vc ⟨"", "", "", false, true⟩ = true) := by
  have h1 : e < now ∨ now < e := lt_or_gt_of_ne hne
  simp only [matchVCFilter, hexp]
  rcases h1 with h | h
  · have h' : ¬ now < e := not_lt.mpr (le_of_lt h)
    simp [h, h']
  · have h' : ¬ e < now := not_lt.mpr (le_of_lt h)
    simp [h, h']

theorem listRecords_eq_filterMap {σ α : Type} (S : Store σ) (st : σ) (pfx : String)
    (decode : JVal → Except String α) (keep : String → α → Bool) (keys : List String) :
    listRecords S st pfx decode keep keys
      = (keys.filter (fun k => hasPrefix k pfx)).filterMap (fun k =>
          match S.LoadAs st k decode with
          | .ok a => if keep k a = true then some a else none
          | .error _ => none) := by
  induction keys with
  | nil => rfl
  | cons k rest ih =>
    unfold listRecords
    by_cases hp : hasPrefix k pfx = true
    · simp only [hp, if_true, List.filter_cons_of_pos, List.filterMap_cons]
      cases hl : S.LoadAs st k decode with
      | error e => simp only [ih]
      | ok a =>
        by_cases hk : keep k a = true
        · simp only [hk, if_true, ih]
        · simp only [hk, if_false, ih, Bool.false_eq_true]
    · simp only [hp, if_false, Bool.false_eq_true, ih]
      rw [List.filter_cons_of_neg (by simpa using hp)]

theorem MemoryStore.ListKeys_all (st : MemoryStore) :
    memoryStore.ListKeys st "" = .ok (GoMap.keys st) := by
  show MemoryStore.ListKeys st "" = _
  unfold MemoryStore.ListKeys
  simp

theorem matchVCFilter_plain (now1 now2 : Time) (vc : VerifiableCredential) (f : VCFilter)
    (hA : f.ActiveOnly = false) (hE : f.ExpiredOnly = false) :
    matchVCFilter now1 now2 vc f = true ↔
      (f.Issuer = "" ∨ vc.Issuer = f.Issuer) ∧ (f.CredType = "" ∨ f.CredType ∈ vc.Typ) := by
  unfold matchVCFilter
  simp only [hA, hE, Bool.false_eq_true, false_and, if_false]
  by_cases h1 : f.Issuer = "" <;> by_cases h2 : vc.Issuer = f.Issuer <;>
    by_cases h3 : f.CredType = "" <;> by_cases h4 : f.CredType ∈ vc.Typ <;>
    simp [h1, h2, h3, h4]

/-- C28. With `ActiveOnly` and `ExpiredOnly` unset, `ListVCs` on the in-memory store returns
one credential for each key that starts with `vc:`, whose record decodes as a credential and
whose credential passes the issuer test (`filter.Issuer` empty or equal to `vc.Issuer`) and
the type test (`filter.CredType` empty or an element of `vc.Type`), and nothing else; the
keys of a store being distinct, each such record is returned once. -/
theorem ListVCs_without_expiry_filters (st : MemoryStore) (clock : String → Time × Time)
    (f : VCFilter) (hA : f.ActiveOnly = false) (hE : f.ExpiredOnly = false) :
    WalletService.ListVCs memoryStore st clock f
      = .ok (((GoMap.keys st).filter (fun k => hasPrefix k "vc:")).filterMap (fun k =>
          match memoryStore.LoadAs st k decodeVC with
          | .ok vc =>
            if (f.Issuer = "" ∨ vc.Issuer = f.Issuer) ∧
                (f.CredType = "" ∨ f.CredType ∈ vc.Typ) then some vc else none
          | .error _ => none)) ∧
    ((GoMap.keys st).Nodup → ((GoMap.keys st).filter (fun k => hasPrefix k "vc:")).Nodup) := by
  refine ⟨?_, fun h => h.filter _⟩
  unfold WalletService.ListVCs
  rw [MemoryStore.ListKeys_all]
  simp only [listRecords_eq_filterMap]
  congr 2
  funext k
  cases memoryStore.LoadAs st k decodeVC with
  | error e => rfl
  | ok vc =>
    simp only [matchVCFilter_plain _ _ vc f hA hE]

/-! ## Store and get round trips -/

theorem decodeKeyEntry_encodeKeyEntry (e : PublicKeyEntry) :
    decodeKeyEntry (encodeKeyEntry e) = .ok e := by
  obtain ⟨id, typ, controller, jwk⟩ := e
  cases jwk with
  | nil => rfl
  | cons a t => rfl

theorem decodeKeyEntryItems_map (l : List PublicKeyEntry) :
    decodeKeyEntryItems (l.map encodeKeyEntry) = .ok l := by
  induction l with
  | nil => rfl
  | cons a t ih =>
    simp only [List.map_cons, decodeKeyEntryItems, decodeKeyEntry_encodeKeyEntry, ih]

theorem decodeDID_encodeDID (d : DIDDocument) : decodeDID (encodeDID d) = .ok d := by
  obtain ⟨id, ctx, keys⟩ := d
  have hctx := decodeStringItems_map ctx
  have hkeys := decodeKeyEntryItems_map keys
  simp only [List.map_cons] at hctx hkeys
  cases ctx with
  | nil =>
    cases keys with
    | nil => rfl
    | cons k ks =>
      simp only [List.map_cons] at hkeys
      simp [encodeDID, decodeDID, member, GoMap.get, decodeString, decodeStrings,
        decodeKeyEntries]
      simp only [hkeys]
  | cons c cs =>
    simp only [List.map_cons] at hctx
    cases keys with
    | nil =>
      simp [encodeDID, decodeDID, member, GoMap.get, decodeString, decodeStrings,
        decodeKeyEntries]
      simp only [hctx]
    | cons k ks =>
      simp only [List.map_cons] at hkeys
      simp [encodeDID, decodeDID, member, GoMap.get, decodeString, decodeStrings,
        decodeKeyEntries]
      simp only [hctx, hkeys]

theorem encodeProof_of_date (p : Proof) (h : timeMarshalOK p.Created = true) :
    ∃ j, encodeProof p = .ok j := by
  simp only [encodeProof, encodeTime, h, if_true]
  exact ⟨_, rfl⟩

theorem encodeVC_of_dates (vc : VerifiableCredential) (h : marshalsVC vc = true) :
    ∃ j, encodeVC vc = .ok j := by
  obtain ⟨ctx, id, typ, iss, issued, exp, subj, status, proof⟩ := vc
  simp only [marshalsVC, Bool.and_eq_true] at h
  obtain ⟨⟨h1, h2⟩, h3⟩ := h
  cases exp with
  | none =>
    cases proof with
    | none =>
      simp only [encodeVC, encodeTime, h1, if_true, encodeOptTime, encodeOptProof]
      exact ⟨_, rfl⟩
    | some p =>
      simp only at h3
      simp only [encodeVC, encodeTime, h1, if_true, encodeOptTime, encodeOptProof,
        encodeProof, h3]
      exact ⟨_, rfl⟩
  | some e =>
    simp only at h2
    cases proof with
    | none =>
      simp only [encodeVC, encodeTime, h1, h2, if_true, encodeOptTime, encodeOptProof]
      exact ⟨_, rfl⟩
    | some p =>
      simp only at h3
      simp only [encodeVC, encodeTime, h1, h2, if_true, encodeOptTime, encodeOptProof,
        encodeProof, h3]
      exact ⟨_, rfl⟩

theorem encodeVCList_of_dates (l : List (Option VerifiableCredential))
    (h : l.all (fun entry =>
        match entry with
        | none => true
        | some vc => marshalsVC vc) = true) :
    ∃ js, encodeVCList l = .ok js := by
  induction l with
  | nil => exact ⟨[], rfl⟩
  | cons a t ih =>
    simp only [List.all_cons, Bool.and_eq_true] at h
    obtain ⟨js, hjs⟩ := ih h.2
    cases a with
    | none =>
      simp only [encodeVCList, hjs]
      exact ⟨_, rfl⟩
    | some vc =>
      obtain ⟨j, hj⟩ := encodeVC_of_dates vc h.1
      simp only [encodeVCList, hj, hjs]
      exact ⟨_, rfl⟩

theorem encodeVP_of_dates (vp : VerifiablePresentation) (h : marshalsVP vp = true) :
    ∃ j, encodeVP vp = .ok j := by
  obtain ⟨ctx, typ, vcs, holder, proof, nonce, created⟩ := vp
  simp only [marshalsVP, Bool.and_eq_true] at h
  obtain ⟨⟨h1, h2⟩, h3⟩ := h
  obtain ⟨js, hjs⟩ := encodeVCList_of_dates vcs h3
  cases proof with
  | none =>
    simp only [encodeVP, hjs, encodeOptProof, encodeTime, h1, if_true]
    exact ⟨_, rfl⟩
  | some p =>
    simp only at h2
    simp only [encodeVP, hjs, encodeOptProof, encodeProof, encodeTime, h1, h2, if_true]
    exact ⟨_, rfl⟩

theorem LoadAs_set_same {α : Type} (st : MemoryStore) (key : String) (j : JVal)
    (decode : JVal → Except String α) :
    memoryStore.LoadAs (GoMap.set st key j) key decode = decode j := by
  show (match MemoryStore.Load (GoMap.set st key j) key with
    | Except.error e => Except.error e
    | Except.ok j => decode j) = decode j
  unfold MemoryStore.Load
  rw [GoMap.get_set_same]

/-! ## Records that later calls leave alone -/

theorem CreateVC_get_other {L : GoLib} (st : MemoryStore) (now : Time) (uuid : String)
    (req : VCRequest) (k : String) (hk : k ≠ (issuerService.unsignedVC now uuid req).ID) :
    GoMap.get (issuerService.CreateVC memoryStore L st now uuid (some req)).1 k
      = GoMap.get st k := by
  unfold issuerService.CreateVC
  simp only
  split
  · rfl
  · split
    · rfl
    · split
      · rfl
      · rename_i key vm hres
        split
        · rfl
        · rfl
        · rename_i jws hsign
          have h := MemoryStore.Save_get_other st
            (issuerService.attachProof (issuerService.unsignedVC now uuid req) vm jws).ID k
            (encodeVC (issuerService.attachProof (issuerService.unsignedVC now uuid req)
              vm jws)) hk
          split
          · rename_i st1 e hs
            rw [hs] at h
            exact h
          · rename_i st1 hs
            rw [hs] at h
            exact h

theorem Op.run_get_other (L : GoLib) (st : MemoryStore) (op : Op) (k : String)
    (hk : k ∉ op.writes) : GoMap.get (Op.run L st op) k = GoMap.get st k := by
  cases op with
  | generateDID now uuid method opts =>
    simp only [Op.writes, List.mem_cons, List.mem_singleton, List.not_mem_nil, or_false,
      not_or] at hk
    simp only [Op.run, GenerateDID_memoryStore]
    rw [GoMap.get_set_other _ _ _ _ hk.2, GoMap.get_set_other _ _ _ _ hk.1]
  | createVC now uuid req =>
    simp only [Op.writes, List.mem_singleton] at hk
    exact CreateVC_get_other st now uuid req k hk
  | storeDID doc =>
    simp only [Op.writes, List.mem_singleton] at hk
    simp only [Op.run, WalletService.StoreDID]
    split
    · rfl
    · exact MemoryStore.Save_get_other _ _ _ _ hk
  | storeVC vc =>
    simp only [Op.writes, List.mem_singleton] at hk
    simp only [Op.run, WalletService.StoreVC]
    split
    · rfl
    · exact MemoryStore.Save_get_other _ _ _ _ hk
  | storeVP vp =>
    simp only [Op.writes, List.mem_singleton] at hk
    simp only [Op.run, WalletService.StoreVP]
    split
    · rfl
    · exact MemoryStore.Save_get_other _ _ _ _ hk
  | buildVP now1 now2 vcIDs revealFields nonce =>
    simp only [Op.writes, List.mem_singleton] at hk
    rcases BuildVP_fst st now1 now2 vcIDs revealFields nonce with h | ⟨fs, h⟩
    · simp only [Op.run, h]
    · simp only [Op.run, h]
      exact GoMap.get_set_other _ _ _ _ hk

theorem foldl_run_get_other (L : GoLib) (ops : List Op) (st : MemoryStore) (k : String)
    (hk : ∀ op ∈ ops, k ∉ op.writes) :
    GoMap.get (ops.foldl (Op.run L) st) k = GoMap.get st k := by
  induction ops generalizing st with
  | nil => rfl
  | cons op rest ih =>
    rw [List.foldl_cons, ih _ (fun o ho => hk o (List.mem_cons_of_mem _ ho)),
      Op.run_get_other L st op k (hk op (List.mem_cons_self _ _))]

theorem Op.keepsIdentifier_writes {x : String} {op : Op}
    (h : op.keepsIdentifier ("did:" ++ x) = true) :
    ("did:" ++ x) ∉ op.writes ∧ ("privatekey:" ++ (("did:" ++ x) ++ "#key-1")) ∉ op.writes := by
  cases op with
  | generateDID now uuid method opts =>
    simp only [Op.keepsIdentifier, decide_eq_true_eq] at h
    obtain ⟨y, hy⟩ := newDID_eq uuid method opts
    simp only [Op.writes, List.mem_cons, List.mem_singleton, List.not_mem_nil, or_false,
      not_or]
    refine ⟨⟨did_ne_privatekey _ _, fun e => h e.symm⟩, ?_, ?_⟩
    · intro e
      exact h (append_right_cancel (append_left_cancel e)).symm
    · rw [hy]
      exact (did_ne_privatekey _ _).symm
  | createVC now uuid req =>
    have hid : (issuerService.unsignedVC now uuid req).ID
        = "vc:" ++ (req.SubjectDID ++ (":" ++
            if optionID req.Options = "" then uuid else optionID req.Options)) := by
      simp only [issuerService.unsignedVC, String.append_assoc]
    simp only [Op.writes, List.mem_singleton, hid]
    exact ⟨did_ne_vc _ _, privatekey_ne_vc _ _⟩
  | storeDID doc =>
    simp only [Op.keepsIdentifier, Bool.and_eq_true, decide_eq_true_eq] at h
    simp only [Op.writes, List.mem_singleton]
    exact ⟨fun e => h.1 e.symm, fun e => h.2 e.symm⟩
  | storeVC vc =>
    simp only [Op.keepsIdentifier, Bool.and_eq_true, decide_eq_true_eq] at h
    simp only [Op.writes, List.mem_singleton]
    exact ⟨fun e => h.1 e.symm, fun e => h.2 e.symm⟩
  | storeVP vp =>
    simp only [Op.writes, List.mem_singleton]
    exact ⟨did_ne_vp _ _, privatekey_ne_vp _ _⟩
  | buildVP now1 now2 vcIDs revealFields nonce =>
    simp only [Op.writes, List.mem_singleton]
    exact ⟨did_ne_vp _ _, privatekey_ne_vp _ _⟩

/-- C25 (counterexample). Whatever the library routines, a later wallet call changes the
record under a minted identifier: after `GenerateDID` has stored the document of
`did:telco:issuer`, `StoreDID(blankDocument)` replaces it. With the stand-in library, a
second `GenerateDID` with the same method and the same `id` option at another clock reading
replaces the private key and the document of the first call by its own. -/
theorem GenerateDID_records_replaced :
    (¬ ∃ L : GoLib, ∀ (st : MemoryStore) (now : Time) (uuid method : String)
        (opts : GoMap JVal) (later : List Op),
      GoMap.get (later.foldl (Op.run L)
          (issuerService.GenerateDID memoryStore L st now uuid method opts).1)
          (issuerService.newDID uuid method opts)
        = GoMap.get (issuerService.GenerateDID memoryStore L st now uuid method opts).1
          (issuerService.newDID uuid method opts)) ∧
    issuerService.newDID "" "telco" [("id", .str "issuer")] = "did:telco:issuer" ∧
    GoMap.get (issuerStore sampleLib) "privatekey:did:telco:issuer#key-1"
      = some (.bytes (keyAt sampleLib 1700000000000000000)) ∧
    GoMap.get
      (Op.run sampleLib (issuerStore sampleLib)
        (.generateDID 1700000000000000001 "" "telco" [("id", .str "issuer")]))
      "privatekey:did:telco:issuer#key-1"
      = some (.bytes (keyAt sampleLib 1700000000000000001)) ∧
    keyAt sampleLib 1700000000000000000 ≠ keyAt sampleLib 1700000000000000001 ∧
    issuerService.ResolveDID memoryStore (issuerStore sampleLib) "did:telco:issuer"
      = .ok (issuerService.newDocument "did:telco:issuer" "Ed25519VerificationKey2018"
          (jwkAt sampleLib 1700000000000000000)) ∧
    issuerService.ResolveDID memoryStore
      (Op.run sampleLib (issuerStore sampleLib)
        (.generateDID 1700000000000000001 "" "telco" [("id", .str "issuer")]))
      "did:telco:issuer"
      = .ok (issuerService.newDocument "did:telco:issuer" "Ed25519VerificationKey2018"
          (jwkAt sampleLib 1700000000000000001)) ∧
    GoMap.get (jwkAt sampleLib 1700000000000000000) "x"
      ≠ GoMap.get (jwkAt sampleLib 1700000000000000001) "x" := by
  refine ⟨?_, rfl, rfl, rfl, by decide, rfl, rfl, ?_⟩
  · rintro ⟨L, hclaim⟩
    have h := hclaim NewMemoryStore 1700000000000000000 "" "telco" [("id", .str "issuer")]
      [.storeDID blankDocument]
    have h2 : some 0 = some 1 := congrArg (fun (r : Option JVal) => (match r with
      | some j => (decodeDID j).toOption.map (fun (doc : DIDDocument) => doc.PublicKey.length)
      | none => none)) h
    cases h2
  · intro h
    have h2 := congrArg (fun (r : Option JVal) => (match r with
      | some (JVal.str s) => some s
      | _ => none)) h
    revert h2
    decide

/-- C25 (amended). On the in-memory store, once `GenerateDID` has stored a document under
the identifier `d`, the document under `d` and the private key under
`"privatekey:" + d + "#key-1"` stay as they are through every later sequence of calls none
of which is a `GenerateDID` that yields `d` again or a wallet `StoreDID` or `StoreVC` whose
ID is `d` or the key of the private key: `ResolveDID(d)` still returns the document. A later
`GenerateDID` that yields `d` again replaces both records by its own key and document. -/
theorem GenerateDID_records_kept (L : GoLib) (st : MemoryStore) (now : Time)
    (uuid method : String) (opts : GoMap JVal) (later : List Op)
    (h : ∀ op ∈ later, op.keepsIdentifier (issuerService.newDID uuid method opts) = true) :
    GoMap.get (later.foldl (Op.run L)
        (issuerService.GenerateDID memoryStore L st now uuid method opts).1)
        (issuerService.newDID uuid method opts)
      = GoMap.get (issuerService.GenerateDID memoryStore L st now uuid method opts).1
        (issuerService.newDID uuid method opts) ∧
    GoMap.get (later.foldl (Op.run L)
        (issuerService.GenerateDID memoryStore L st now uuid method opts).1)
        ("privatekey:" ++ (issuerService.newDID uuid method opts ++ "#key-1"))
      = some (.bytes (keyAt L now)) ∧
    issuerService.ResolveDID memoryStore
      (later.foldl (Op.run L)
        (issuerService.GenerateDID memoryStore L st now uuid method opts).1)
      (issuerService.newDID uuid method opts)
      = .ok (issuerService.newDocument (issuerService.newDID uuid method opts)
          "Ed25519VerificationKey2018" (jwkAt L now)) ∧
    (∀ (now2 : Time) (uuid2 : String),
      issuerService.newDID uuid2 method opts = issuerService.newDID uuid method opts →
      GoMap.get
        (Op.run L (issuerService.GenerateDID memoryStore L st now uuid method opts).1
          (.generateDID now2 uuid2 method opts))
        ("privatekey:" ++ (issuerService.newDID uuid method opts ++ "#key-1"))
        = some (.bytes (keyAt L now2)) ∧
      issuerService.ResolveDID memoryStore
        (Op.run L (issuerService.GenerateDID memoryStore L st now uuid method opts).1
          (.generateDID now2 uuid2 method opts))
        (issuerService.newDID uuid method opts)
        = .ok (issuerService.newDocument (issuerService.newDID uuid method opts)
            "Ed25519VerificationKey2018" (jwkAt L now2))) := by
  obtain ⟨x, hx⟩ := newDID_eq uuid method opts
  have hne : "did:" ++ x ≠ "privatekey:" ++ (("did:" ++ x) ++ "#key-1") :=
    did_ne_privatekey _ _
  have hd := foldl_run_get_other L later
    (issuerService.GenerateDID memoryStore L st now uuid method opts).1 ("did:" ++ x)
    (fun op hop => (Op.keepsIdentifier_writes (hx ▸ h op hop)).1)
  have hp := foldl_run_get_other L later
    (issuerService.GenerateDID memoryStore L st now uuid method opts).1
    ("privatekey:" ++ (("did:" ++ x) ++ "#key-1"))
    (fun op hop => (Op.keepsIdentifier_writes (hx ▸ h op hop)).2)
  have hload : ∀ (m : MemoryStore) (j : JVal) (d : String),
      issuerService.ResolveDID memoryStore (GoMap.set m d j) d
        = (match decodeDID j with
          | .error _ => .error ("DID not found: " ++ d)
          | .ok doc => .ok doc) := by
    intro m j d
    unfold issuerService.ResolveDID
    rw [LoadAs_set_same]
  refine ⟨by rw [hx]; exact hd, ?_, ?_, ?_⟩
  · rw [hx, hp, GenerateDID_memoryStore, hx, GoMap.get_set_other _ _ _ _ hne.symm,
      GoMap.get_set_same]
  · have hget : GoMap.get (later.foldl (Op.run L)
        (issuerService.GenerateDID memoryStore L st now uuid method opts).1) ("did:" ++ x)
        = some (encodeDID (issuerService.newDocument ("did:" ++ x)
            "Ed25519VerificationKey2018" (jwkAt L now))) := by
      rw [hd, GenerateDID_memoryStore, hx, GoMap.get_set_same]
    rw [hx]
    unfold issuerService.ResolveDID
    show (match (match MemoryStore.Load _ ("did:" ++ x) with
      | Except.error e => Except.error e
      | Except.ok j => decodeDID j) with
      | Except.error _ => Except.error ("DID not found: " ++ ("did:" ++ x))
      | Except.ok doc => Except.ok doc) = Except.ok _
    unfold MemoryStore.Load
    rw [hget]
    simp only [decodeDID_encodeDID]
  · intro now2 uuid2 h2
    simp only [Op.run]
    rw [GenerateDID_memoryStore L _ now2 uuid2, h2, hx,
      GoMap.get_set_other _ _ _ _ hne.symm, GoMap.get_set_same, hload, decodeDID_encodeDID]
    exact ⟨rfl, rfl⟩

/-- C25 (witness). The statement for `did:telco:issuer` and the later calls `otherCalls`. -/
theorem GenerateDID_records_kept_witness :
    (∀ op ∈ otherCalls,
      op.keepsIdentifier (issuerService.newDID "" "telco" [("id", .str "issuer")]) = true) ∧
    issuerService.ResolveDID memoryStore
      (otherCalls.foldl (Op.run sampleLib)
        (issuerService.GenerateDID memoryStore sampleLib NewMemoryStore 1700000000000000000
          "" "telco" [("id", .str "issuer")]).1)
      (issuerService.newDID "" "telco" [("id", .str "issuer")])
      = .ok (issuerService.newDocument (issuerService.newDID "" "telco" [("id", .str "issuer")])
          "Ed25519VerificationKey2018" (jwkAt sampleLib 1700000000000000000)) :=
  ⟨by decide,
    (GenerateDID_records_kept sampleLib NewMemoryStore 1700000000000000000 "" "telco"
      [("id", .str "issuer")] otherCalls (by decide)).2.2.1⟩

/-! ## Stored credentials -/

theorem marshalsVC_attachProof (vc : VerifiableCredential) (vm jws : String)
    (h : marshalsVC vc = true) :
    marshalsVC (issuerService.attachProof vc vm jws) = true := by
  simp only [marshalsVC, Bool.and_eq_true] at h
  simp only [marshalsVC, issuerService.attachProof, Bool.and_eq_true]
  exact ⟨⟨h.1.1, h.1.2⟩, h.1.1⟩

theorem CreateVC_memoryStore_ok (L : GoLib) (st : MemoryStore) (now : Time) (uuid : String)
    (req : VCRequest) (key : Bytes)
    (h1 : req.IssuerDID ≠ "") (h2 : req.SubjectDID ≠ "")
    (hkey : GoMap.get st ("privatekey:" ++ (req.IssuerDID ++ "#key-1")) = some (.bytes key))
    (hlen : key.length = 64)
    (hm : marshalsVC (issuerService.unsignedVC now uuid req) = true) :
    ∃ jws j,
      encodeVC (issuerService.attachProof (issuerService.unsignedVC now uuid req)
        (req.IssuerDID ++ "#key-1") jws) = .ok j ∧
      issuerService.CreateVC memoryStore L st now uuid (some req)
        = (GoMap.set st (issuerService.unsignedVC now uuid req).ID j,
            .ret (.ok (issuerService.attachProof (issuerService.unsignedVC now uuid req)
              (req.IssuerDID ++ "#key-1") jws))) := by
  have hres : issuerService.resolvePrivateKey memoryStore st req.IssuerDID
      = .ok (key, req.IssuerDID ++ "#key-1") := by
    have hload : memoryStore.LoadAs st ("privatekey:" ++ (req.IssuerDID ++ "#key-1"))
        decodeBytes = .ok key := by
      show (match MemoryStore.Load st ("privatekey:" ++ (req.IssuerDID ++ "#key-1")) with
        | Except.error e => Except.error e
        | Except.ok j => decodeBytes j) = Except.ok key
      unfold MemoryStore.Load
      rw [hkey]
      rfl
    unfold issuerService.resolvePrivateKey
    rw [if_neg h1]
    simp only [hload, hlen, ne_eq, not_true_eq_false, if_false]
  obtain ⟨j0, hj0⟩ := encodeVC_of_dates (issuerService.unsignedVC now uuid req) hm
  have hj0' : encodeVC { issuerService.unsignedVC now uuid req with Proof := none }
      = .ok j0 := hj0
  have hsign : cryptoService.SignVC L (issuerService.unsignedVC now uuid req) key
      = .ret (.ok (L.base64RawURL (L.ed25519Sign key (L.jsonText j0)))) := by
    unfold cryptoService.SignVC
    simp only [hj0', hlen, ne_eq, not_true_eq_false, if_false]
  obtain ⟨j, hj⟩ := encodeVC_of_dates _ (marshalsVC_attachProof
    (issuerService.unsignedVC now uuid req) (req.IssuerDID ++ "#key-1")
    (L.base64RawURL (L.ed25519Sign key (L.jsonText j0))) hm)
  have hid : (issuerService.unsignedVC now uuid req).ID ≠ "" := by
    have e : (issuerService.unsignedVC now uuid req).ID
        = "vc:" ++ (req.SubjectDID ++ (":" ++
            if optionID req.Options = "" then uuid else optionID req.Options)) := by
      simp only [issuerService.unsignedVC, String.append_assoc]
    rw [e]
    exact literal_append_ne_empty 'v' ['c', ':'] _
  refine ⟨_, j, hj, ?_⟩
  have hsave := MemoryStore.Save_set st (issuerService.unsignedVC now uuid req).ID j hid
  have hid2 : (issuerService.attachProof (issuerService.unsignedVC now uuid req)
      (req.IssuerDID ++ "#key-1")
      (L.base64RawURL (L.ed25519Sign key (L.jsonText j0)))).ID
      = (issuerService.unsignedVC now uuid req).ID := rfl
  unfold issuerService.CreateVC
  simp only [if_neg h1, if_neg h2, hres, hsign, hj, hid2, hsave]

theorem GetVC_set_same (st : MemoryStore) (vc : VerifiableCredential) (j : JVal)
    (hid : vc.ID ≠ "") (hj : encodeVC vc = .ok j) :
    WalletService.GetVC memoryStore (GoMap.set st vc.ID j) vc.ID = .ok vc := by
  unfold WalletService.GetVC
  rw [if_neg hid, LoadAs_set_same, decodeVC_encodeVC hj]

theorem GetVC_congr (st1 st2 : MemoryStore) (id : String)
    (h : GoMap.get st1 id = GoMap.get st2 id) :
    WalletService.GetVC memoryStore st1 id = WalletService.GetVC memoryStore st2 id := by
  have hl : memoryStore.LoadAs st1 id decodeVC = memoryStore.LoadAs st2 id decodeVC := by
    show (match MemoryStore.Load st1 id with
      | Except.error e => Except.error e
      | Except.ok j => decodeVC j) = (match MemoryStore.Load st2 id with
      | Except.error e => Except.error e
      | Except.ok j => decodeVC j)
    unfold MemoryStore.Load
    rw [h]
  unfold WalletService.GetVC
  rw [hl]

/-- C26 (counterexample). Whatever the library routines, re-issuing for the same subject
with the same `id` option replaces the stored credential: after `CreateVC` for
`overrideRequest`, `CreateVC` for `reissueRequest` stores its own credential, with the plan
`silver`, under the same ID. A wallet `StoreVC` does the same: after `StoreVC(vcA)`, where
`vcA` has a proof, `StoreVC(vcTampered)` makes `GetVC(vcA.ID)` return `vcTampered`. -/
theorem CreateVC_reissue_replaces_credential :
    (¬ ∃ L : GoLib, ∀ (st st1 : MemoryStore) (now1 now2 : Time) (uuid1 uuid2 : String)
        (req1 req2 : VCRequest) (vc1 : VerifiableCredential),
      issuerService.CreateVC memoryStore L st now1 uuid1 (some req1)
        = (st1, .ret (.ok vc1)) →
      req2.SubjectDID = req1.SubjectDID →
      optionID req2.Options = optionID req1.Options →
      WalletService.GetVC memoryStore
        (issuerService.CreateVC memoryStore L st1 now2 uuid2 (some req2)).1 vc1.ID
        = .ok vc1) ∧
    vcA.Proof.isSome = true ∧ vcTampered.ID = vcA.ID ∧
    WalletService.GetVC memoryStore
      (WalletService.StoreVC memoryStore NewMemoryStore vcA).1 vcA.ID = .ok vcA ∧
    WalletService.GetVC memoryStore
      (WalletService.StoreVC memoryStore
        (WalletService.StoreVC memoryStore NewMemoryStore vcA).1 vcTampered).1 vcA.ID
      = .ok vcTampered ∧
    GoMap.get vcTampered.CredentialSubject "name" = some (.str "Alicf") ∧
    GoMap.get vcA.CredentialSubject "name" = some (.str "Alice") := by
  refine ⟨?_, rfl, rfl, rfl, rfl, rfl, rfl⟩
  rintro ⟨L, hclaim⟩
  have hlen : (keyAt L 1700000000000000000).length = 64 := L.privateKeySize _
  have hkey0 : GoMap.get (issuerStore L)
      ("privatekey:" ++ (overrideRequest.IssuerDID ++ "#key-1"))
      = some (.bytes (keyAt L 1700000000000000000)) := rfl
  obtain ⟨jws1, j1, -, hc1⟩ := CreateVC_memoryStore_ok L (issuerStore L)
    1700000100000000000 "" overrideRequest _ (by decide) (by decide) hkey0 hlen (by decide)
  have hkey1 : GoMap.get
      (GoMap.set (issuerStore L)
        (issuerService.unsignedVC 1700000100000000000 "" overrideRequest).ID j1)
      ("privatekey:" ++ (reissueRequest.IssuerDID ++ "#key-1"))
      = some (.bytes (keyAt L 1700000000000000000)) := by
    rw [GoMap.get_set_other _ _ _ _ (by decide)]
    exact hkey0
  obtain ⟨jws2, j2, he2, hc2⟩ := CreateVC_memoryStore_ok L _
    1700000400000000000 "" reissueRequest _ (by decide) (by decide) hkey1 hlen (by decide)
  have h := hclaim _ _ 1700000100000000000 1700000400000000000 "" "" overrideRequest
    reissueRequest _ hc1 rfl rfl
  rw [hc2] at h
  have h3 := GetVC_set_same
    (GoMap.set (issuerStore L)
      (issuerService.unsignedVC 1700000100000000000 "" overrideRequest).ID j1)
    _ j2 (literal_append_ne_empty 'v' ['c', ':'] _) he2
  have e := h3.symm.trans h
  have e2 : "silver" = "gold" := congrArg
    (fun (r : Except String VerifiableCredential) => (match r with
      | .ok v =>
        (match GoMap.get v.CredentialSubject "plan" with
        | some (JVal.str s) => s
        | _ => "")
      | .error _ => "")) e
  exact absurd e2 (by decide)

/-- C26 (amended). On the in-memory store, a credential that `GetVC` returns for its ID is
still returned after every sequence of later calls none of which writes under that ID. A
`CreateVC` writes under `"vc:" + SubjectDID + ":" + id`, with `id` the `id` option or else
the UUID, and a wallet `StoreVC` under the ID of its credential: re-issuing under a new
identifier leaves the stored credential in place. -/
theorem stored_credential_kept (L : GoLib) (st : MemoryStore) (vc : VerifiableCredential)
    (later : List Op)
    (hst : WalletService.GetVC memoryStore st vc.ID = .ok vc)
    (h : ∀ op ∈ later, vc.ID ∉ op.writes) :
    GoMap.get (later.foldl (Op.run L) st) vc.ID = GoMap.get st vc.ID ∧
    WalletService.GetVC memoryStore (later.foldl (Op.run L) st) vc.ID = .ok vc ∧
    (∀ (now : Time) (uuid : String) (req : VCRequest),
      vc.ID ∉ (Op.createVC now uuid req).writes ↔
        vc.ID ≠ "vc:" ++ req.SubjectDID ++ ":"
          ++ (if optionID req.Options = "" then uuid else optionID req.Options)) ∧
    (∀ c : VerifiableCredential, vc.ID ∉ (Op.storeVC c).writes ↔ vc.ID ≠ c.ID) := by
  have hget := foldl_run_get_other L later st vc.ID h
  refine ⟨hget, ?_, ?_, ?_⟩
  · rw [GetVC_congr _ _ _ hget]
    exact hst
  · intro now uuid req
    simp only [Op.writes, List.mem_singleton, issuerService.unsignedVC, ne_eq]
  · intro c
    simp only [Op.writes, List.mem_singleton, ne_eq]

/-- C26 (witness). The statement for `sampleCredential`, as stored by `CreateVC`, and the
later calls `freshCalls`. -/
theorem stored_credential_kept_witness :
    WalletService.GetVC memoryStore
      (issuerService.CreateVC memoryStore sampleLib (issuerStore sampleLib)
        1700000100000000000 "" (some overrideRequest)).1 sampleCredential.ID
      = .ok sampleCredential ∧
    (∀ op ∈ freshCalls, sampleCredential.ID ∉ op.writes) ∧
    sampleCredential.Proof.isSome = true ∧
    WalletService.GetVC memoryStore
      (freshCalls.foldl (Op.run sampleLib)
        (issuerService.CreateVC memoryStore sampleLib (issuerStore sampleLib)
          1700000100000000000 "" (some overrideRequest)).1) sampleCredential.ID
      = .ok sampleCredential :=
  ⟨rfl, by decide, rfl,
    (stored_credential_kept sampleLib
      (issuerService.CreateVC memoryStore sampleLib (issuerStore sampleLib)
        1700000100000000000 "" (some overrideRequest)).1
      sampleCredential freshCalls rfl (by decide)).2.1⟩

/-- C28 (witness). The statement on the wallet store, for a filter on the issuer and on the
type `VerifiableCredential`: both stored credentials are returned, once each. -/
theorem ListVCs_without_expiry_filters_witness :
    WalletService.ListVCs memoryStore walletStore (fun _ => (0, 0))
      ⟨"did:telco:issuer", "", "VerifiableCredential", false, false⟩
      = .ok [vcA, vcExpired] ∧
    WalletService.ListVCs memoryStore walletStore (fun _ => (0, 0))
      ⟨"did:telco:other", "", "", false, false⟩ = .ok [] ∧
    ((GoMap.keys walletStore).filter (fun k => hasPrefix k "vc:")).Nodup :=
  ⟨(ListVCs_without_expiry_filters walletStore (fun _ => (0, 0))
      ⟨"did:telco:issuer", "", "VerifiableCredential", false, false⟩ rfl rfl).1.trans rfl,
    rfl,
    (ListVCs_without_expiry_filters walletStore (fun _ => (0, 0))
      ⟨"did:telco:issuer", "", "VerifiableCredential", false, false⟩ rfl rfl).2 (by decide)⟩

/-! ## Key order of the stores -/

theorem GoMap.mem_set {α : Type} {m : GoMap α} {k : String} {v : α} {x : String × α}
    (h : x ∈ GoMap.set m k v) : x = (k, v) ∨ x ∈ m := by
  induction m with
  | nil =>
    simp only [GoMap.set, List.mem_singleton] at h
    exact Or.inl h
  | cons hd t ih =>
    obtain ⟨k', v'⟩ := hd
    unfold GoMap.set at h
    split at h
    · rcases List.mem_cons.mp h with h | h
      · exact Or.inl h
      · exact Or.inr (List.mem_cons_of_mem _ h)
    · split at h
      · rcases List.mem_cons.mp h with h | h
        · exact Or.inl h
        · exact Or.inr h
      · rcases List.mem_cons.mp h with h | h
        · exact Or.inr (h ▸ List.mem_cons_self _ _)
        · rcases ih h with h | h
          · exact Or.inl h
          · exact Or.inr (List.mem_cons_of_mem _ h)

theorem GoMap.set_sorted {α : Type} {m : GoMap α} (k : String) (v : α)
    (h : GoMap.Sorted m) : GoMap.Sorted (GoMap.set m k v) := by
  unfold GoMap.Sorted at h ⊢
  induction m with
  | nil => simp [GoMap.set]
  | cons hd t ih =>
    obtain ⟨k', v'⟩ := hd
    rw [List.pairwise_cons] at h
    obtain ⟨hhd, ht⟩ := h
    unfold GoMap.set
    split
    · rename_i e
      subst e
      exact List.pairwise_cons.mpr ⟨hhd, ht⟩
    · rename_i hne
      split
      · rename_i hlt
        refine List.pairwise_cons.mpr ⟨?_, List.pairwise_cons.mpr ⟨hhd, ht⟩⟩
        intro a ha
        rcases List.mem_cons.mp ha with ha | ha
        · rw [ha]; exact hlt
        · exact strLt_trans hlt (hhd a ha)
      · rename_i hlt
        refine List.pairwise_cons.mpr ⟨?_, ih ht⟩
        intro a ha
        rcases GoMap.mem_set ha with ha | ha
        · rw [ha]
          rcases strLt_cases k k' with ⟨e, -, -⟩ | ⟨-, a1, -⟩ | ⟨-, -, a2⟩
          · exact absurd e hne
          · exact absurd a1 hlt
          · exact a2
        · exact hhd a ha

theorem strLt_irrefl (a : String) : strLt a a = false := lexLt_irrefl a.data

theorem GoMap.Sorted.nodup_keys {α : Type} {m : GoMap α} (h : GoMap.Sorted m) :
    (GoMap.keys m).Nodup := by
  unfold GoMap.Sorted at h
  unfold GoMap.keys
  induction m with
  | nil => exact List.nodup_nil
  | cons hd t ih =>
    rw [List.pairwise_cons] at h
    rw [List.map_cons, List.nodup_cons]
    refine ⟨?_, ih h.2⟩
    intro hmem
    obtain ⟨a, ha, hk⟩ := List.mem_map.mp hmem
    have := h.1 a ha
    rw [hk, strLt_irrefl] at this
    cases this

theorem GoMap.mem_keys_iff {α : Type} (m : GoMap α) (k : String) :
    k ∈ GoMap.keys m ↔ ∃ v, GoMap.get m k = some v := by
  unfold GoMap.keys
  induction m with
  | nil => simp [GoMap.get]
  | cons hd t ih =>
    obtain ⟨k', v'⟩ := hd
    by_cases e : k' = k
    · simp [GoMap.get, e]
    · have e' : ¬ k = k' := fun x => e x.symm
      simp only [List.map_cons, List.mem_cons, e', false_or, GoMap.get, e, if_false]
      exact ih

theorem GoMap.set_last {α : Type} (m : GoMap α) (k : String) (v : α)
    (h : ∀ a ∈ m, strLt a.1 k = true) : GoMap.set m k v = m ++ [(k, v)] := by
  induction m with
  | nil => rfl
  | cons hd t ih =>
    obtain ⟨k', v'⟩ := hd
    have hlt : strLt k' k = true := h (k', v') (List.mem_cons_self _ _)
    rcases strLt_cases k k' with ⟨e, -, a2⟩ | ⟨-, -, a2⟩ | ⟨hne, a1, -⟩
    · rw [a2] at hlt; cases hlt
    · rw [a2] at hlt; cases hlt
    · unfold GoMap.set
      rw [if_neg hne, a1]
      simp only [Bool.false_eq_true, if_false, List.cons_append, List.cons.injEq, true_and]
      exact ih (fun a ha => h a (List.mem_cons_of_mem _ ha))

theorem GoMap.foldl_set_sorted {α : Type} (l acc : GoMap α) (h : GoMap.Sorted (acc ++ l)) :
    l.foldl (fun m r => GoMap.set m r.1 r.2) acc = acc ++ l := by
  induction l generalizing acc with
  | nil => simp
  | cons r rest ih =>
    unfold GoMap.Sorted at h
    have hacc : ∀ a ∈ acc, strLt a.1 r.1 = true := by
      intro a ha
      exact (List.pairwise_append.mp h).2.2 a ha r (List.mem_cons_self _ _)
    rw [List.foldl_cons, GoMap.set_last acc r.1 r.2 hacc]
    have h2 : GoMap.Sorted ((acc ++ [(r.1, r.2)]) ++ rest) := by
      unfold GoMap.Sorted
      simpa using h
    rw [ih _ h2]
    simp

theorem GoMap.foldl_set_keeps_sorted {α : Type} (l acc : GoMap α) (h : GoMap.Sorted acc) :
    GoMap.Sorted (l.foldl (fun m r => GoMap.set m r.1 r.2) acc) := by
  induction l generalizing acc with
  | nil => exact h
  | cons r rest ih => exact ih _ (GoMap.set_sorted r.1 r.2 h)

/-! ## The stores as maps -/

theorem MemoryStore.Load_Save (m : MemoryStore) (key : String) (value : Except String JVal)
    (k : String) :
    memoryStore.Load (memoryStore.Save m key value).1 k
      = if key = k ∧ (memoryStore.Save m key value).2 = none then
          (match value with
          | .ok j => .ok j
          | .error _ => memoryStore.Load m k)
        else memoryStore.Load m k := by
  show MemoryStore.Load (MemoryStore.Save m key value).1 k
      = if key = k ∧ (MemoryStore.Save m key value).2 = none then
          (match value with
          | .ok j => .ok j
          | .error _ => MemoryStore.Load m k)
        else MemoryStore.Load m k
  unfold MemoryStore.Save
  by_cases hk : key = ""
  · simp [hk]
  · cases value with
    | error e => simp [hk]
    | ok j =>
      simp only [if_neg hk, and_true]
      by_cases e : key = k
      · subst e
        simp [MemoryStore.Load, GoMap.get_set_same]
      · have e' : k ≠ key := fun x => e x.symm
        simp [MemoryStore.Load, GoMap.get_set_other _ _ _ _ e', e]

theorem lastSaved_cons {σ : Type} (S : Store σ) (st : σ)
    (c : String × Except String JVal) (rest : List (String × Except String JVal))
    (key : String) :
    lastSaved S st (c :: rest) key
      = match lastSaved S (S.Save st c.1 c.2).1 rest key with
        | some j => some j
        | none =>
          if c.1 = key ∧ (S.Save st c.1 c.2).2 = none then
            match c.2 with
            | .ok j => some j
            | .error _ => none
          else none := rfl

theorem MemoryStore.Load_saveAll (calls : List (String × Except String JVal))
    (m : MemoryStore) (key : String) :
    memoryStore.Load (saveAll memoryStore m calls) key
      = match lastSaved memoryStore m calls key with
        | some j => .ok j
        | none => memoryStore.Load m key := by
  induction calls generalizing m with
  | nil => rfl
  | cons c rest ih =>
    have hstep : saveAll memoryStore m (c :: rest)
        = saveAll memoryStore (memoryStore.Save m c.1 c.2).1 rest := rfl
    rw [hstep, ih, lastSaved_cons]
    cases lastSaved memoryStore (memoryStore.Save m c.1 c.2).1 rest key with
    | some j => rfl
    | none =>
      simp only
      rw [MemoryStore.Load_Save]
      by_cases hc : c.1 = key ∧ (memoryStore.Save m c.1 c.2).2 = none
      · rw [if_pos hc, if_pos hc]
        cases hv : c.2 with
        | ok j => rfl
        | error e =>
          exfalso
          have h2 := hc.2
          rw [hv] at h2
          change (MemoryStore.Save m c.1 (.error e)).2 = none at h2
          unfold MemoryStore.Save at h2
          split at h2 <;> cases h2
      · rw [if_neg hc, if_neg hc]

/-- C34 (code defect). A `FileStore` whose file cannot be created, as when the directory of
its path does not exist: `Save` puts the value into the map before `persist` runs and returns
the error of `persist` without taking the value out again. From a store that holds nothing
under `key`, the failed `Save` makes `Load(key)` succeed with the value, although no `Save`
with that key has succeeded. -/
theorem FileStore_Load_after_failed_Save (L : GoLib) (key : String) (j : JVal) :
    fileStore.Load (NewFileStore L noDirectory) key = .error ("key not found: " ++ key) ∧
    (fileStore.Save (NewFileStore L noDirectory) key (.ok j)).2
      = some "open ./data/wallet_store.jsonl: no such file or directory" ∧
    lastSaved fileStore (NewFileStore L noDirectory) [(key, .ok j)] key = none ∧
    fileStore.Load (saveAll fileStore (NewFileStore L noDirectory) [(key, .ok j)]) key
      = .ok j := by
  refine ⟨rfl, rfl, ?_, ?_⟩
  · have hfail : (fileStore.Save (NewFileStore L noDirectory) key (.ok j)).2 ≠ none := by
      intro h
      cases h
    rw [lastSaved_cons]
    show (if key = key ∧ (fileStore.Save (NewFileStore L noDirectory) key (.ok j)).2 = none
      then some j else none) = none
    rw [if_neg (fun h => hfail h.2)]
  show FileStore.Load (FileStore.Save (NewFileStore L noDirectory) key (.ok j)).1 key = .ok j
  simp [FileStore.Save, FileStore.persist, FileStore.Load, NewFileStore, noDirectory,
    GoMap.set, GoMap.get]

theorem MemoryStore_is_a_map (calls : List (String × Except String JVal)) (key : String) :
    memoryStore.Load (saveAll memoryStore NewMemoryStore calls) key
      = match lastSaved memoryStore NewMemoryStore calls key with
        | some j => .ok j
        | none => .error ("key not found: " ++ key) :=
  MemoryStore.Load_saveAll calls NewMemoryStore key

theorem FileStore.Save_data (f : FileStore) (key : String) (value : Except String JVal) :
    (fileStore.Save f key value).1.data = f.data ∨
      ∃ j, value = .ok j ∧ (fileStore.Save f key value).1.data = GoMap.set f.data key j := by
  show (FileStore.Save f key value).1.data = f.data ∨
      ∃ j, value = .ok j ∧ (FileStore.Save f key value).1.data = GoMap.set f.data key j
  cases value with
  | error e => exact Or.inl rfl
  | ok j =>
    right
    refine ⟨j, rfl, ?_⟩
    unfold FileStore.Save FileStore.persist
    simp only
    split <;> rfl

theorem FileStore_is_a_map_when_persist_succeeds (f : FileStore) (key : String) (j : JVal)
    (k : String) (h : f.disk.createError = none) :
    (fileStore.Save f key (.ok j)).2 = none ∧
    fileStore.Load (fileStore.Save f key (.ok j)).1 key = .ok j ∧
    (k ≠ key → fileStore.Load (fileStore.Save f key (.ok j)).1 k = fileStore.Load f k) ∧
    (fileStore.Save f key (.ok j)).1.disk.createError = none := by
  have hs : fileStore.Save f key (.ok j)
      = ({ data := GoMap.set f.data key j,
           disk := { f.disk with lines := some (GoMap.set f.data key j) } }, none) := by
    show FileStore.Save f key (.ok j) = _
    unfold FileStore.Save FileStore.persist
    simp only [h]
  rw [hs]
  refine ⟨rfl, ?_, ?_, h⟩
  · show FileStore.Load _ key = _
    unfold FileStore.Load
    simp only [GoMap.get_set_same]
  · intro hk
    show FileStore.Load _ k = FileStore.Load f k
    unfold FileStore.Load
    simp only [GoMap.get_set_other _ _ _ _ hk]

/-! ## Listing the keys of a store -/

theorem hasPrefix_empty (k : String) : hasPrefix k "" = true :=
  (hasPrefix_iff k "").mpr ⟨k, by simp⟩

theorem listed_keys (m : GoMap JVal) (hs : GoMap.Sorted m) (pfx : String) :
    ((GoMap.keys m).filter (fun k => decide (pfx = "") || hasPrefix k pfx)).Nodup ∧
    ∀ k, k ∈ (GoMap.keys m).filter (fun k => decide (pfx = "") || hasPrefix k pfx)
      ↔ hasPrefix k pfx = true ∧ ∃ j, GoMap.get m k = some j := by
  refine ⟨hs.nodup_keys.filter _, fun k => ?_⟩
  rw [List.mem_filter, GoMap.mem_keys_iff]
  by_cases hp : pfx = ""
  · subst hp
    simp [hasPrefix_empty]
  · simp [hp]
    exact and_comm

theorem MemoryStore.saveAll_sorted (calls : List (String × Except String JVal))
    (m : MemoryStore) (hs : GoMap.Sorted m) : GoMap.Sorted (saveAll memoryStore m calls) := by
  induction calls generalizing m with
  | nil => exact hs
  | cons c rest ih =>
    have hstep : saveAll memoryStore m (c :: rest)
        = saveAll memoryStore (memoryStore.Save m c.1 c.2).1 rest := rfl
    rw [hstep]
    apply ih
    rcases MemoryStore.Save_fst m c.1 c.2 with h | ⟨j, -, h⟩
    · rw [h]; exact hs
    · rw [h]; exact GoMap.set_sorted _ _ hs

theorem FileStore.saveAll_data_sorted (calls : List (String × Except String JVal))
    (f : FileStore) (hs : GoMap.Sorted f.data) :
    GoMap.Sorted (saveAll fileStore f calls).data := by
  induction calls generalizing f with
  | nil => exact hs
  | cons c rest ih =>
    have hstep : saveAll fileStore f (c :: rest)
        = saveAll fileStore (fileStore.Save f c.1 c.2).1 rest := rfl
    rw [hstep]
    apply ih
    rcases FileStore.Save_data f c.1 c.2 with h | ⟨j, -, h⟩
    · rw [h]; exact hs
    · rw [h]; exact GoMap.set_sorted _ _ hs

theorem NewFileStore_sorted (L : GoLib) (disk : Disk) :
    GoMap.Sorted (NewFileStore L disk).data := by
  unfold NewFileStore
  cases disk.lines with
  | none => exact List.Pairwise.nil
  | some lines => exact GoMap.foldl_set_keeps_sorted _ _ List.Pairwise.nil

theorem MemoryStore.Load_ok_iff (m : MemoryStore) (k : String) (j : JVal) :
    memoryStore.Load m k = .ok j ↔ GoMap.get m k = some j := by
  show MemoryStore.Load m k = .ok j ↔ _
  unfold MemoryStore.Load
  cases GoMap.get m k with
  | none => simp
  | some v => simp

theorem FileStore.Load_found_iff (f : FileStore) (k : String) (j : JVal) :
    fileStore.Load f k = .ok j ↔ GoMap.get f.data k = some j := by
  show FileStore.Load f k = .ok j ↔ _
  unfold FileStore.Load
  cases GoMap.get f.data k with
  | none => simp
  | some v => simp

/-- C35. In every state that a `MemoryStore` reaches from the empty store through `Save`
calls, and in every state that a `FileStore` reaches through `Save` calls after it is
opened on any file, `ListKeys(prefix)` returns without error a list without duplicates whose
members are exactly the keys that begin with `prefix` and are stored, that is, for which
`Load` finds a value; with the empty prefix these are all the stored keys. -/
theorem ListKeys_exactly_matching_keys (L : GoLib) (disk : Disk)
    (calls : List (String × Except String JVal)) (pfx : String) :
    (∃ ks, memoryStore.ListKeys (saveAll memoryStore NewMemoryStore calls) pfx = .ok ks ∧
      ks.Nodup ∧
      ∀ k, k ∈ ks ↔ hasPrefix k pfx = true ∧
        ∃ j, memoryStore.Load (saveAll memoryStore NewMemoryStore calls) k = .ok j) ∧
    (∃ ks, memoryStore.ListKeys (saveAll memoryStore NewMemoryStore calls) "" = .ok ks ∧
      ∀ k, k ∈ ks ↔
        ∃ j, memoryStore.Load (saveAll memoryStore NewMemoryStore calls) k = .ok j) ∧
    (∃ ks, fileStore.ListKeys (saveAll fileStore (NewFileStore L disk) calls) pfx = .ok ks ∧
      ks.Nodup ∧
      ∀ k, k ∈ ks ↔ hasPrefix k pfx = true ∧
        ∃ j, fileStore.Load (saveAll fileStore (NewFileStore L disk) calls) k = .ok j) ∧
    (∃ ks, fileStore.ListKeys (saveAll fileStore (NewFileStore L disk) calls) "" = .ok ks ∧
      ∀ k, k ∈ ks ↔
        ∃ j, fileStore.Load (saveAll fileStore (NewFileStore L disk) calls) k = .ok j) := by
  have hm := MemoryStore.saveAll_sorted calls NewMemoryStore List.Pairwise.nil
  have hf := FileStore.saveAll_data_sorted calls (NewFileStore L disk) (NewFileStore_sorted L disk)
  refine ⟨⟨_, rfl, (listed_keys _ hm pfx).1, fun k => ?_⟩, ⟨_, rfl, fun k => ?_⟩,
    ⟨_, rfl, (listed_keys _ hf pfx).1, fun k => ?_⟩, ⟨_, rfl, fun k => ?_⟩⟩
  · simp only [MemoryStore.Load_ok_iff]
    exact (listed_keys _ hm pfx).2 k
  · have h := (listed_keys _ hm "").2 k
    simp only [hasPrefix_empty, true_and] at h
    simpa [MemoryStore.Load_ok_iff] using h
  · simp only [FileStore.Load_found_iff]
    exact (listed_keys _ hf pfx).2 k
  · have h := (listed_keys _ hf "").2 k
    simp only [hasPrefix_empty, true_and] at h
    simpa [FileStore.Load_found_iff] using h

/-- C36. `MemoryStore.Save` with the empty key returns the error `key cannot be empty`,
whatever the value and the store state, and hands back the state it was given: `Load` and
`ListKeys` answer as before. -/
theorem MemoryStore_Save_rejects_empty_key (m : MemoryStore) (value : Except String JVal)
    (k pfx : String) :
    memoryStore.Save m "" value = (m, some "key cannot be empty") ∧
    memoryStore.Load (memoryStore.Save m "" value).1 k = memoryStore.Load m k ∧
    memoryStore.ListKeys (memoryStore.Save m "" value).1 pfx = memoryStore.ListKeys m pfx ∧
    GoMap.get (memoryStore.Save m "" value).1 "" = GoMap.get m "" := by
  have h : memoryStore.Save m "" value = (m, some "key cannot be empty") := by
    show MemoryStore.Save m "" value = _
    unfold MemoryStore.Save
    rw [if_pos rfl]
  rw [h]
  exact ⟨rfl, rfl, rfl, rfl⟩

/-! ## Reopening a file store -/

theorem scanLines_short (L : GoLib) (lines : List (String × JVal))
    (h : ∀ r ∈ lines, (recordLine L r).length + 1 ≤ maxScanTokenSize) :
    scanLines L lines = lines := by
  induction lines with
  | nil => rfl
  | cons r rest ih =>
    unfold scanLines
    rw [if_pos (h r (List.mem_cons_self _ _)), ih (fun a ha => h a (List.mem_cons_of_mem _ ha))]

theorem NewFileStore_restores (L : GoLib) (f : FileStore) (key : String) (j : JVal)
    (hs : GoMap.Sorted f.data) (hc : f.disk.createError = none)
    (hshort : ∀ r ∈ GoMap.set f.data key j, (recordLine L r).length + 1 ≤ maxScanTokenSize) :
    (fileStore.Save f key (.ok j)).2 = none ∧
    (NewFileStore L (fileStore.Save f key (.ok j)).1.disk).data
      = (fileStore.Save f key (.ok j)).1.data := by
  have hsave : fileStore.Save f key (.ok j)
      = ({ data := GoMap.set f.data key j,
           disk := { f.disk with lines := some (GoMap.set f.data key j) } }, none) := by
    show FileStore.Save f key (.ok j) = _
    unfold FileStore.Save FileStore.persist
    simp only [hc]
  rw [hsave]
  refine ⟨rfl, ?_⟩
  show (NewFileStore L { f.disk with lines := some (GoMap.set f.data key j) }).data
    = GoMap.set f.data key j
  unfold NewFileStore
  simp only [scanLines_short L _ hshort]
  have := GoMap.foldl_set_sorted (GoMap.set f.data key j) []
    (by simpa using GoMap.set_sorted key j hs)
  simpa using this

theorem NewFileStore_after_first_Save (L : GoLib) (key : String) (j : JVal) :
    (fileStore.Save (NewFileStore L emptyDisk) key (.ok j)).2 = none ∧
    fileStore.Load (fileStore.Save (NewFileStore L emptyDisk) key (.ok j)).1 key = .ok j ∧
    fileStore.Load
      (NewFileStore L (fileStore.Save (NewFileStore L emptyDisk) key (.ok j)).1.disk) key
      = if (recordLine L (key, j)).length + 1 ≤ maxScanTokenSize then .ok j
        else .error ("key not found: " ++ key) := by
  refine ⟨rfl, ?_, ?_⟩
  · show FileStore.Load _ key = _
    simp [fileStore, FileStore.Save, FileStore.persist, FileStore.Load, NewFileStore,
      emptyDisk, GoMap.set, GoMap.get]
  · show FileStore.Load _ key = _
    by_cases h : (recordLine L (key, j)).length + 1 ≤ maxScanTokenSize
    · simp [fileStore, FileStore.Save, FileStore.persist, FileStore.Load, NewFileStore,
        emptyDisk, GoMap.set, GoMap.get, scanLines, h]
    · simp [fileStore, FileStore.Save, FileStore.persist, FileStore.Load, NewFileStore,
        emptyDisk, GoMap.set, GoMap.get, scanLines, h]

theorem recordLine_lineLib (k s : String) :
    recordLine lineLib (k, .str s) = List.replicate (21 + k.length + s.length) 0 := rfl

/-- C37 (code defect). A value is saved through a `FileStore` opened where no file exists
yet; `Save` succeeds and `Load` returns the value. A second `FileStore` opened on the file
then loads the key only if the record line, with its newline, fits the 64 KiB buffer of the
`bufio.Scanner` that `NewFileStore` reads the file with: at a longer line `Scan` returns
false, the loop ends and the record, with every record after it, is missing from the new
store, which `NewFileStore` returns without an error. With a line length as in the real
encoding, the value `bigValue` of 70000 characters saved under `big` is lost. -/
theorem NewFileStore_loses_long_record (L : GoLib) (key : String) (j : JVal) :
    ((fileStore.Save (NewFileStore L emptyDisk) key (.ok j)).2 = none ∧
      fileStore.Load (fileStore.Save (NewFileStore L emptyDisk) key (.ok j)).1 key = .ok j ∧
      fileStore.Load
        (NewFileStore L (fileStore.Save (NewFileStore L emptyDisk) key (.ok j)).1.disk) key
        = if (recordLine L (key, j)).length + 1 ≤ maxScanTokenSize then .ok j
          else .error ("key not found: " ++ key)) ∧
    (recordLine lineLib ("big", bigValue)).length = 70024 ∧
    fileStore.Load (fileStore.Save (NewFileStore lineLib emptyDisk) "big" (.ok bigValue)).1
      "big" = .ok bigValue ∧
    fileStore.Load
      (NewFileStore lineLib
        (fileStore.Save (NewFileStore lineLib emptyDisk) "big" (.ok bigValue)).1.disk) "big"
      = .error "key not found: big" := by
  have hlen : (recordLine lineLib ("big", bigValue)).length = 70024 := by
    have h1 := recordLine_lineLib "big" (String.mk (List.replicate 70000 'a'))
    have h2 : (String.mk (List.replicate 70000 'a')).length = 70000 :=
      List.length_replicate _ _
    show (recordLine lineLib ("big", .str (String.mk (List.replicate 70000 'a')))).length
      = 70024
    rw [h1, List.length_replicate, h2]
    rfl
  refine ⟨NewFileStore_after_first_Save L key j, hlen,
    (NewFileStore_after_first_Save lineLib "big" bigValue).2.1, ?_⟩
  rw [(NewFileStore_after_first_Save lineLib "big" bigValue).2.2, hlen,
    if_neg (by decide)]
  rfl

/-! ## The verdict of the verifier -/

theorem verifyCredentials_presence (l l' : List (Option VerifiableCredential)) (i : Nat)
    (h : l.map (fun entry =>
        match entry with
        | none => none
        | some vc => some vc.Proof.isSome)
      = l'.map (fun entry =>
        match entry with
        | none => none
        | some vc => some vc.Proof.isSome)) :
    verifierService.verifyCredentials i l = verifierService.verifyCredentials i l' := by
  induction l generalizing l' i with
  | nil =>
    cases l' with
    | nil => rfl
    | cons b t => simp at h
  | cons a rest ih =>
    cases l' with
    | nil => simp at h
    | cons b t =>
      simp only [List.map_cons, List.cons.injEq] at h
      obtain ⟨hhead, htail⟩ := h
      cases a with
      | none =>
        cases b with
        | none => rfl
        | some w => simp at hhead
      | some v =>
        cases b with
        | none => simp at hhead
        | some w =>
          simp only [Option.some.injEq] at hhead
          have hn : v.Proof.isNone = w.Proof.isNone := by
            cases hv : v.Proof <;> cases hw : w.Proof <;> simp [hv, hw] at hhead ⊢
          simp only [verifierService.verifyCredentials, hn,
            verifierService.verifyVCInternally]
          split
          · rfl
          · exact ih t (i + 1) htail

theorem verifyCredentials_total (l : List (Option VerifiableCredential)) (i : Nat)
    (hnil : ∀ c ∈ l, c ≠ none) :
    verifierService.verifyCredentials i l = .ret (true, none) ∨
      ∃ e, verifierService.verifyCredentials i l = .ret (false, some e) := by
  induction l generalizing i with
  | nil => exact Or.inl rfl
  | cons a rest ih =>
    cases a with
    | none => exact absurd rfl (hnil none (List.mem_cons_self _ _))
    | some v =>
      simp only [verifierService.verifyCredentials, verifierService.verifyVCInternally]
      split
      · exact Or.inr ⟨_, rfl⟩
      · exact ih (i + 1) (fun c hc => hnil c (List.mem_cons_of_mem _ hc))

theorem verifyCredentials_true_inv (l : List (Option VerifiableCredential)) (i : Nat)
    (h : verifierService.verifyCredentials i l = .ret (true, none)) :
    ∀ c ∈ l, ∃ vc, c = some vc ∧ vc.Proof.isSome = true := by
  induction l generalizing i with
  | nil => intro c hc; cases hc
  | cons a rest ih =>
    cases a with
    | none => cases h
    | some v =>
      simp only [verifierService.verifyCredentials, verifierService.verifyVCInternally] at h
      split at h
      · cases h
      · rename_i hp
        intro c hc
        rcases List.mem_cons.mp hc with hc | hc
        · refine ⟨v, hc, ?_⟩
          cases hv : v.Proof with
          | none => rw [hv] at hp; exact absurd rfl hp
          | some p => rfl
        · exact ih (i + 1) h c hc

theorem verifyCredentials_nil_entry (pre post : List (Option VerifiableCredential)) (i : Nat)
    (hpre : ∀ c ∈ pre, ∃ v, c = some v ∧ v.Proof.isSome = true) :
    verifierService.verifyCredentials i (pre ++ none :: post)
      = .panic "runtime error: invalid memory address or nil pointer dereference" := by
  induction pre generalizing i with
  | nil => rfl
  | cons c rest ih =>
    obtain ⟨v, hc, hp⟩ := hpre c (List.mem_cons_self _ _)
    subst hc
    have hnone : v.Proof.isNone = false := by
      cases hvp : v.Proof with
      | none => rw [hvp] at hp; cases hp
      | some p => rfl
    show verifierService.verifyCredentials i (some v :: (rest ++ none :: post)) = _
    simp only [verifierService.verifyCredentials, hnone, verifierService.verifyVCInternally,
      Bool.false_eq_true, if_false]
    exact ih (i + 1) (fun c hc => hpre c (List.mem_cons_of_mem _ hc))

theorem VerifyVP_accepts_iff (vp : VerifiablePresentation)
    (hnil : ∀ c ∈ vp.VerifiableCredential, c ≠ none) :
    verifierService.VerifyVP vp = .ret (true, none) ↔
      vp.Proof.isSome = true ∧ vp.VerifiableCredential ≠ [] ∧
      ∀ vc, some vc ∈ vp.VerifiableCredential → vc.Proof.isSome = true := by
  unfold verifierService.VerifyVP
  cases hp : vp.Proof with
  | none => simp
  | some p =>
    cases hl : vp.VerifiableCredential with
    | nil => simp
    | cons a rest =>
      simp only [Option.isNone_some, Bool.false_eq_true, if_false, List.length_cons,
        Nat.add_one_ne_zero, Option.isSome_some, ne_eq, reduceCtorEq, not_false_eq_true,
        true_and]
      constructor
      · intro h vc hvc
        obtain ⟨w, hw, hwp⟩ := verifyCredentials_true_inv _ 0 h (some vc) hvc
        cases hw
        exact hwp
      · intro h
        apply verifyCredentials_all_proofs
        intro c hc
        cases c with
        | none => exact absurd rfl (hnil none (hl ▸ hc))
        | some w => exact ⟨w, rfl, h w hc⟩

theorem VerifyVP_total (vp : VerifiablePresentation)
    (hnil : ∀ c ∈ vp.VerifiableCredential, c ≠ none) :
    verifierService.VerifyVP vp = .ret (true, none) ∨
      ∃ e, verifierService.VerifyVP vp = .ret (false, some e) := by
  unfold verifierService.VerifyVP
  split
  · exact Or.inr ⟨_, rfl⟩
  · split
    · exact Or.inr ⟨_, rfl⟩
    · exact verifyCredentials_total _ 0 hnil

/-- C38. For a presentation whose credential entries are all non-nil, the verifier's
`VerifyVP` returns `(true, nil)` exactly when the presentation has a proof, its credential
sequence is not empty and every embedded credential has a proof, and otherwise returns
`false` with an error. A second such presentation that agrees on these three facts is
accepted exactly when the first is; and two presentations with the same proof-presence
pattern (own proof, and entry by entry) get the same result, error text included, whatever
their other fields. -/
theorem VerifyVP_verdict_from_proof_presence (vp vp' : VerifiablePresentation)
    (hnil : ∀ c ∈ vp.VerifiableCredential, c ≠ none) :
    (verifierService.VerifyVP vp = .ret (true, none) ↔
      vp.Proof.isSome = true ∧ vp.VerifiableCredential ≠ [] ∧
      ∀ vc, some vc ∈ vp.VerifiableCredential → vc.Proof.isSome = true) ∧
    (verifierService.VerifyVP vp = .ret (true, none) ∨
      ∃ e, verifierService.VerifyVP vp = .ret (false, some e)) ∧
    ((∀ c ∈ vp'.VerifiableCredential, c ≠ none) →
      vp'.Proof.isSome = vp.Proof.isSome →
      (vp'.VerifiableCredential = [] ↔ vp.VerifiableCredential = []) →
      ((∀ vc, some vc ∈ vp'.VerifiableCredential → vc.Proof.isSome = true) ↔
        ∀ vc, some vc ∈ vp.VerifiableCredential → vc.Proof.isSome = true) →
      (verifierService.VerifyVP vp' = .ret (true, none) ↔
        verifierService.VerifyVP vp = .ret (true, none))) ∧
    (proofPresence vp' = proofPresence vp →
      verifierService.VerifyVP vp' = verifierService.VerifyVP vp) := by
  refine ⟨VerifyVP_accepts_iff vp hnil, VerifyVP_total vp hnil, ?_, ?_⟩
  · intro hnil' h1 h2 h3
    rw [VerifyVP_accepts_iff vp hnil, VerifyVP_accepts_iff vp' hnil', h1, h3, ne_eq, ne_eq,
      h2]
  · intro h
    simp only [proofPresence, Prod.mk.injEq] at h
    obtain ⟨hp, hl⟩ := h
    have hlen : vp'.VerifiableCredential.length = vp.VerifiableCredential.length := by
      have := congrArg List.length hl
      simpa using this
    have hn : vp'.Proof.isNone = vp.Proof.isNone := by
      cases h1 : vp'.Proof <;> cases h2 : vp.Proof <;> simp [h1, h2] at hp ⊢
    unfold verifierService.VerifyVP
    rw [hn, hlen, verifyCredentials_presence _ _ 0 hl]

/-- C38 (witness). The statement for `expiredPresentation` and `unsignedPresentation`, which
differ in their credentials, one of them expired, and are both accepted. -/
theorem VerifyVP_verdict_from_proof_presence_witness :
    (∀ c ∈ expiredPresentation.VerifiableCredential, c ≠ none) ∧
    verifierService.VerifyVP expiredPresentation = .ret (true, none) ∧
    verifierService.VerifyVP unsignedPresentation = .ret (true, none) :=
  have hnil : ∀ c ∈ expiredPresentation.VerifiableCredential, c ≠ none := by
    intro c hc
    simp only [expiredPresentation, List.mem_cons, List.mem_singleton, List.not_mem_nil,
      or_false] at hc
    rcases hc with hc | hc <;> rw [hc] <;> exact fun h => nomatch h
  ⟨hnil,
    (VerifyVP_verdict_from_proof_presence expiredPresentation unsignedPresentation hnil).1.mpr
      ⟨rfl, by simp [expiredPresentation], by
        intro vc hvc
        simp only [expiredPresentation, List.mem_cons, List.mem_singleton, Option.some.injEq,
          List.not_mem_nil, or_false] at hvc
        rcases hvc with hvc | hvc <;> rw [hvc] <;> rfl⟩,
    rfl⟩

/-- C40 (counterexample). `nilLastPresentation` has a proof and a credential list that
contains a nil entry, after a credential without a proof: `VerifyVP` returns `false` with
the error of index 0 and reaches no nil dereference. -/
theorem VerifyVP_returns_before_nil_entry :
    nilLastPresentation.Proof.isSome = true ∧
    none ∈ nilLastPresentation.VerifiableCredential ∧
    verifierService.VerifyVP nilLastPresentation
      = .ret (false, some "VC index 0 verification failed: missing VC proof") :=
  ⟨rfl, by simp [nilLastPresentation], rfl⟩

/-- C40 (amended). The verifier's `VerifyVP` returns a `(bool, error)` result for every
presentation whose credential entries are all non-nil. No stage checks an entry for nil
before reading its `Proof`: a presentation with a proof whose credential list holds a nil
entry reaches a nil dereference when every entry before the first nil entry carries a
proof, and returns the missing-proof error of the first entry without a proof when that
entry comes before the nil entry. -/
theorem VerifyVP_total_without_nil_entries (vp : VerifiablePresentation)
    (pre post : List (Option VerifiableCredential)) :
    ((∀ c ∈ vp.VerifiableCredential, c ≠ none) →
      ∃ b e, verifierService.VerifyVP vp = .ret (b, e)) ∧
    (vp.Proof.isSome = true → vp.VerifiableCredential = pre ++ none :: post →
      (∀ c ∈ pre, ∃ v, c = some v ∧ v.Proof.isSome = true) →
      verifierService.VerifyVP vp
        = .panic "runtime error: invalid memory address or nil pointer dereference") ∧
    (∀ v, vp.Proof.isSome = true → vp.VerifiableCredential = pre ++ some v :: post →
      (∀ c ∈ pre, ∃ w, c = some w ∧ w.Proof.isSome = true) → v.Proof = none →
      verifierService.VerifyVP vp
        = .ret (false, some ("VC index " ++ toString pre.length
            ++ " verification failed: missing VC proof"))) := by
  refine ⟨fun hnil => ?_, fun hp hl hpre => ?_, fun v hp hl hpre hv => ?_⟩
  · rcases VerifyVP_total vp hnil with h | ⟨e, h⟩
    · exact ⟨_, _, h⟩
    · exact ⟨_, _, h⟩
  · have h1 : vp.Proof.isNone = false := by
      cases hvp : vp.Proof with
      | none => rw [hvp] at hp; cases hp
      | some p => rfl
    have h2 : ¬ vp.VerifiableCredential.length = 0 := by
      rw [hl]
      simp
    unfold verifierService.VerifyVP
    simp only [h1, h2, if_false, Bool.false_eq_true]
    rw [hl, verifyCredentials_nil_entry pre post 0 hpre]
  · exact VerifyVP_reports_first_missing_proof vp pre post v hp hl hpre hv

/-- C40 (witness). The statement for `unsignedPresentation`, whose single entry is a
credential, and for `nilFirstPresentation`, whose first entry is nil. -/
theorem VerifyVP_total_without_nil_entries_witness :
    (∀ c ∈ unsignedPresentation.VerifiableCredential, c ≠ none) ∧
    (∃ b e, verifierService.VerifyVP unsignedPresentation = .ret (b, e)) ∧
    nilFirstPresentation.Proof.isSome = true ∧
    nilFirstPresentation.VerifiableCredential = [] ++ none :: [some vcUnsigned] ∧
    verifierService.VerifyVP nilFirstPresentation
      = .panic "runtime error: invalid memory address or nil pointer dereference" :=
  have hnil : ∀ c ∈ unsignedPresentation.VerifiableCredential, c ≠ none := by
    intro c hc
    simp only [unsignedPresentation, List.mem_singleton] at hc
    rw [hc]
    exact fun h => nomatch h
  ⟨hnil,
    (VerifyVP_total_without_nil_entries unsignedPresentation [] []).1 hnil,
    rfl, rfl,
    (VerifyVP_total_without_nil_entries nilFirstPresentation [] [some vcUnsigned]).2.1
      rfl rfl (fun c hc => nomatch hc)⟩

/-! ## Keys of presentations -/

theorem vp_key_twice (n : String) : "vp:" ++ ("vp:" ++ n) = "vp:vp:" ++ n := by
  rw [← String.append_assoc]
  rfl

theorem vp_key_ne_twice (n : String) : "vp:" ++ n ≠ "vp:vp:" ++ n := by
  rw [← vp_key_twice]
  intro h
  have h2 := congrArg String.length (append_left_cancel h)
  rw [String.length_append] at h2
  have h3 : "vp:".length = 3 := rfl
  omega

theorem GetVP_of_get (st : MemoryStore) (id : String) (hid : id ≠ "") :
    WalletService.GetVP memoryStore st id
      = match GoMap.get st ("vp:" ++ id) with
        | none => .error ("failed to load VP: " ++ ("key not found: " ++ ("vp:" ++ id)))
        | some j =>
          match decodeVP j with
          | .error e => .error ("failed to load VP: " ++ e)
          | .ok vp => .ok vp := by
  unfold WalletService.GetVP
  rw [if_neg hid]
  show (match (match MemoryStore.Load st ("vp:" ++ id) with
      | Except.error e => Except.error e
      | Except.ok j => decodeVP j) with
    | Except.error e => Except.error ("failed to load VP: " ++ e)
    | Except.ok vp => Except.ok vp) = _
  unfold MemoryStore.Load
  cases GoMap.get st ("vp:" ++ id) with
  | none => rfl
  | some j => rfl

/-- C39. After a successful `BuildVP` with nonce `n` on an in-memory store that holds no
record under `"vp:vp:" + n`: `GetVP(n)` returns the built presentation; its `Holder` is
`"vp:" + n`, so `GetVP(vp.Holder)` reads the key `"vp:vp:" + n` and fails; `StoreVP` of the
built presentation succeeds, leaves the record under `"vp:" + n` as it was and writes the
same record under `"vp:vp:" + n`, after which `GetVP(vp.Holder)` returns the presentation
too. -/
theorem BuildVP_and_StoreVP_use_different_keys (st st' : MemoryStore) (now1 now2 : Time)
    (vcIDs : List String) (revealFields : GoMap (List String)) (nonce : String)
    (vp : VerifiablePresentation)
    (h : WalletService.BuildVP memoryStore st now1 now2 vcIDs revealFields nonce
      = (st', .ok vp))
    (hfree : GoMap.get st ("vp:vp:" ++ nonce) = none) :
    WalletService.GetVP memoryStore st' nonce = .ok vp ∧
    vp.Holder = "vp:" ++ nonce ∧
    WalletService.GetVP memoryStore st' vp.Holder
      = .error ("failed to load VP: " ++ ("key not found: " ++ ("vp:" ++ vp.Holder))) ∧
    "vp:" ++ vp.Holder = "vp:vp:" ++ nonce ∧
    (WalletService.StoreVP memoryStore st' vp).2 = none ∧
    GoMap.get (WalletService.StoreVP memoryStore st' vp).1 ("vp:" ++ nonce)
      = GoMap.get st' ("vp:" ++ nonce) ∧
    GoMap.get (WalletService.StoreVP memoryStore st' vp).1 ("vp:vp:" ++ nonce)
      = GoMap.get st' ("vp:" ++ nonce) ∧
    WalletService.GetVP memoryStore (WalletService.StoreVP memoryStore st' vp).1 vp.Holder
      = .ok vp := by
  obtain ⟨-, hn, vcs, -, hvp, hsave⟩ := BuildVP_ok_inv h
  obtain ⟨hk, j, hj, hst⟩ := MemoryStore.Save_ok hsave
  have hholder : vp.Holder = "vp:" ++ nonce := by rw [hvp]; rfl
  have hhne : vp.Holder ≠ "" := by
    rw [hholder]
    exact literal_append_ne_empty 'v' ['p', ':'] nonce
  have hk2 : "vp:vp:" ++ nonce ≠ "" :=
    literal_append_ne_empty 'v' ['p', ':', 'v', 'p', ':'] nonce
  have hget1 : GoMap.get st' ("vp:" ++ nonce) = some j := by
    rw [hst, GoMap.get_set_same]
  have hget2 : GoMap.get st' ("vp:vp:" ++ nonce) = none := by
    rw [hst, GoMap.get_set_other _ _ _ _ (vp_key_ne_twice nonce).symm]
    exact hfree
  have hdec := decodeVP_encodeVP hj
  have hstore : WalletService.StoreVP memoryStore st' vp
      = (GoMap.set st' ("vp:vp:" ++ nonce) j, none) := by
    unfold WalletService.StoreVP
    rw [if_neg hhne, hholder, vp_key_twice, hj, MemoryStore.Save_set _ _ _ hk2]
  refine ⟨?_, hholder, ?_, by rw [hholder, vp_key_twice], by rw [hstore], ?_, ?_, ?_⟩
  · rw [GetVP_of_get _ _ hn, hget1]
    simp only [hdec]
  · rw [GetVP_of_get _ _ hhne, hholder, vp_key_twice, hget2]
  · rw [hstore, GoMap.get_set_other _ _ _ _ (vp_key_ne_twice nonce)]
  · rw [hstore, GoMap.get_set_same, hget1]
  · rw [hstore, GetVP_of_get _ _ hhne, hholder, vp_key_twice, GoMap.get_set_same]
    simp only [hdec]

/-- C39 (witness). The statement for the presentation of `vcA` built on the wallet store
with nonce `n1`. -/
theorem BuildVP_and_StoreVP_use_different_keys_witness :
    (∃ st vp,
      WalletService.BuildVP memoryStore walletStore 1700000200000000000 1700000200000000001
        ["vc:did:telco:alice:1"] [] "n1" = (st, .ok vp) ∧
      WalletService.GetVP memoryStore st "n1" = .ok vp ∧
      WalletService.GetVP memoryStore st vp.Holder
        = .error "failed to load VP: key not found: vp:vp:n1" ∧
      GoMap.keys (WalletService.StoreVP memoryStore st vp).1
        = ["vc:did:telco:alice:1", "vc:did:telco:alice:2", "vp:n1", "vp:vp:n1"]) ∧
    GoMap.get walletStore ("vp:vp:" ++ "n1") = none :=
  ⟨⟨_, _, rfl,
    (BuildVP_and_StoreVP_use_different_keys walletStore _ 1700000200000000000
      1700000200000000001 ["vc:did:telco:alice:1"] [] "n1" _ rfl rfl).1, rfl, rfl⟩, rfl⟩

/-! ## Holder-side checks, key generation and signing -/

/-- C31. The wallet's `VerifyVC` returns `false` with the error `missing proof` for a
credential without a proof and `(true, nil)` for every other credential; the wallet's
`VerifyVP` does the same for presentations, and its result is the same for two
presentations that both have or both lack a proof, whatever their embedded credentials and
other fields. -/
theorem wallet_verify_is_proof_presence (vc : VerifiableCredential)
    (vp vp' : VerifiablePresentation) :
    (vc.Proof = none → WalletService.VerifyVC vc = (false, some "missing proof")) ∧
    (vc.Proof ≠ none → WalletService.VerifyVC vc = (true, none)) ∧
    (vp.Proof = none → WalletService.VerifyVP vp = (false, some "missing proof")) ∧
    (vp.Proof ≠ none → WalletService.VerifyVP vp = (true, none)) ∧
    (vp'.Proof.isSome = vp.Proof.isSome →
      WalletService.VerifyVP vp' = WalletService.VerifyVP vp) := by
  refine ⟨fun h => ?_, fun h => ?_, fun h => ?_, fun h => ?_, fun h => ?_⟩
  · simp [WalletService.VerifyVC, h]
  · cases hp : vc.Proof with
    | none => exact absurd hp h
    | some p => simp [WalletService.VerifyVC, hp]
  · simp [WalletService.VerifyVP, h]
  · cases hp : vp.Proof with
    | none => exact absurd hp h
    | some p => simp [WalletService.VerifyVP, hp]
  · have hn : vp'.Proof.isNone = vp.Proof.isNone := by
      cases h1 : vp'.Proof <;> cases h2 : vp.Proof <;> simp [h1, h2] at h ⊢
    simp only [WalletService.VerifyVP, hn]

/-- C31 (witness). The statement for `vcUnsigned`, `vcA`, and for `nilFirstPresentation`,
whose entries are a nil entry and a credential without a proof and which has a proof. -/
theorem wallet_verify_is_proof_presence_witness :
    vcUnsigned.Proof = none ∧
    WalletService.VerifyVC vcUnsigned = (false, some "missing proof") ∧
    nilFirstPresentation.Proof ≠ none ∧
    WalletService.VerifyVP nilFirstPresentation = (true, none) ∧
    WalletService.VerifyVP unsignedPresentation
      = WalletService.VerifyVP nilFirstPresentation :=
  have h := wallet_verify_is_proof_presence vcUnsigned nilFirstPresentation
    unsignedPresentation
  have hp : nilFirstPresentation.Proof ≠ none := fun e => nomatch e
  ⟨rfl, h.1 rfl, hp, h.2.2.2.1 hp, h.2.2.2.2 rfl⟩

/-- C32. `GenerateKeyPair` returns an error exactly when the key type is neither
`Ed25519VerificationKey2018` nor `Ed25519VerificationKey2020`; when it succeeds, the
private key has 64 bytes and the JWK has `kty = "OKP"`, `crv = "Ed25519"` and an `x` entry
that is the unpadded base64url text of the 32-byte public key that `ed25519.GenerateKey`
returned together with the private key. -/
theorem GenerateKeyPair_fails_exactly_on_unsupported (L : GoLib) (now : Time)
    (keyType : String) :
    ((∃ e, cryptoService.GenerateKeyPair L now keyType = .error e) ↔
      keyType ≠ "Ed25519VerificationKey2018" ∧ keyType ≠ "Ed25519VerificationKey2020") ∧
    (∀ key jwk, cryptoService.GenerateKeyPair L now keyType = .ok (key, jwk) →
      key.length = 64 ∧
      GoMap.get jwk "kty" = some (.str "OKP") ∧
      GoMap.get jwk "crv" = some (.str "Ed25519") ∧
      GoMap.keys jwk = ["crv", "kty", "x"] ∧
      ∃ seed pub, L.ed25519KeyFromSeed seed = (pub, key) ∧ pub.length = 32 ∧
        GoMap.get jwk "x" = some (.str (L.base64RawURL pub))) := by
  by_cases h : keyType ≠ "Ed25519VerificationKey2018" ∧
      keyType ≠ "Ed25519VerificationKey2020"
  · refine ⟨⟨fun _ => h, fun _ => ⟨_, by rw [cryptoService.GenerateKeyPair, if_pos h]⟩⟩, ?_⟩
    intro key jwk hk
    rw [cryptoService.GenerateKeyPair, if_pos h] at hk
    cases hk
  · have hgen : cryptoService.GenerateKeyPair L now keyType
        = .ok (keyAt L now, jwkAt L now) := by
      rw [cryptoService.GenerateKeyPair, if_neg h]
      rfl
    refine ⟨⟨fun ⟨e, he⟩ => ?_, fun h2 => absurd h2 h⟩, ?_⟩
    · rw [hgen] at he
      cases he
    · intro key jwk hk
      rw [hgen] at hk
      cases hk
      exact ⟨L.privateKeySize _, rfl, rfl, rfl, L.mathRandRead now 32,
        (L.ed25519KeyFromSeed (L.mathRandRead now 32)).1, rfl, L.publicKeySize _, rfl⟩

/-- C32 (witness). The statement for the key type `RSA`, which is refused, and for the
key generated with the stand-in library at a sample clock reading. -/
theorem GenerateKeyPair_fails_exactly_on_unsupported_witness :
    (∃ e, cryptoService.GenerateKeyPair sampleLib 1700000000000000000 "RSA" = .error e) ∧
    cryptoService.GenerateKeyPair sampleLib 1700000000000000000 "Ed25519VerificationKey2020"
      = .ok (keyAt sampleLib 1700000000000000000, jwkAt sampleLib 1700000000000000000) ∧
    (keyAt sampleLib 1700000000000000000).length = 64 :=
  ⟨(GenerateKeyPair_fails_exactly_on_unsupported sampleLib 1700000000000000000
      "RSA").1.mpr ⟨by decide, by decide⟩,
    rfl,
    ((GenerateKeyPair_fails_exactly_on_unsupported sampleLib 1700000000000000000
      "Ed25519VerificationKey2020").2 _ _ rfl).1⟩

/-! ## Values that `json.Marshal` refuses -/

theorem encodeVC_refused (vc : VerifiableCredential) (h : marshalsVC vc = false) :
    ∃ e, encodeVC vc = .error e := by
  obtain ⟨ctx, id, typ, iss, issued, exp, subj, status, proof⟩ := vc
  by_cases h1 : timeMarshalOK issued = true
  · cases exp with
    | none =>
      cases proof with
      | none => simp [marshalsVC, h1] at h
      | some p =>
        have h3 : timeMarshalOK p.Created = false := by simpa [marshalsVC, h1] using h
        simp only [encodeVC, encodeTime, h1, if_true, encodeOptTime, encodeOptProof,
          encodeProof, h3, Bool.false_eq_true, if_false]
        exact ⟨_, rfl⟩
    | some e =>
      by_cases h2 : timeMarshalOK e = true
      · cases proof with
        | none => simp [marshalsVC, h1, h2] at h
        | some p =>
          have h3 : timeMarshalOK p.Created = false := by simpa [marshalsVC, h1, h2] using h
          simp only [encodeVC, encodeTime, h1, h2, if_true, encodeOptTime, encodeOptProof,
            encodeProof, h3, Bool.false_eq_true, if_false]
          exact ⟨_, rfl⟩
      · simp only [encodeVC, encodeTime, h1, h2, if_true, encodeOptTime,
          Bool.false_eq_true, if_false]
        exact ⟨_, rfl⟩
  · simp only [encodeVC, encodeTime, h1, Bool.false_eq_true, if_false]
    exact ⟨_, rfl⟩

theorem encodeVCList_refused (l : List (Option VerifiableCredential))
    (h : l.all (fun entry =>
        match entry with
        | none => true
        | some vc => marshalsVC vc) = false) :
    ∃ e, encodeVCList l = .error e := by
  induction l with
  | nil => simp at h
  | cons a t ih =>
    cases a with
    | none =>
      have ht : t.all (fun entry =>
          match entry with
          | none => true
          | some vc => marshalsVC vc) = false := by simpa using h
      obtain ⟨e, he⟩ := ih ht
      simp only [encodeVCList, he]
      exact ⟨_, rfl⟩
    | some vc =>
      by_cases hv : marshalsVC vc = true
      · have ht : t.all (fun entry =>
            match entry with
            | none => true
            | some vc => marshalsVC vc) = false := by simpa [hv] using h
        obtain ⟨j, hj⟩ := encodeVC_of_dates vc hv
        obtain ⟨e, he⟩ := ih ht
        simp only [encodeVCList, hj, he]
        exact ⟨_, rfl⟩
      · obtain ⟨e, he⟩ := encodeVC_refused vc (by simpa using hv)
        simp only [encodeVCList, he]
        exact ⟨_, rfl⟩

theorem encodeVP_refused (vp : VerifiablePresentation) (h : marshalsVP vp = false) :
    ∃ e, encodeVP vp = .error e := by
  obtain ⟨ctx, typ, vcs, holder, proof, nonce, created⟩ := vp
  by_cases h3 : vcs.all (fun entry =>
      match entry with
      | none => true
      | some vc => marshalsVC vc) = true
  · obtain ⟨js, hjs⟩ := encodeVCList_of_dates vcs h3
    cases proof with
    | none =>
      have h1 : timeMarshalOK created = false := by simpa [marshalsVP, h3] using h
      simp only [encodeVP, hjs, encodeOptProof, encodeTime, h1, Bool.false_eq_true, if_false]
      exact ⟨_, rfl⟩
    | some p =>
      by_cases h2 : timeMarshalOK p.Created = true
      · have h1 : timeMarshalOK created = false := by simpa [marshalsVP, h3, h2] using h
        simp only [encodeVP, hjs, encodeOptProof, encodeProof, encodeTime, h1, h2, if_true,
          Bool.false_eq_true, if_false]
        exact ⟨_, rfl⟩
      · simp only [encodeVP, hjs, encodeOptProof, encodeProof, encodeTime, h2,
          Bool.false_eq_true, if_false]
        exact ⟨_, rfl⟩
  · obtain ⟨e, he⟩ := encodeVCList_refused vcs (by simpa using h3)
    simp only [encodeVP, he]
    exact ⟨_, rfl⟩

theorem decodeDID_of_encodeVC {vc : VerifiableCredential} {j : JVal}
    (h : encodeVC vc = .ok j) : decodeDID j = .ok ⟨vc.ID, vc.Context, []⟩ := by
  obtain ⟨ctx, id, typ, iss, issued, exp, subj, status, proof⟩ := vc
  simp only [encodeVC] at h
  split at h
  · cases h
  · rename_i ji hi
    split at h
    · cases h
    · rename_i je he
      split at h
      · cases h
      · rename_i jp hp
        cases h
        have e1 := decodeStrings_encodeStrings ctx
        cases je <;> cases status <;> cases jp <;>
          simp only [decodeDID, member, GoMap.get, omitNil, Option.map, List.cons_append,
            List.nil_append, List.append_nil, Option.getD, decodeString, decodeKeyEntries,
            e1, String.reduceEq, if_true, if_false]

/-! ## The issuer's key stays listed -/

theorem Op.run_effect (L : GoLib) (st : MemoryStore) (op : Op) :
    (∃ now uuid method opts, op = .generateDID now uuid method opts) ∨
    Op.run L st op = st ∨
    ∃ k fs, Op.run L st op = GoMap.set st k (.obj fs) ∧
      ((∃ y, k = "vc:" ++ y) ∨ (∃ y, k = "vp:" ++ y) ∨
        (∃ doc, op = .storeDID doc ∧ k = doc.ID ∧ JVal.obj fs = encodeDID doc) ∨
        (∃ vc, op = .storeVC vc ∧ k = vc.ID ∧ encodeVC vc = .ok (.obj fs))) := by
  cases op with
  | generateDID now uuid method opts => exact Or.inl ⟨_, _, _, _, rfl⟩
  | createVC now uuid req =>
    right
    rcases CreateVC_fst (L := L) st now uuid req with h | ⟨y, fs, h⟩
    · exact Or.inl h
    · exact Or.inr ⟨_, fs, h, Or.inl ⟨y, rfl⟩⟩
  | storeDID doc =>
    right
    simp only [Op.run, WalletService.StoreDID]
    split
    · exact Or.inl rfl
    · rcases MemoryStore.Save_fst st doc.ID (.ok (encodeDID doc)) with h | ⟨j, hj, h⟩
      · exact Or.inl h
      · cases hj
        exact Or.inr ⟨_, _, h, Or.inr (Or.inr (Or.inl ⟨doc, rfl, rfl, rfl⟩))⟩
  | storeVC vc =>
    right
    simp only [Op.run, WalletService.StoreVC]
    split
    · exact Or.inl rfl
    · rcases MemoryStore.Save_fst st vc.ID (encodeVC vc) with h | ⟨j, hj, h⟩
      · exact Or.inl h
      · obtain ⟨fs, rfl⟩ := encodeVC_obj hj
        exact Or.inr ⟨_, fs, h, Or.inr (Or.inr (Or.inr ⟨vc, rfl, rfl, hj⟩))⟩
  | storeVP vp =>
    right
    simp only [Op.run, WalletService.StoreVP]
    split
    · exact Or.inl rfl
    · rcases MemoryStore.Save_fst st ("vp:" ++ vp.Holder) (encodeVP vp) with h | ⟨j, hj, h⟩
      · exact Or.inl h
      · obtain ⟨fs, rfl⟩ := encodeVP_obj hj
        exact Or.inr ⟨_, fs, h, Or.inr (Or.inl ⟨vp.Holder, rfl⟩)⟩
  | buildVP now1 now2 vcIDs revealFields nonce =>
    right
    rcases BuildVP_fst st now1 now2 vcIDs revealFields nonce with h | ⟨fs, h⟩
    · exact Or.inl h
    · exact Or.inr ⟨_, fs, h, Or.inr (Or.inl ⟨nonce, rfl⟩)⟩

theorem listsKey_minted (L : GoLib) (st : MemoryStore) (now : Time) (uuid method : String)
    (opts : GoMap JVal) :
    listsKey (Op.run L st (.generateDID now uuid method opts))
      (issuerService.newDID uuid method opts) := by
  simp only [Op.run, GenerateDID_memoryStore]
  exact ⟨_, _, GoMap.get_set_same _ _ _, decodeDID_newDocument L now _, _,
    List.mem_singleton.mpr rfl, rfl⟩

theorem listsKey_kept {L : GoLib} {st : MemoryStore} {op : Op} {x : String}
    (hop : op.keepsListing ("did:" ++ x) = true) (h : listsKey st ("did:" ++ x)) :
    listsKey (Op.run L st op) ("did:" ++ x) := by
  rcases Op.run_effect L st op with ⟨now, uuid, method, opts, rfl⟩ | hs | ⟨k, fs, hs, hk⟩
  · by_cases hd : issuerService.newDID uuid method opts = "did:" ++ x
    · rw [← hd]
      exact listsKey_minted L st now uuid method opts
    · simp only [Op.run, GenerateDID_memoryStore]
      exact listsKey_set_other (fun e => hd e.symm)
        (listsKey_set_other (did_ne_privatekey _ _) h)
  · rw [hs]; exact h
  · rw [hs]
    rcases hk with ⟨y, rfl⟩ | ⟨y, rfl⟩ | ⟨doc, rfl, rfl, hdoc⟩ | ⟨vc, rfl, rfl, hvc⟩
    · exact listsKey_set_other (did_ne_vc _ _) h
    · exact listsKey_set_other (did_ne_vp _ _) h
    · by_cases hd : doc.ID = "did:" ++ x
      · simp only [Op.keepsListing, hd, ne_eq, not_true_eq_false, decide_False,
          Bool.false_or, List.any_eq_true, decide_eq_true_eq] at hop
        obtain ⟨e, he, hid⟩ := hop
        rw [hd, hdoc]
        exact ⟨_, doc, GoMap.get_set_same _ _ _, decodeDID_encodeDID doc, e, he, hid⟩
      · exact listsKey_set_other (fun e => hd e.symm) h
    · by_cases hd : vc.ID = "did:" ++ x
      · simp only [Op.keepsListing, hd, ne_eq, not_true_eq_false, decide_False,
          Bool.false_or, Bool.not_eq_true'] at hop
        obtain ⟨e, he⟩ := encodeVC_refused vc hop
        rw [he] at hvc
        cases hvc
      · exact listsKey_set_other (fun e => hd e.symm) h

theorem key_record_origin {L : GoLib} {st : MemoryStore} {op : Op} {x : String} {bs : Bytes}
    (hb : GoMap.get (Op.run L st op) ("privatekey:" ++ (("did:" ++ x) ++ "#key-1"))
      = some (.bytes bs)) :
    GoMap.get st ("privatekey:" ++ (("did:" ++ x) ++ "#key-1")) = some (.bytes bs) ∨
    ∃ now uuid method opts, op = .generateDID now uuid method opts ∧
      issuerService.newDID uuid method opts = "did:" ++ x := by
  rcases Op.run_effect L st op with ⟨now, uuid, method, opts, rfl⟩ | hs | ⟨k, fs, hs, -⟩
  · by_cases hd : issuerService.newDID uuid method opts = "did:" ++ x
    · exact Or.inr ⟨_, _, _, _, rfl, hd⟩
    · left
      obtain ⟨y, hy⟩ := newDID_eq uuid method opts
      simp only [Op.run, GenerateDID_memoryStore] at hb
      rw [hy] at hb hd
      rw [GoMap.get_set_other _ _ _ _ (did_ne_privatekey _ _).symm,
        GoMap.get_set_other _ _ _ _
          (fun e => hd (append_right_cancel (append_left_cancel e)).symm)] at hb
      exact hb
  · rw [hs] at hb; exact Or.inl hb
  · rw [hs] at hb
    by_cases hk : "privatekey:" ++ (("did:" ++ x) ++ "#key-1") = k
    · rw [hk, GoMap.get_set_same] at hb
      cases hb
    · rw [GoMap.get_set_other _ _ _ _ hk] at hb
      exact Or.inl hb

theorem listed_if_keyed (L : GoLib) (ops : List Op) (st : MemoryStore) (x : String)
    (hops : ∀ op ∈ ops, op.keepsListing ("did:" ++ x) = true)
    (h : (∃ bs, GoMap.get st ("privatekey:" ++ (("did:" ++ x) ++ "#key-1"))
        = some (.bytes bs)) → listsKey st ("did:" ++ x)) :
    (∃ bs, GoMap.get (ops.foldl (Op.run L) st)
        ("privatekey:" ++ (("did:" ++ x) ++ "#key-1")) = some (.bytes bs)) →
      listsKey (ops.foldl (Op.run L) st) ("did:" ++ x) := by
  induction ops generalizing st with
  | nil => exact h
  | cons op rest ih =>
    rw [List.foldl_cons]
    apply ih _ (fun o ho => hops o (List.mem_cons_of_mem _ ho))
    rintro ⟨bs, hb⟩
    rcases key_record_origin hb with hold | ⟨now, uuid, method, opts, rfl, hd⟩
    · exact listsKey_kept (hops op (List.mem_cons_self _ _)) (h ⟨bs, hold⟩)
    · rw [← hd]
      exact listsKey_minted L st now uuid method opts

theorem listsKey_kept_foldl (L : GoLib) (ops : List Op) (st : MemoryStore) (x : String)
    (hops : ∀ op ∈ ops, op.keepsListing ("did:" ++ x) = true)
    (h : listsKey st ("did:" ++ x)) : listsKey (ops.foldl (Op.run L) st) ("did:" ++ x) := by
  induction ops generalizing st with
  | nil => exact h
  | cons op rest ih =>
    rw [List.foldl_cons]
    exact ih _ (fun o ho => hops o (List.mem_cons_of_mem _ ho))
      (listsKey_kept (hops op (List.mem_cons_self _ _)) h)

theorem key_records_at_issuers (L : GoLib) (ops : List Op) (st : MemoryStore)
    (h : ∀ key bs, GoMap.get st key = some (.bytes bs) →
      ∃ x, key = "privatekey:" ++ (("did:" ++ x) ++ "#key-1")) :
    ∀ key bs, GoMap.get (ops.foldl (Op.run L) st) key = some (.bytes bs) →
      ∃ x, key = "privatekey:" ++ (("did:" ++ x) ++ "#key-1") := by
  induction ops generalizing st with
  | nil => exact h
  | cons op rest ih =>
    rw [List.foldl_cons]
    apply ih
    intro key bs hb
    rcases Op.run_effect L st op with ⟨now, uuid, method, opts, rfl⟩ | hs | ⟨k, fs, hs, -⟩
    · obtain ⟨y, hy⟩ := newDID_eq uuid method opts
      simp only [Op.run, GenerateDID_memoryStore] at hb
      by_cases h1 : key = issuerService.newDID uuid method opts
      · rw [h1, GoMap.get_set_same] at hb
        cases hb
      · rw [GoMap.get_set_other _ _ _ _ h1] at hb
        by_cases h2 : key = "privatekey:" ++ (issuerService.newDID uuid method opts ++ "#key-1")
        · exact ⟨y, by rw [h2, hy]⟩
        · rw [GoMap.get_set_other _ _ _ _ h2] at hb
          exact h key bs hb
    · rw [hs] at hb; exact h key bs hb
    · rw [hs] at hb
      by_cases hk : key = k
      · rw [hk, GoMap.get_set_same] at hb
        cases hb
      · rw [GoMap.get_set_other _ _ _ _ hk] at hb
        exact h key bs hb

theorem methodListed_of_listsKey {st : MemoryStore} {vc : VerifiableCredential} {p : Proof}
    (hp : vc.Proof = some p) (hvm : p.VerificationMethod = vc.Issuer ++ "#key-1")
    (h : listsKey st vc.Issuer) : methodListed st vc = true := by
  obtain ⟨j, doc, hj, hdec, e, he, hid⟩ := h
  have hload : memoryStore.LoadAs st vc.Issuer decodeDID = .ok doc := by
    show (match MemoryStore.Load st vc.Issuer with
      | Except.error e => Except.error e
      | Except.ok j => decodeDID j) = Except.ok doc
    unfold MemoryStore.Load
    rw [hj]
    exact hdec
  simp only [methodListed, hp, issuerService.ResolveDID, hload]
  exact List.any_eq_true.mpr ⟨e, he, by simpa [hvm] using hid⟩

theorem methodListed_lost {L : GoLib} {st : MemoryStore} {op : Op} {x : String}
    {vc : VerifiableCredential} {p : Proof}
    (hi : vc.Issuer = "did:" ++ x) (hp : vc.Proof = some p)
    (hvm : p.VerificationMethod = ("did:" ++ x) ++ "#key-1")
    (hop : op.keepsListing ("did:" ++ x) = false) :
    methodListed (Op.run L st op) vc = false := by
  have hne : "did:" ++ x ≠ "" := literal_append_ne_empty 'd' ['i', 'd', ':'] x
  cases op with
  | storeDID doc =>
    simp only [Op.keepsListing, Bool.or_eq_false_iff, decide_eq_false_iff_not, ne_eq,
      not_not] at hop
    obtain ⟨hid, hany⟩ := hop
    have hrun : Op.run L st (.storeDID doc) = GoMap.set st ("did:" ++ x) (encodeDID doc) := by
      simp only [Op.run, WalletService.StoreDID, hid, if_neg hne,
        MemoryStore.Save_set _ _ _ hne]
    simp only [methodListed, hp, hi, issuerService.ResolveDID, hrun, LoadAs_set_same,
      decodeDID_encodeDID, hvm, hany]
  | storeVC c =>
    simp only [Op.keepsListing, Bool.or_eq_false_iff, decide_eq_false_iff_not, ne_eq,
      not_not, Bool.not_eq_false'] at hop
    obtain ⟨hid, hm⟩ := hop
    obtain ⟨j, hj⟩ := encodeVC_of_dates c hm
    have hrun : Op.run L st (.storeVC c) = GoMap.set st ("did:" ++ x) j := by
      simp only [Op.run, WalletService.StoreVC, hid, if_neg hne, hj,
        MemoryStore.Save_set _ _ _ hne]
    simp only [methodListed, hp, hi, issuerService.ResolveDID, hrun, LoadAs_set_same,
      decodeDID_of_encodeVC hj, List.any_nil]
  | generateDID now uuid method opts => simp [Op.keepsListing] at hop
  | createVC now uuid req => simp [Op.keepsListing] at hop
  | storeVP vp => simp [Op.keepsListing] at hop
  | buildVP now1 now2 vcIDs revealFields nonce => simp [Op.keepsListing] at hop

/-! ## Store and get round trips -/

theorem encodeExactKeyEntry_toModel (e : ExactPublicKeyEntry) :
    encodeExactKeyEntry e = encodeKeyEntry e.toModel := by
  obtain ⟨id, typ, controller, jwk⟩ := e
  cases jwk with
  | none => rfl
  | some m => rfl

theorem encodeExactDID_toModel (d : ExactDIDDocument) :
    encodeExactDID d = encodeDID d.toModel := by
  obtain ⟨id, ctx, keys⟩ := d
  have hk : ∀ ks : List ExactPublicKeyEntry,
      ks.map encodeExactKeyEntry
        = (ks.map ExactPublicKeyEntry.toModel).map encodeKeyEntry := by
    intro ks
    rw [List.map_map]
    exact List.map_congr_left (fun e _ => encodeExactKeyEntry_toModel e)
  cases ctx with
  | none =>
    cases keys with
    | none => rfl
    | some ks =>
      cases ks with
      | nil => rfl
      | cons k t =>
        simp only [encodeExactDID, encodeDID, ExactDIDDocument.toModel, Option.getD, hk]
        rfl
  | some c =>
    cases keys with
    | none => rfl
    | some ks =>
      cases ks with
      | nil => rfl
      | cons k t =>
        simp only [encodeExactDID, encodeDID, ExactDIDDocument.toModel, Option.getD, hk]
        rfl

theorem StoreDIDExact_toModel {σ : Type} (S : Store σ) (st : σ) (d : ExactDIDDocument) :
    WalletService.StoreDIDExact S st d = WalletService.StoreDID S st d.toModel := by
  unfold WalletService.StoreDIDExact WalletService.StoreDID
  rw [encodeExactDID_toModel]
  rfl

theorem decodeExactKeyEntry_encode (e : ExactPublicKeyEntry) :
    decodeExactKeyEntry (encodeExactKeyEntry e) = .ok e.normalize := by
  obtain ⟨id, typ, controller, jwk⟩ := e
  cases jwk with
  | none => rfl
  | some m =>
    cases m with
    | nil => rfl
    | cons a t => rfl

theorem decodeExactKeyEntryItems_map (l : List ExactPublicKeyEntry) :
    decodeExactKeyEntryItems (l.map encodeExactKeyEntry)
      = .ok (l.map ExactPublicKeyEntry.normalize) := by
  induction l with
  | nil => rfl
  | cons a t ih =>
    simp only [List.map_cons, decodeExactKeyEntryItems, decodeExactKeyEntry_encode, ih]

theorem decodeExactDID_encode (d : ExactDIDDocument) :
    decodeExactDID (encodeExactDID d) = .ok d.normalize := by
  obtain ⟨id, ctx, keys⟩ := d
  have hstr : ∀ (c : String) (cs : List String),
      decodeStringItems (JVal.str c :: cs.map JVal.str) = .ok (c :: cs) := by
    intro c cs
    exact decodeStringItems_map (c :: cs)
  have hkey : ∀ (k : ExactPublicKeyEntry) (ks : List ExactPublicKeyEntry),
      decodeExactKeyEntryItems (encodeExactKeyEntry k :: ks.map encodeExactKeyEntry)
        = .ok (k.normalize :: ks.map ExactPublicKeyEntry.normalize) := by
    intro k ks
    exact decodeExactKeyEntryItems_map (k :: ks)
  rcases ctx with _ | _ | ⟨c, cs⟩ <;> rcases keys with _ | _ | ⟨k, ks⟩ <;>
    simp [encodeExactDID, decodeExactDID, member, GoMap.get, decodeString,
      decodeExactStrings, decodeExactKeyEntries, ExactDIDDocument.normalize, nilIfEmpty,
      hstr, hkey]

theorem normalize_entry_fixed (e : ExactPublicKeyEntry) :
    e.normalize = e ↔ e.PublicKeyJWK ≠ some [] := by
  obtain ⟨id, typ, controller, jwk⟩ := e
  rcases jwk with _ | _ | ⟨a, t⟩ <;> simp [ExactPublicKeyEntry.normalize, nilIfEmpty]

theorem normalize_entries_fixed (ks : List ExactPublicKeyEntry) :
    ks.map ExactPublicKeyEntry.normalize = ks ↔
      ks.all (fun e =>
        match e.PublicKeyJWK with
        | some [] => false
        | _ => true) = true := by
  induction ks with
  | nil => simp
  | cons k t ih =>
    simp only [List.map_cons, List.cons.injEq, ih, normalize_entry_fixed, List.all_cons,
      Bool.and_eq_true]
    obtain ⟨id, typ, controller, jwk⟩ := k
    rcases jwk with _ | _ | ⟨a, t'⟩ <;> simp

theorem normalize_fixed (d : ExactDIDDocument) :
    d.normalize = d ↔ d.noEmptyCollection = true := by
  obtain ⟨id, ctx, keys⟩ := d
  have hctx : nilIfEmpty ctx = ctx ↔
      (match ctx with
        | some [] => false
        | _ => true) = true := by
    rcases ctx with _ | _ | ⟨c, cs⟩ <;> simp [nilIfEmpty]
  have hkeys : nilIfEmpty (keys.map (List.map ExactPublicKeyEntry.normalize)) = keys ↔
      (match keys with
        | none => true
        | some [] => false
        | some ks => ks.all (fun e =>
            match e.PublicKeyJWK with
            | some [] => false
            | _ => true)) = true := by
    rcases keys with _ | _ | ⟨k, ks⟩
    · simp [nilIfEmpty]
    · simp [nilIfEmpty]
    · have h := normalize_entries_fixed (k :: ks)
      simp only [List.map_cons] at h
      simp only [Option.map, List.map_cons, nilIfEmpty, Option.some.injEq]
      exact h
  simp only [ExactDIDDocument.normalize, ExactDIDDocument.noEmptyCollection,
    ExactDIDDocument.mk.injEq, true_and, Bool.and_eq_true, hctx, hkeys]

theorem GetDIDExact_set_same (st : MemoryStore) (d : ExactDIDDocument) (hid : d.ID ≠ "") :
    WalletService.GetDIDExact memoryStore (GoMap.set st d.ID (encodeExactDID d)) d.ID
      = .ok d.normalize := by
  unfold WalletService.GetDIDExact
  rw [if_neg hid, LoadAs_set_same, decodeExactDID_encode]

/-- C30 (counterexample). The round trip does not return every value it is given.
`emptyContextDocument` has an empty, non-nil `@context`, which `omitempty` leaves out of the
record, so `GetDID` returns a document with a nil `@context`. `StoreVC` on an empty in-memory
store refuses `farFutureCredential`, whose ID is not empty and whose issuance date lies in
the year 10000: `json.Marshal` fails, nothing is stored, and `GetVC` for its ID fails. -/
theorem StoreVC_refuses_year_10000 :
    emptyContextDocument.ID ≠ "" ∧
    (WalletService.StoreDIDExact memoryStore NewMemoryStore emptyContextDocument).2 = none ∧
    WalletService.GetDIDExact memoryStore
      (WalletService.StoreDIDExact memoryStore NewMemoryStore emptyContextDocument).1
      emptyContextDocument.ID = .ok ⟨"did:telco:alice", none, none⟩ ∧
    emptyContextDocument.Context = some [] ∧
    farFutureCredential.ID ≠ "" ∧
    (∃ e, WalletService.StoreVC memoryStore NewMemoryStore farFutureCredential
      = (NewMemoryStore, some e)) ∧
    WalletService.GetVC memoryStore
      (WalletService.StoreVC memoryStore NewMemoryStore farFutureCredential).1
      farFutureCredential.ID
      = .error "failed to load VC: key not found: vc:did:telco:alice:1" :=
  ⟨by decide, rfl, rfl, rfl, by decide, ⟨_, rfl⟩, rfl⟩

/-- C30 (amended). On the in-memory store. `StoreDID(d)` succeeds for every document with a
non-empty ID, and `GetDID(d.ID)` then returns `d` with every empty slice and map replaced by
nil (they are tagged `omitempty`), which is `d` itself exactly when `d` has no empty non-nil
slice or map. `StoreVC(c)` for a credential with a non-empty ID succeeds when its dates, UTC
times, lie in the years 0 to 9999, and `GetVC(c.ID)` then returns `c`, subject claims
included; otherwise `StoreVC` returns an error and hands back the store state it was given.
The same holds of `StoreVP(p)` and `GetVP(p.Holder)` for a presentation with a non-empty
holder, the dates being those of the presentation, of its proof and of its credentials. -/
theorem wallet_store_get_round_trip (st : MemoryStore) (d : ExactDIDDocument)
    (c : VerifiableCredential) (p : VerifiablePresentation) :
    (d.ID ≠ "" →
      (WalletService.StoreDIDExact memoryStore st d).2 = none ∧
      WalletService.GetDIDExact memoryStore
        (WalletService.StoreDIDExact memoryStore st d).1 d.ID = .ok d.normalize ∧
      WalletService.GetDID memoryStore
        (WalletService.StoreDID memoryStore st d.toModel).1 d.ID = .ok d.toModel) ∧
    (d.normalize = d ↔ d.noEmptyCollection = true) ∧
    (c.ID ≠ "" → marshalsVC c = true →
      (WalletService.StoreVC memoryStore st c).2 = none ∧
      WalletService.GetVC memoryStore (WalletService.StoreVC memoryStore st c).1 c.ID
        = .ok c) ∧
    (c.ID ≠ "" → marshalsVC c = false →
      ∃ e, WalletService.StoreVC memoryStore st c = (st, some e)) ∧
    (p.Holder ≠ "" → marshalsVP p = true →
      (WalletService.StoreVP memoryStore st p).2 = none ∧
      WalletService.GetVP memoryStore (WalletService.StoreVP memoryStore st p).1 p.Holder
        = .ok p) ∧
    (p.Holder ≠ "" → marshalsVP p = false →
      ∃ e, WalletService.StoreVP memoryStore st p = (st, some e)) := by
  refine ⟨fun hd => ?_, normalize_fixed d, fun hc hm => ?_, fun hc hm => ?_, fun hp hm => ?_,
    fun hp hm => ?_⟩
  · have hd' : d.toModel.ID ≠ "" := hd
    have hid : d.toModel.ID = d.ID := rfl
    refine ⟨?_, ?_, ?_⟩
    · simp only [WalletService.StoreDIDExact, if_neg hd, MemoryStore.Save_set _ _ _ hd]
    · simp only [WalletService.StoreDIDExact, if_neg hd, MemoryStore.Save_set _ _ _ hd,
        GetDIDExact_set_same _ _ hd]
    · simp only [WalletService.StoreDID, if_neg hd', hid, MemoryStore.Save_set _ _ _ hd,
        WalletService.GetDID, if_neg hd, LoadAs_set_same, decodeDID_encodeDID]
  · obtain ⟨j, hj⟩ := encodeVC_of_dates c hm
    simp only [WalletService.StoreVC, if_neg hc, hj, MemoryStore.Save_set _ _ _ hc,
      WalletService.GetVC, LoadAs_set_same, decodeVC_encodeVC hj, true_and]
  · obtain ⟨e, he⟩ := encodeVC_refused c hm
    refine ⟨e, ?_⟩
    unfold WalletService.StoreVC
    rw [if_neg hc, he]
    show MemoryStore.Save st c.ID (.error e) = _
    unfold MemoryStore.Save
    rw [if_neg hc]
  · obtain ⟨j, hj⟩ := encodeVP_of_dates p hm
    have hk : "vp:" ++ p.Holder ≠ "" := literal_append_ne_empty 'v' ['p', ':'] p.Holder
    simp only [WalletService.StoreVP, if_neg hp, hj, MemoryStore.Save_set _ _ _ hk,
      WalletService.GetVP, LoadAs_set_same, decodeVP_encodeVP hj, true_and]
  · obtain ⟨e, he⟩ := encodeVP_refused p hm
    have hk : "vp:" ++ p.Holder ≠ "" := literal_append_ne_empty 'v' ['p', ':'] p.Holder
    refine ⟨e, ?_⟩
    unfold WalletService.StoreVP
    rw [if_neg hp, he]
    show MemoryStore.Save st ("vp:" ++ p.Holder) (.error e) = _
    unfold MemoryStore.Save
    rw [if_neg hk]

/-- C30 (witness). The round trips of a document without empty collections, of `vcA` and
of `unsignedPresentation` through the store `walletStore`, and the refusal of
`farFutureCredential` and `farFuturePresentation`. -/
theorem wallet_store_get_round_trip_witness :
    vcA.ID ≠ "" ∧ marshalsVC vcA = true ∧
    unsignedPresentation.Holder ≠ "" ∧ marshalsVP unsignedPresentation = true ∧
    marshalsVC farFutureCredential = false ∧ marshalsVP farFuturePresentation = false ∧
    WalletService.GetDIDExact memoryStore
      (WalletService.StoreDIDExact memoryStore walletStore
        ⟨"did:telco:alice", some ["https://www.w3.org/ns/did/v1"], none⟩).1
      "did:telco:alice"
      = .ok ⟨"did:telco:alice", some ["https://www.w3.org/ns/did/v1"], none⟩ ∧
    WalletService.GetVC memoryStore
      (WalletService.StoreVC memoryStore walletStore vcA).1 vcA.ID = .ok vcA ∧
    WalletService.GetVP memoryStore
      (WalletService.StoreVP memoryStore walletStore unsignedPresentation).1
      unsignedPresentation.Holder = .ok unsignedPresentation ∧
    (∃ e, WalletService.StoreVC memoryStore walletStore farFutureCredential
      = (walletStore, some e)) ∧
    (∃ e, WalletService.StoreVP memoryStore walletStore farFuturePresentation
      = (walletStore, some e)) :=
  have h := wallet_store_get_round_trip walletStore
    ⟨"did:telco:alice", some ["https://www.w3.org/ns/did/v1"], none⟩ vcA unsignedPresentation
  have h2 := wallet_store_get_round_trip walletStore
    ⟨"did:telco:alice", some ["https://www.w3.org/ns/did/v1"], none⟩ farFutureCredential
    farFuturePresentation
  ⟨by decide, by decide, by decide, by decide, by decide, by decide,
    (h.1 (by decide)).2.1, (h.2.2.1 (by decide) (by decide)).2,
    (h.2.2.2.2.1 (by decide) (by decide)).2,
    h2.2.2.2.1 (by decide) (by decide), h2.2.2.2.2.2 (by decide) (by decide)⟩

/-! ## Signing -/

theorem SignVCPtr_snd (L : GoLib) (vc : VerifiableCredential) (key : Bytes) :
    (cryptoService.SignVCPtr L vc key).2 = cryptoService.SignVC L vc key := by
  unfold cryptoService.SignVCPtr cryptoService.SignVC
  simp only
  split
  · rfl
  · split <;> rfl

theorem SignVCPtr_fst (L : GoLib) (vc : VerifiableCredential) (key : Bytes) :
    (cryptoService.SignVCPtr L vc key).1 = vc := by
  unfold cryptoService.SignVCPtr
  simp only
  split
  · rfl
  · split <;> rfl

/-- C33 (counterexample). `SignVC` does not succeed for every credential and 64-byte key:
for `farFutureCredential`, issued in the year 10000, `json.Marshal` fails and `SignVC`
returns that error and no signature. -/
theorem SignVC_fails_on_year_10000 :
    (keyAt sampleLib 1700000000000000000).length = 64 ∧
    ∃ e, cryptoService.SignVC sampleLib farFutureCredential
      (keyAt sampleLib 1700000000000000000) = .ret (.error e) :=
  ⟨by decide, _, rfl⟩

/-- C33 (amended). For every credential and every 64-byte private key: when the issuance
date and the expiration date, if any, UTC times, lie in the years 0 to 9999, `SignVC`
succeeds and returns the unpadded base64url text of the 64-byte `ed25519` signature of the
JSON text of the credential with its proof removed; otherwise `json.Marshal` fails and
`SignVC` returns an error. The result is the same whatever proof the credential carries, and
the struct behind the caller's pointer is after the call what it was before, its proof
included. -/
theorem SignVC_signs_credential_without_proof (L : GoLib) (vc : VerifiableCredential)
    (key : Bytes) (hlen : key.length = 64) :
    (marshalsVC { vc with Proof := none } = true →
      ∃ j,
        encodeVC { vc with Proof := none } = .ok j ∧
        (L.ed25519Sign key (L.jsonText j)).length = 64 ∧
        cryptoService.SignVC L vc key
          = .ret (.ok (L.base64RawURL (L.ed25519Sign key (L.jsonText j))))) ∧
    (marshalsVC { vc with Proof := none } = false →
      ∃ e, cryptoService.SignVC L vc key = .ret (.error e)) ∧
    cryptoService.SignVC L { vc with Proof := none } key = cryptoService.SignVC L vc key ∧
    (∀ p, cryptoService.SignVC L { vc with Proof := p } key = cryptoService.SignVC L vc key) ∧
    (cryptoService.SignVCPtr L vc key).1 = vc ∧
    (cryptoService.SignVCPtr L vc key).2 = cryptoService.SignVC L vc key := by
  refine ⟨fun hdates => ?_, fun hdates => ?_, rfl, fun p => rfl, SignVCPtr_fst L vc key,
    SignVCPtr_snd L vc key⟩
  · obtain ⟨j, hj⟩ := encodeVC_of_dates _ hdates
    refine ⟨j, hj, L.signatureSize _ _, ?_⟩
    unfold cryptoService.SignVC
    simp only [hj, hlen, ne_eq, not_true_eq_false, if_false]
  · obtain ⟨e, he⟩ := encodeVC_refused _ hdates
    refine ⟨e, ?_⟩
    unfold cryptoService.SignVC
    simp only [he]

/-- C33 (witness). The statement for `vcA` and the key of the sample issuer: the signature
of `vcA` is the signature of `vcUnsigned`, and `vcA` keeps its proof. -/
theorem SignVC_signs_credential_without_proof_witness :
    (keyAt sampleLib 1700000000000000000).length = 64 ∧
    marshalsVC { vcA with Proof := none } = true ∧
    cryptoService.SignVC sampleLib vcUnsigned (keyAt sampleLib 1700000000000000000)
      = cryptoService.SignVC sampleLib vcA (keyAt sampleLib 1700000000000000000) ∧
    (∃ jws, cryptoService.SignVC sampleLib vcA (keyAt sampleLib 1700000000000000000)
      = .ret (.ok jws)) ∧
    (cryptoService.SignVCPtr sampleLib vcA (keyAt sampleLib 1700000000000000000)).1.Proof
      = vcA.Proof ∧
    vcA.Proof.isSome = true :=
  have h := SignVC_signs_credential_without_proof sampleLib vcA
    (keyAt sampleLib 1700000000000000000) (by decide)
  ⟨by decide, by decide, h.2.2.1, (h.1 (by decide)).elim (fun _ hj => ⟨_, hj.2.2⟩),
    congrArg VerifiableCredential.Proof h.2.2.2.2.1, rfl⟩

theorem methodListed_congr {st1 st2 : MemoryStore} {vc : VerifiableCredential}
    (h : GoMap.get st1 vc.Issuer = GoMap.get st2 vc.Issuer) :
    methodListed st1 vc = methodListed st2 vc := by
  have hl : memoryStore.LoadAs st1 vc.Issuer decodeDID
      = memoryStore.LoadAs st2 vc.Issuer decodeDID := by
    show (match MemoryStore.Load st1 vc.Issuer with
      | Except.error e => Except.error e
      | Except.ok j => decodeDID j) = (match MemoryStore.Load st2 vc.Issuer with
      | Except.error e => Except.error e
      | Except.ok j => decodeDID j)
    unfold MemoryStore.Load
    rw [h]
  simp only [methodListed, issuerService.ResolveDID, hl]

theorem methodListed_step {L : GoLib} (st : MemoryStore) (op : Op) {x : String}
    {vc : VerifiableCredential} {p : Proof}
    (hi : vc.Issuer = "did:" ++ x) (hp : vc.Proof = some p)
    (hvm : p.VerificationMethod = ("did:" ++ x) ++ "#key-1") :
    methodListed (Op.run L st op) vc
      = ((op.listing ("did:" ++ x)).getD (methodListed st vc)) := by
  have hne : "did:" ++ x ≠ "" := literal_append_ne_empty 'd' ['i', 'd', ':'] x
  have hframe : ("did:" ++ x) ∉ op.writes →
      methodListed (Op.run L st op) vc = methodListed st vc := by
    intro hw
    apply methodListed_congr
    rw [hi]
    exact Op.run_get_other L st op _ hw
  cases op with
  | generateDID now uuid method opts =>
    by_cases hd : issuerService.newDID uuid method opts = "did:" ++ x
    · simp only [Op.listing, if_pos hd, Option.getD_some]
      have hl := listsKey_minted L st now uuid method opts
      rw [hd] at hl
      exact methodListed_of_listsKey hp (by rw [hi, hvm]) (hi ▸ hl)
    · simp only [Op.listing, if_neg hd, Option.getD_none]
      apply hframe
      simp only [Op.writes, List.mem_cons, List.mem_singleton, List.not_mem_nil, or_false,
        not_or]
      exact ⟨did_ne_privatekey _ _, fun e => hd e.symm⟩
  | createVC now uuid req =>
    simp only [Op.listing, Option.getD_none]
    apply hframe
    have hid : (issuerService.unsignedVC now uuid req).ID
        = "vc:" ++ (req.SubjectDID ++ (":" ++
            if optionID req.Options = "" then uuid else optionID req.Options)) := by
      simp only [issuerService.unsignedVC, String.append_assoc]
    simp only [Op.writes, List.mem_singleton, hid]
    exact did_ne_vc _ _
  | storeDID doc =>
    by_cases hd : doc.ID = "did:" ++ x
    · have hrun : Op.run L st (.storeDID doc)
          = GoMap.set st ("did:" ++ x) (encodeDID doc) := by
        simp only [Op.run, WalletService.StoreDID, hd, if_neg hne,
          MemoryStore.Save_set _ _ _ hne]
      simp only [Op.listing, if_pos hd, Option.getD_some, methodListed, hp, hi,
        issuerService.ResolveDID, hrun, LoadAs_set_same, decodeDID_encodeDID, hvm]
    · simp only [Op.listing, if_neg hd, Option.getD_none]
      apply hframe
      simp only [Op.writes, List.mem_singleton]
      exact fun e => hd e.symm
  | storeVC c =>
    by_cases hd : c.ID = "did:" ++ x
    · by_cases hm : marshalsVC c = true
      · obtain ⟨j, hj⟩ := encodeVC_of_dates c hm
        have hrun : Op.run L st (.storeVC c) = GoMap.set st ("did:" ++ x) j := by
          simp only [Op.run, WalletService.StoreVC, hd, if_neg hne, hj,
            MemoryStore.Save_set _ _ _ hne]
        simp only [Op.listing, hd, hm, and_self, if_true, Option.getD_some, methodListed,
          hp, hi, issuerService.ResolveDID, hrun, LoadAs_set_same,
          decodeDID_of_encodeVC hj, List.any_nil]
      · obtain ⟨e, he⟩ := encodeVC_refused c (by simpa using hm)
        have hrun : Op.run L st (.storeVC c) = st := by
          simp only [Op.run, WalletService.StoreVC, hd, if_neg hne, he]
          show (MemoryStore.Save st ("did:" ++ x) (.error e)).1 = st
          unfold MemoryStore.Save
          rw [if_neg hne]
        have hm' : marshalsVC c = false := by simpa using hm
        simp only [Op.listing, hm', Bool.false_eq_true, and_false, if_false,
          Option.getD_none, hrun]
    · have hl : (Op.storeVC c).listing ("did:" ++ x) = none := by
        simp only [Op.listing, hd, false_and, if_false]
      rw [hl, Option.getD_none]
      apply hframe
      simp only [Op.writes, List.mem_singleton]
      exact fun e => hd e.symm
  | storeVP vp =>
    simp only [Op.listing, Option.getD_none]
    apply hframe
    simp only [Op.writes, List.mem_singleton]
    exact did_ne_vp _ _
  | buildVP now1 now2 vcIDs revealFields nonce =>
    simp only [Op.listing, Option.getD_none]
    apply hframe
    simp only [Op.writes, List.mem_singleton]
    exact did_ne_vp _ _

theorem methodListed_foldl {L : GoLib} (ops : List Op) (st : MemoryStore) {x : String}
    {vc : VerifiableCredential} {p : Proof}
    (hi : vc.Issuer = "did:" ++ x) (hp : vc.Proof = some p)
    (hvm : p.VerificationMethod = ("did:" ++ x) ++ "#key-1") :
    methodListed (ops.foldl (Op.run L) st) vc
      = ops.foldl (fun listed op => (op.listing ("did:" ++ x)).getD listed)
          (methodListed st vc) := by
  induction ops generalizing st with
  | nil => rfl
  | cons op rest ih =>
    rw [List.foldl_cons, List.foldl_cons, ih, methodListed_step st op hi hp hvm]

/-- C8 (amended). On an in-memory store driven from empty by issuer and wallet calls, a
credential returned by a successful `CreateVC` has, in a later state, a
`Proof.VerificationMethod` that is the ID of a verification-method entry of the DID document
stored under the credential's `Issuer` exactly when the last call that wrote under the
issuer's identifier, before or after the `CreateVC`, wrote a document that lists the method:
a `GenerateDID` that yields the identifier or a wallet `StoreDID` of such a document, and
not a wallet `StoreDID` of another document or a wallet `StoreVC`. In particular the method
is listed when every call before and after the `CreateVC` keeps the listing, and a call
that does not keep it leaves, in whatever state it runs, a record that does not list the
method. -/
theorem issuer_key_stays_listed (L : GoLib) (pre post : List Op) (now : Time)
    (uuid : String) (req : VCRequest) (st' : MemoryStore) (vc : VerifiableCredential)
    (h : issuerService.CreateVC memoryStore L (runOps L pre) now uuid (some req)
      = (st', .ret (.ok vc))) :
    methodListed (runOps L (pre ++ Op.createVC now uuid req :: post)) vc
      = listedAfter req.IssuerDID (pre ++ Op.createVC now uuid req :: post) ∧
    ((∀ op ∈ pre, op.keepsListing req.IssuerDID = true) →
      (∀ op ∈ post, op.keepsListing req.IssuerDID = true) →
      methodListed (runOps L (pre ++ Op.createVC now uuid req :: post)) vc = true) ∧
    ∀ (op : Op) (st : MemoryStore), op.keepsListing req.IssuerDID = false →
      methodListed (Op.run L st op) vc = false := by
  obtain ⟨-, -, key, jws, hres, -, hvc, -⟩ := CreateVC_ok_inv h
  obtain ⟨-, -, hlen, hload⟩ := resolvePrivateKey_ok hres
  -- the private key record read by `resolvePrivateKey`
  have hget : GoMap.get (runOps L pre) ("privatekey:" ++ (req.IssuerDID ++ "#key-1"))
      = some (.bytes key) := by
    change (match MemoryStore.Load (runOps L pre)
        ("privatekey:" ++ (req.IssuerDID ++ "#key-1")) with
      | Except.error e => Except.error e
      | Except.ok j => decodeBytes j) = Except.ok key at hload
    unfold MemoryStore.Load at hload
    cases hg : GoMap.get (runOps L pre) ("privatekey:" ++ (req.IssuerDID ++ "#key-1")) with
    | none => rw [hg] at hload; cases hload
    | some j =>
      rw [hg] at hload
      rw [decodeBytes_length hload hlen]
  -- a key record sits under the key of an identifier that starts with `did:`
  obtain ⟨x, hx⟩ := key_records_at_issuers L pre NewMemoryStore
    (fun key bs hb => nomatch hb) _ _ hget
  have hdid : req.IssuerDID = "did:" ++ x := append_right_cancel (append_left_cancel hx)
  have hp : vc.Proof = some ⟨"JsonWebSignature2020",
      (issuerService.unsignedVC now uuid req).IssuanceDate, "assertionMethod",
      req.IssuerDID ++ "#key-1", jws, ""⟩ := by rw [hvc]; rfl
  have hi : vc.Issuer = req.IssuerDID := by rw [hvc]; rfl
  rw [hdid] at hget hp hi ⊢
  refine ⟨?_, fun hpre hpost => ?_, fun op st hop => methodListed_lost hi hp rfl hop⟩
  · have h0 : methodListed NewMemoryStore vc = false := by
      simp only [methodListed, hp]
      rfl
    have hfold := methodListed_foldl (L := L) (pre ++ Op.createVC now uuid req :: post)
      NewMemoryStore hi hp rfl
    rw [h0] at hfold
    exact hfold
  -- the document is listed when `CreateVC` runs, and stays so through the later calls
  have hl : listsKey (runOps L pre) ("did:" ++ x) :=
    listed_if_keyed L pre NewMemoryStore x hpre (fun ⟨bs, hb⟩ => nomatch hb) ⟨key, hget⟩
  have hfinal : listsKey (runOps L (pre ++ Op.createVC now uuid req :: post))
      ("did:" ++ x) := by
    rw [runOps_append]
    exact listsKey_kept_foldl L _ _ x
      (fun o ho => by
        rcases List.mem_cons.mp ho with rfl | ho
        · rfl
        · exact hpost o ho) hl
  exact methodListed_of_listsKey hp (by rw [hi]) (hi ▸ hfinal)

/-- C8 (witness). The amended statement for a run in which the wallet stores documents
under other `did:` identifiers before and after the credential is issued, stores the
issuer's own document again and offers a credential that is refused under the issuer's
identifier; and for a run in which the wallet replaces the issuer's document and the issuer
mints the identifier again before the credential is issued. -/
theorem issuer_key_stays_listed_witness :
    (∀ op ∈ earlierCalls, op.keepsListing overrideRequest.IssuerDID = true) ∧
    (∀ op ∈ laterWalletCalls, op.keepsListing overrideRequest.IssuerDID = true) ∧
    (issuerService.CreateVC memoryStore sampleLib (runOps sampleLib earlierCalls)
        1700000100000000000 "" (some overrideRequest)).2 = .ret (.ok sampleCredential) ∧
    methodListed
      (runOps sampleLib
        (earlierCalls ++ Op.createVC 1700000100000000000 "" overrideRequest
          :: laterWalletCalls))
      sampleCredential = true ∧
    methodListed (Op.run sampleLib NewMemoryStore (.storeDID blankDocument))
      sampleCredential = false ∧
    (issuerService.CreateVC memoryStore sampleLib (runOps sampleLib remintCalls)
        1700000100000000000 "" (some overrideRequest)).2 = .ret (.ok sampleCredential) ∧
    methodListed
      (runOps sampleLib
        (remintCalls ++ Op.createVC 1700000100000000000 "" overrideRequest :: []))
      sampleCredential
      = listedAfter overrideRequest.IssuerDID
          (remintCalls ++ Op.createVC 1700000100000000000 "" overrideRequest :: []) ∧
    listedAfter overrideRequest.IssuerDID
      (remintCalls ++ Op.createVC 1700000100000000000 "" overrideRequest :: []) = true :=
  have h := issuer_key_stays_listed sampleLib earlierCalls laterWalletCalls
    1700000100000000000 "" overrideRequest _ sampleCredential rfl
  have h2 := issuer_key_stays_listed sampleLib remintCalls []
    1700000100000000000 "" overrideRequest _ sampleCredential rfl
  ⟨by decide, by decide, rfl, h.2.1 (by decide) (by decide), h.2.2 _ _ (by decide), rfl,
    h2.1, by decide⟩

end Wallet6G
